import Mathlib

/-!
# sqlfmt: the AST-to-sink rendering of `parsed_types.go`

A shallow embedding of the AST node catalogue of `parsed_types.go` and of every
`RenderTo` method, followed by theorems about the layout the methods produce.

A `RenderTo` method has no result: it drives a `Renderer` through its five
operations.  The embedding records the operations it performs, in order, as a
list of `Call`s.  A method that dereferences a nil required child does not
return; the embedding gives `none` for it.
-/

set_option autoImplicit false

namespace Sqlfmt

/-- Modelled from the spec: the `Renderer` sink, whose declaration is not among the
sources.  It has five operations (`Text(val, typ)`, `Space()`, `NewLine()`,
`Indent()`, `Unindent()`); one `Call` is one invocation of one of them. -/
inductive Call where
  | Text (val : String) (typ : String)
  | Space
  | NewLine
  | Indent
  | Unindent
  deriving DecidableEq, Repr

/-- Runs the statements of a method body in order: the calls of all parts, or `none`
as soon as one part does not return. -/
def emit : List (Option (List Call)) → Option (List Call)
  | [] => some []
  | none :: _ => none
  | some a :: ps => (emit ps).map fun b => a ++ b

/-- An `if` without `else` around sink calls that cannot fail. -/
def emitIf (c : Bool) (calls : List Call) : Option (List Call) :=
  if c then some calls else some []

/-! ## Nodes that contain no expression -/

/-- Go `type AnyName []string` -/
abbrev AnyName := List String

/-- Go `type IntegerConst string` -/
abbrev IntegerConst := String

/-- The loop of `AnyName.RenderTo`: each part, and a period after every part but the
last. -/
def AnyName.RenderTo : AnyName → List Call
  | [] => []
  | [n] => [.Text n "identifer"]
  | n :: m :: rest => .Text n "identifer" :: .Text "." "period" :: AnyName.RenderTo (m :: rest)

/-- Go `type IntervalSecond struct` -/
structure IntervalSecond where
  Precision : IntegerConst
  deriving DecidableEq, Repr

/-- Go `func (s IntegerConst) RenderTo` -/
def IntegerConst.RenderTo (s : IntegerConst) : List Call :=
  [.Text s "IntegerConst"]

/-- Go `func (is IntervalSecond) RenderTo` -/
def IntervalSecond.RenderTo (is : IntervalSecond) : List Call :=
  [.Text "second" "keyword"] ++
  (if is.Precision ≠ "" then
    [.Text "(" "lparen"] ++ IntegerConst.RenderTo is.Precision ++ [.Text ")" "rparen"]
   else [])

/-- Go `type OptInterval struct` -/
structure OptInterval where
  Left : String
  Right : String
  Second : Option IntervalSecond
  deriving DecidableEq, Repr

/-- Go `func (oi OptInterval) RenderTo` -/
def OptInterval.RenderTo (oi : OptInterval) : List Call :=
  (if oi.Left ≠ "" then [.Text oi.Left "keyword"] else []) ++
  (if oi.Right ≠ "" then [.Space, .Text "to" "keyword", .Space, .Text oi.Right "keyword"]
   else []) ++
  (match oi.Second with
   | some sec => (if oi.Left ≠ "" then [.Space] else []) ++ IntervalSecond.RenderTo sec
   | none => [])

/-- Go `type SubqueryOp struct` -/
structure SubqueryOp where
  Operator : Bool
  Name : AnyName
  deriving DecidableEq, Repr

/-- Go `func (s SubqueryOp) RenderTo` -/
def SubqueryOp.RenderTo (s : SubqueryOp) : List Call :=
  (if s.Operator then [.Text "operator" "keyword", .Text "(" "lparen"] else []) ++
  AnyName.RenderTo s.Name ++
  (if s.Operator then [.Text ")" "lparen"] else [])

/-- Go `type IntoClause struct` -/
structure IntoClause where
  Options : String
  OptTable : Bool
  Target : AnyName
  deriving DecidableEq, Repr

/-- Go `func (i IntoClause) RenderTo` -/
def IntoClause.RenderTo (i : IntoClause) : List Call :=
  [.Text "into" "keyword", .Space] ++
  (if i.Options ≠ "" then [.Text i.Options "keyword", .Space] else []) ++
  (if i.OptTable then [.Text "table" "keyword", .Space] else []) ++
  AnyName.RenderTo i.Target ++
  [.NewLine]

/-- Go `type LockingItem struct`; `LockedRels` is `none` for a nil slice. -/
structure LockingItem where
  Strength : String
  LockedRels : Option (List AnyName)
  WaitPolicy : String
  deriving DecidableEq, Repr

/-- The loop over `li.LockedRels`: each name, and comma and space after every name but
the last. -/
def LockingItem.renderRels : List AnyName → List Call
  | [] => []
  | [lr] => AnyName.RenderTo lr
  | lr :: lr2 :: rest =>
    AnyName.RenderTo lr ++ [.Text "," "comma", .Space] ++ LockingItem.renderRels (lr2 :: rest)

/-- Go `func (li LockingItem) RenderTo` -/
def LockingItem.RenderTo (li : LockingItem) : List Call :=
  [.Text "for" "keyword", .Space, .Text li.Strength "keyword"] ++
  (match li.LockedRels with
   | some rels => [.Space, .Text "of" "keyword", .Space] ++ LockingItem.renderRels rels
   | none => []) ++
  (if li.WaitPolicy ≠ "" then [.Space, .Text li.WaitPolicy "keyword"] else []) ++
  [.NewLine]

/-- Go `type LockingClause struct` -/
structure LockingClause where
  Locks : List LockingItem
  deriving DecidableEq, Repr

/-- Go `func (lc LockingClause) RenderTo` -/
def LockingClause.RenderTo (lc : LockingClause) : List Call :=
  (lc.Locks.map LockingItem.RenderTo).flatten

/-- Go `type RelationExpr struct` -/
structure RelationExpr where
  Name : AnyName
  Star : Bool
  Only : Bool
  deriving DecidableEq, Repr

/-- Go `func (re RelationExpr) RenderTo` -/
def RelationExpr.RenderTo (re : RelationExpr) : List Call :=
  (if re.Only then [.Text "only" "keyword", .Space] else []) ++
  AnyName.RenderTo re.Name ++
  (if re.Star then [.Space, .Text "*" "star"] else []) ++
  [.NewLine]

/-- The loop over `s.Using` in `JoinExpr.RenderTo`: each column, and comma and space
after every column but the last. -/
def JoinExpr.renderUsing : List String → List Call
  | [] => []
  | [u] => [.Text u "identifier"]
  | u :: v :: rest =>
    .Text u "identifier" :: .Text "," "comma" :: .Space :: JoinExpr.renderUsing (v :: rest)

/-- The loop over `t.ArrayBounds` in `PgType.RenderTo`. -/
def PgType.renderArrayBounds : List IntegerConst → List Call
  | [] => []
  | ab :: rest =>
    .Text "[" "lbracket" :: .Text ab "IntegerConst" :: .Text "]" "lbracket" ::
      PgType.renderArrayBounds rest

/-! ## The expression tree

`Expr` is the Go interface `Expr`.  Every type of the file with a `RenderTo` method is
one variant, named after the type and carrying the fields of the type in the order of
the declaration.

A field whose Go type is itself a node type that contains expressions (`PgType`,
`*OrderClause`, `WindowSpecification`, ...) is held as an `Expr`: the call
`x.F.RenderTo(r)` on such a field is the `RenderTo` of the node the field holds.  The Go
type of every such field is given next to it.  A well-typed tree holds in each of these
fields the variant of that type; the types without expressions inside (`AnyName`,
`OptInterval`, `IntoClause`, `LockingClause`, `RelationExpr`, ...) keep their own type.

A field of interface or pointer type is an `Option` (`none` is nil).  A slice is a
`List`, and an `Option` of a `List` where the code tells a nil slice from an empty
one.  A type conversion (`ExtractList(ee)`, `OrderClause(w)`, `SelectStmt(e)`) is a
variant around the node of the converted type. -/

/-- Go `type Expr interface`, and the node types that implement it. -/
inductive Expr where
  /-- Go `TypeMods []Expr` -/
  | PgType (Name : AnyName) (OptInterval : Option OptInterval) (Setof : Bool)
      (ArrayWord : Bool) (ArrayBounds : List IntegerConst) (TypeMods : List Expr)
      (CharSet : String) (WithTimeZone : Bool)
  | AnyName (an : AnyName)
  /-- Go `Indirection Indirection` -/
  | ColumnRef (Name : String) (Indirection : List Expr)
  /-- Go `type Indirection []IndirectionEl` -/
  | Indirection (i : List Expr)
  | IndirectionEl (Name : String) (LowerSubscript : Option Expr) (UpperSubscript : Option Expr)
  | StringConst (s : String)
  | IntegerConst (s : IntegerConst)
  | FloatConst (s : String)
  | BoolConst (b : Bool)
  | NullConst
  | BitConst (b : String)
  | BooleanExpr (Left : Option Expr) (Operator : String) (Right : Option Expr)
  | BinaryExpr (Left : Option Expr) (Operator : AnyName) (Right : Option Expr)
  /-- Go `type ArrayConstructorExpr ArrayExpr` -/
  | ArrayConstructorExpr (ace : Expr)
  /-- Go `type ArrayExpr []Expr` -/
  | ArrayExpr (a : List Expr)
  | TextOpWithEscapeExpr (Left : Option Expr) (Operator : String) (Right : Option Expr)
      (Escape : Option Expr)
  | UnaryExpr (Operator : AnyName) (Operand : Option Expr)
  | PostfixExpr (Operand : Option Expr) (Operator : AnyName)
  | SubqueryOpExpr (Value : Option Expr) (Op : SubqueryOp) (Typ : String) (Query : Option Expr)
  | SubqueryOp (s : SubqueryOp)
  | WhenClause (When : Option Expr) (Then : Option Expr)
  | InExpr (Value : Option Expr) (Not : Bool) (In : Option Expr)
  | BetweenExpr (Operand : Option Expr) (Not : Bool) (Symmetric : Bool) (Left : Option Expr)
      (Right : Option Expr)
  /-- Go `WhenClauses []WhenClause` -/
  | CaseExpr (CaseArg : Option Expr) (WhenClauses : List Expr) (Default : Option Expr)
  /-- Go `Indirection Indirection` -/
  | ParenExpr (Operand : Option Expr) (Indirection : List Expr)
  /-- Go `Typename PgType` -/
  | TypecastExpr (Operand : Option Expr) (Typename : Expr)
  /-- Go `Typename PgType` -/
  | ConstTypeExpr (Typename : Expr) (Operand : Option Expr)
  | ConstIntervalExpr (Precision : IntegerConst) (Value : Option Expr)
      (OptInterval : Option OptInterval)
  | OptInterval (oi : OptInterval)
  | IntervalSecond (is : IntervalSecond)
  /-- Go `type ExtractExpr ExtractList` -/
  | ExtractExpr (ee : Expr)
  | ExtractList (Extract : Option Expr) (Time : Option Expr)
  /-- Go `type OverlayExpr OverlayList` -/
  | OverlayExpr (oe : Expr)
  | OverlayList (Dest : Option Expr) (Placing : Option Expr) (From : Option Expr)
      (For : Option Expr)
  /-- Go `type PositionExpr PositionList` -/
  | PositionExpr (pe : Expr)
  | PositionList (Substring : Option Expr) (String : Option Expr)
  /-- Go `type SubstrExpr SubstrList` -/
  | SubstrExpr (se : Expr)
  | SubstrList (Source : Option Expr) (From : Option Expr) (For : Option Expr)
  /-- Go `Direction string` and the embedded `TrimList` -/
  | TrimExpr (Direction : String) (TrimList : Expr)
  | TrimList (Left : Option Expr) (From : Bool) (Right : List Expr)
  /-- Go `Attributes XmlAttributes` (nil or a slice), `Body []Expr` -/
  | XmlElement (Name : String) (Attributes : Option Expr) (Body : List Expr)
  /-- Go `type XmlAttributes []XmlAttributeEl` -/
  | XmlAttributes (attrs : List Expr)
  | XmlAttributeEl (Value : Option Expr) (Name : String)
  /-- Go `Body XmlExistsArgument` -/
  | XmlExists (Path : Option Expr) (Body : Expr)
  | XmlExistsArgument (LeftByRef : Bool) (Arg : Option Expr) (RightByRef : Bool)
  /-- Go `type XmlForest []XmlAttributeEl` -/
  | XmlForest (f : List Expr)
  /-- Go `type xmlAttributes []XmlAttributeEl` -/
  | xmlAttributes (attrs : List Expr)
  | XmlParse (Typ : String) (Content : Option Expr) (WhitespaceOption : String)
  | XmlPi (Name : String) (Content : Option Expr)
  /-- Go `Version XmlRootVersion` -/
  | XmlRoot (Xml : Option Expr) (Version : Expr) (Standalone : String)
  | XmlRootVersion (Operand : Option Expr)
  /-- Go `Type PgType` -/
  | XmlSerialize (XmlType : String) (Content : Option Expr) (Typ : Expr)
  | CollateExpr (Operand : Option Expr) (Collation : AnyName)
  | NotExpr (Operand : Option Expr)
  | IsExpr (Operand : Option Expr) (Not : Bool) (Op : String)
  | AliasedExpr (Operand : Option Expr) (Alias : String)
  | IntoClause (i : IntoClause)
  | FromClause (Operand : Option Expr)
  | JoinExpr (Left : Option Expr) (Join : String) (Right : Option Expr) (Using : List String)
      (On : Option Expr)
  | WhereClause (Operand : Option Expr)
  | OrderExpr (Operand : Option Expr) (Order : String) (Using : AnyName) (Nulls : String)
  /-- Go `Exprs []OrderExpr` -/
  | OrderClause (Exprs : List Expr)
  | GroupByClause (Exprs : List Expr)
  | LimitClause (Limit : Option Expr) (Offset : Option Expr)
  | AtTimeZoneExpr (Operand : Option Expr) (TimeZone : Option Expr)
  | LockingItem (li : LockingItem)
  | LockingClause (lc : LockingClause)
  | FuncExprNoParens (fe : String)
  /-- The embedded `FuncApplication`, `*WithinGroupClause`, `*FilterClause`,
  `*OverClause` -/
  | FuncExpr (FuncApplication : Expr) (WithinGroupClause : Option Expr)
      (FilterClause : Option Expr) (OverClause : Option Expr)
  /-- Go `Args []FuncArg`, `VariadicArg *FuncArg`, `OrderClause *OrderClause` -/
  | FuncApplication (Name : AnyName) (Distinct : Bool) (Star : Bool) (Args : List Expr)
      (VariadicArg : Option Expr) (OrderClause : Option Expr)
  | FuncArg (Name : String) (NameOp : String) (Operand : Option Expr)
  /-- Go `Type PgType` -/
  | CastFunc (Name : String) (Operand : Option Expr) (Typ : Expr)
  /-- Go `Types []PgType` -/
  | IsOfExpr (Operand : Option Expr) (Not : Bool) (Types : List Expr)
  /-- Go `type WithinGroupClause OrderClause` -/
  | WithinGroupClause (w : Expr)
  /-- The embedded interface `Expr` -/
  | FilterClause (Operand : Option Expr)
  | DefaultExpr (d : Bool)
  | Row (RowWord : Bool) (Exprs : List Expr)
  /-- Go `type ValuesRow []Expr` -/
  | ValuesRow (vr : List Expr)
  /-- Go `type ValuesClause []ValuesRow` -/
  | ValuesClause (vc : List Expr)
  /-- Go `Specification *WindowSpecification` -/
  | OverClause (Name : String) (Specification : Option Expr)
  /-- Go `type WindowClause []WindowDefinition` -/
  | WindowClause (wc : List Expr)
  /-- Go `Specification WindowSpecification` -/
  | WindowDefinition (Name : String) (Specification : Expr)
  /-- Go `PartitionClause PartitionClause` (nil or a slice), `*OrderClause`, `*FrameClause` -/
  | WindowSpecification (ExistingName : String) (PartitionClause : Option Expr)
      (OrderClause : Option Expr) (FrameClause : Option Expr)
  /-- Go `type PartitionClause []Expr` -/
  | PartitionClause (pc : List Expr)
  /-- Go `Start *FrameBound`, `End *FrameBound` -/
  | FrameClause (Mode : String) (Start : Option Expr) (End : Option Expr)
  | FrameBound (CurrentRow : Bool) (BoundExpr : Option Expr) (Direction : String)
  | RelationExpr (re : RelationExpr)
  /-- Go `DistinctList []Expr` (nil or a slice), `TargetList []Expr`, `*FromClause`,
  `*WhereClause`, `*GroupByClause`, `HavingClause Expr`, `WindowClause` (nil or a slice),
  `ValuesClause` (nil or a slice), `LeftSelect *SelectStmt`, `RightSelect *SelectStmt` -/
  | SimpleSelect (DistinctList : Option (List Expr)) (TargetList : List Expr)
      (IntoClause : Option IntoClause) (FromClause : Option Expr)
      (WhereClause : Option Expr) (GroupByClause : Option Expr)
      (HavingClause : Option Expr) (WindowClause : Option Expr)
      (ValuesClause : Option Expr)
      (LeftSelect : Option Expr) (SetOp : String) (SetAll : Bool)
      (RightSelect : Option Expr)
      (Table : Option RelationExpr)
  /-- The embedded `SimpleSelect`, `*OrderClause`, `*LimitClause`, `*LockingClause` -/
  | SelectStmt (SimpleSelect : Expr) (OrderClause : Option Expr)
      (LimitClause : Option Expr) (LockingClause : Option LockingClause)
      (ParenWrapped : Bool) (Semicolon : Bool)
  /-- Go `type ExistsExpr SelectStmt` -/
  | ExistsExpr (e : Expr)
  /-- Go `type ArraySubselect SelectStmt` -/
  | ArraySubselect (a : Expr)

/-! ## Rendering -/

mutual

/-- The `RenderTo` methods, one arm per node type, each the body of the method in
statement order.  A required child that is nil makes the method call through nil, so
the arm gives `none`. -/
def Expr.RenderTo : Expr → Option (List Call)
  | .PgType name optInterval setof arrayWord arrayBounds typeMods charSet withTimeZone =>
    emit [
      emitIf setof [.Text "setof" "keyword", .Space],
      some (AnyName.RenderTo name),
      (match optInterval with
       | some oi => some (.Space :: OptInterval.RenderTo oi)
       | none => some []),
      emitIf arrayWord [.Space, .Text "array" "keyword"],
      some (PgType.renderArrayBounds arrayBounds),
      (if typeMods.length > 0 then
         emit [some [.Text "(" "lparen"],
               Expr.renderLoop typeMods [] [.Text "," "comma", .Space] [],
               some [.Text ")" "rparen"]]
       else some []),
      emitIf withTimeZone [.Space, .Text "with time zone" "keyword"],
      emitIf (charSet != "")
        [.Space, .Text "character set" "keyword", .Space, .Text charSet "charset"]]
  | .AnyName an => some (AnyName.RenderTo an)
  | .ColumnRef name indirection =>
    emit [some [.Text name "identifer"], Expr.renderLoop indirection [] [] []]
  | .Indirection i => Expr.renderLoop i [] [] []
  | .IndirectionEl name lowerSubscript upperSubscript =>
    if lowerSubscript.isSome then
      emit [some [.Text "[" "lbracket"],
            Expr.renderReq lowerSubscript,
            Expr.renderOpt upperSubscript [.Text ":" "colon"] [],
            some [.Text "]" "rbracket"]]
    else some [.Text "." "period", .Text name "identifier"]
  | .StringConst s => some [.Text s "StringConst"]
  | .IntegerConst s => some (IntegerConst.RenderTo s)
  | .FloatConst s => some [.Text s "floatConstant"]
  | .BoolConst b =>
    if b then some [.Text "true" "BoolConst"] else some [.Text "false" "BoolConst"]
  | .NullConst => some [.Text "null" "NullConst"]
  | .BitConst b => some [.Text b "bitConstant"]
  | .BooleanExpr left operator right =>
    emit [Expr.renderReq left,
          some [.NewLine, .Text operator "operator", .Space],
          Expr.renderReq right]
  | .BinaryExpr left operator right =>
    emit [Expr.renderReq left,
          some [.Space],
          some (AnyName.RenderTo operator),
          some [.Space],
          Expr.renderReq right]
  | .ArrayConstructorExpr ace =>
    emit [some [.Text "array" "keyword"], Expr.RenderTo ace]
  | .ArrayExpr a =>
    emit [some [.Text "[" "lbracket"],
          Expr.renderLoop a [] [.Text "," "comma", .Space] [],
          some [.Text "]" "rbracket"]]
  | .TextOpWithEscapeExpr left operator right escape =>
    emit [Expr.renderReq left,
          some [.Space, .Text operator "operator", .Space],
          Expr.renderReq right,
          Expr.renderOpt escape [.Space, .Text "escape" "keyword", .Space] []]
  | .UnaryExpr operator operand =>
    emit [some (AnyName.RenderTo operator), Expr.renderReq operand]
  | .PostfixExpr operand operator =>
    emit [Expr.renderReq operand, some [.Space], some (AnyName.RenderTo operator)]
  | .SubqueryOpExpr value op typ query =>
    emit [Expr.renderReq value,
          some [.Space],
          some (SubqueryOp.RenderTo op),
          some [.Space, .Text typ "keyword", .Space],
          Expr.renderReq query]
  | .SubqueryOp s => some (SubqueryOp.RenderTo s)
  | .WhenClause when_ then_ =>
    emit [some [.Text "when" "keyword", .Space],
          Expr.renderReq when_,
          some [.Space, .Text "then" "keyword", .NewLine, .Indent],
          Expr.renderReq then_,
          some [.NewLine, .Unindent]]
  | .InExpr value not_ in_ =>
    emit [Expr.renderReq value,
          some [.Space],
          emitIf not_ [.Text "not" "keyword", .Space],
          some [.Text "in" "keyword", .Space],
          Expr.renderReq in_]
  | .BetweenExpr operand not_ symmetric left right =>
    emit [Expr.renderReq operand,
          some [.Space],
          emitIf not_ [.Text "not" "keyword", .Space],
          some [.Text "between" "keyword", .Space],
          emitIf symmetric [.Text "symmetric" "keyword", .Space],
          Expr.renderReq left,
          some [.Space, .Text "and" "keyword", .Space],
          Expr.renderReq right]
  | .CaseExpr caseArg whenClauses default_ =>
    emit [some [.Text "case" "keyword"],
          Expr.renderOpt caseArg [.Space] [],
          some [.NewLine],
          Expr.renderLoop whenClauses [] [] [],
          Expr.renderOpt default_ [.Text "else" "keyword", .NewLine, .Indent]
            [.NewLine, .Unindent],
          some [.Text "end" "keyword", .NewLine]]
  | .ParenExpr operand indirection =>
    emit [some [.Text "(" "lparen"],
          Expr.renderReq operand,
          some [.Text ")" "rparen"],
          Expr.renderLoop indirection [] [] []]
  | .TypecastExpr operand typename =>
    emit [Expr.renderReq operand, some [.Text "::" "typecast"], Expr.RenderTo typename]
  | .ConstTypeExpr typename operand =>
    emit [Expr.RenderTo typename, some [.Space], Expr.renderReq operand]
  | .ConstIntervalExpr precision value optInterval =>
    emit [some [.Text "interval" "keyword"],
          emitIf (precision != "")
            ([.Text "(" "lparen"] ++ IntegerConst.RenderTo precision ++ [.Text ")" "lparen"]),
          some [.Space],
          Expr.renderReq value,
          (match optInterval with
           | some oi => some (.Space :: OptInterval.RenderTo oi)
           | none => some [])]
  | .OptInterval oi => some (OptInterval.RenderTo oi)
  | .IntervalSecond is_ => some (IntervalSecond.RenderTo is_)
  | .ExtractExpr ee =>
    emit [some [.Text "extract" "keyword", .Text "(" "lparen"],
          Expr.RenderTo ee,
          some [.Text ")" "rparen"]]
  | .ExtractList extract time =>
    emit [Expr.renderReq extract,
          some [.Space, .Text "from" "keyword", .Space],
          Expr.renderReq time]
  | .OverlayExpr oe =>
    emit [some [.Text "overlay" "keyword", .Text "(" "lparen"],
          Expr.RenderTo oe,
          some [.Text ")" "rparen"]]
  | .OverlayList dest placing from_ for_ =>
    emit [Expr.renderReq dest,
          some [.Space, .Text "placing" "keyword", .Space],
          Expr.renderReq placing,
          some [.Space, .Text "from" "keyword", .Space],
          Expr.renderReq from_,
          Expr.renderOpt for_ [.Space, .Text "for" "keyword", .Space] []]
  | .PositionExpr pe =>
    emit [some [.Text "position" "keyword", .Text "(" "lparen"],
          Expr.RenderTo pe,
          some [.Text ")" "rparen"]]
  | .PositionList substring string =>
    emit [Expr.renderReq substring,
          some [.Space, .Text "in" "keyword", .Space],
          Expr.renderReq string]
  | .SubstrExpr se =>
    emit [some [.Text "substring" "keyword", .Text "(" "lparen"],
          Expr.RenderTo se,
          some [.Text ")" "rparen"]]
  | .SubstrList source from_ for_ =>
    emit [Expr.renderReq source,
          some [.Space, .Text "from" "keyword", .Space],
          Expr.renderReq from_,
          Expr.renderOpt for_ [.Space, .Text "for" "keyword", .Space] []]
  | .TrimExpr direction trimList =>
    emit [some [.Text "trim" "keyword", .Text "(" "lparen"],
          emitIf (direction != "") [.Text direction "keyword", .Space],
          Expr.RenderTo trimList,
          some [.Text ")" "rparen"]]
  | .TrimList left from_ right =>
    emit [Expr.renderOpt left [] [.Space],
          emitIf from_ [.Text "from" "keyword", .Space],
          Expr.renderLoop right [] [.Text "," "comma", .Space] []]
  | .XmlElement name attributes body =>
    emit [some [.Text "xmlelement" "keyword", .Text "(" "lparen", .Text "name" "keyword", .Space,
                .Text name "identifier"],
          Expr.renderOpt attributes [.Text "," "comma", .Space] [],
          Expr.renderLoop body [.Text "," "comma", .Space] [] [],
          some [.Text ")" "rparen"]]
  | .XmlAttributes attrs =>
    emit [some [.Text "xmlattributes" "keyword", .Text "(" "lparen"],
          Expr.renderLoop attrs [] [.Text "," "comma", .Space] [],
          some [.Text ")" "rparen"]]
  | .XmlAttributeEl value name =>
    emit [Expr.renderReq value,
          emitIf (name != "") [.Space, .Text "as" "keyword", .Space, .Text name "identifier"]]
  | .XmlExists path body =>
    emit [some [.Text "xmlexists" "keyword", .Text "(" "lparen"],
          Expr.renderReq path,
          some [.Space],
          Expr.RenderTo body,
          some [.Text ")" "rparen"]]
  | .XmlExistsArgument leftByRef arg rightByRef =>
    emit [some [.Text "passing" "keyword", .Space],
          emitIf leftByRef [.Text "by ref" "keyword", .Space],
          Expr.renderReq arg,
          emitIf rightByRef [.Space, .Text "by ref" "keyword"]]
  | .XmlForest f =>
    emit [some [.Text "xmlforest" "keyword", .Text "(" "lparen"],
          Expr.renderLoop f [] [.Text "," "comma", .Space] [],
          some [.Text ")" "rparen"]]
  | .xmlAttributes attrs => Expr.renderLoop attrs [] [.Text "," "comma", .Space] []
  | .XmlParse typ content whitespaceOption =>
    emit [some [.Text "xmlparse" "keyword", .Text "(" "lparen", .Text typ "keyword", .Space],
          Expr.renderReq content,
          emitIf (whitespaceOption != "") [.Space, .Text whitespaceOption "keyword"],
          some [.Text ")" "rparen"]]
  | .XmlPi name content =>
    emit [some [.Text "xmlpi" "keyword", .Text "(" "lparen", .Text "name" "keyword", .Space,
                .Text name "identifier"],
          Expr.renderOpt content [.Text "," "comma", .Space] [],
          some [.Text ")" "rparen"]]
  | .XmlRoot xml version standalone =>
    emit [some [.Text "xmlroot" "keyword", .Text "(" "lparen"],
          Expr.renderReq xml,
          some [.Text "," "comma", .Space],
          Expr.RenderTo version,
          emitIf (standalone != "")
            [.Text "," "comma", .Space, .Text "standalone" "keyword", .Space,
             .Text standalone "keyword"],
          some [.Text ")" "rparen"]]
  | .XmlRootVersion operand =>
    emit [some [.Text "version" "keyword", .Space],
          (if operand.isSome then Expr.renderReq operand
           else some [.Text "no value" "keyword"])]
  | .XmlSerialize xmlType content typ =>
    emit [some [.Text "xmlserialize" "keyword", .Text "(" "lparen", .Text xmlType "keyword",
                .Space],
          Expr.renderReq content,
          some [.Space, .Text "as" "keyword", .Space],
          Expr.RenderTo typ,
          some [.Text ")" "rparen"]]
  | .CollateExpr operand collation =>
    emit [Expr.renderReq operand,
          some [.Space, .Text "collate" "keyword", .Space],
          some (AnyName.RenderTo collation)]
  | .NotExpr operand =>
    emit [some [.Text "not" "keyword", .Space], Expr.renderReq operand]
  | .IsExpr operand not_ op =>
    emit [Expr.renderReq operand,
          some [.Space, .Text "is" "keyword", .Space],
          emitIf not_ [.Text "not" "keyword", .Space],
          some [.Text op "keyword"]]
  | .AliasedExpr operand alias_ =>
    emit [Expr.renderReq operand,
          some [.Space, .Text "as" "keyword", .Space, .Text alias_ "identifier"]]
  | .IntoClause i => some (IntoClause.RenderTo i)
  | .FromClause operand =>
    emit [some [.Text "from" "keyword", .NewLine, .Indent],
          Expr.renderReq operand,
          some [.NewLine, .Unindent]]
  | .JoinExpr left join right using_ on_ =>
    emit [Expr.renderReq left,
          (if join = "," then some [.Text "," "comma", .NewLine]
           else some [.NewLine, .Text join "keyword", .Space]),
          Expr.renderReq right,
          (if using_.length > 0 then
             some ([.Space, .Text "using" "keyword", .Text "(" "lparen"] ++
                   JoinExpr.renderUsing using_ ++ [.Text ")" "rparen"])
           else some []),
          Expr.renderOpt on_ [.Space, .Text "on" "keyword", .Space] []]
  | .WhereClause operand =>
    emit [some [.Text "where" "keyword", .NewLine, .Indent],
          Expr.renderReq operand,
          some [.NewLine, .Unindent]]
  | .OrderExpr operand order using_ nulls =>
    emit [Expr.renderReq operand,
          emitIf (order != "") [.Space, .Text order "keyword"],
          (if using_.length > 0 then
             some ([.Space, .Text "using" "keyword", .Space] ++ AnyName.RenderTo using_)
           else some []),
          emitIf (nulls != "") [.Space, .Text "nulls" "keyword", .Space, .Text nulls "keyword"]]
  | .OrderClause exprs =>
    emit [some [.Text "order by" "keyword", .NewLine, .Indent],
          Expr.renderLoop exprs [] [.Text "," "comma"] [.NewLine],
          some [.Unindent]]
  | .GroupByClause exprs =>
    emit [some [.Text "group by" "keyword", .NewLine, .Indent],
          Expr.renderLoop exprs [] [.Text "," "comma"] [.NewLine],
          some [.Unindent]]
  | .LimitClause limit offset =>
    emit [Expr.renderOpt limit [.Text "limit" "keyword", .Space] [.NewLine],
          Expr.renderOpt offset [.Text "offset" "keyword", .Space] [.NewLine]]
  | .AtTimeZoneExpr operand timeZone =>
    emit [Expr.renderReq operand,
          some [.Space, .Text "at time zone" "keyword", .Space],
          Expr.renderReq timeZone]
  | .LockingItem li => some (LockingItem.RenderTo li)
  | .LockingClause lc => some (LockingClause.RenderTo lc)
  | .FuncExprNoParens fe => some [.Text fe "keyword"]
  | .FuncExpr funcApplication withinGroupClause filterClause overClause =>
    emit [Expr.RenderTo funcApplication,
          Expr.renderOpt withinGroupClause [.Space] [],
          Expr.renderOpt filterClause [.Space] [],
          Expr.renderOpt overClause [.Space] []]
  | .FuncApplication name distinct star args variadicArg orderClause =>
    emit [some (AnyName.RenderTo name),
          some [.Text "(" "lparen"],
          emitIf distinct [.Text "distinct" "keyword", .Space],
          (if star then some [.Text "*" "star"]
           else if args.length > 0 then
             Expr.renderLoop args [] [.Text "," "comma", .Space] []
           else some []),
          (if variadicArg.isSome then
             emit [emitIf (decide (args.length > 0)) [.Text "," "comma", .Space],
                   some [.Text "variadic" "keyword", .Space],
                   Expr.renderReq variadicArg]
           else some []),
          Expr.renderOpt orderClause [.Space] [],
          some [.Text ")" "lparen"]]
  | .FuncArg name nameOp operand =>
    emit [emitIf (name != "") [.Text name "identifier", .Space, .Text nameOp "operator", .Space],
          Expr.renderReq operand]
  | .CastFunc name operand typ =>
    emit [some [.Text name "keyword", .Text "(" "lparen"],
          Expr.renderReq operand,
          some [.Space, .Text "as" "keyword", .Space],
          Expr.RenderTo typ,
          some [.Text ")" "rparen"]]
  | .IsOfExpr operand not_ types =>
    emit [Expr.renderReq operand,
          some [.Space, .Text "is" "keyword", .Space],
          emitIf not_ [.Text "not" "keyword", .Space],
          some [.Text "of" "keyword", .Space, .Text "(" "lparen"],
          Expr.renderLoop types [] [.Text "," "comma", .Space] [],
          some [.Text ")" "rparen"]]
  | .WithinGroupClause w =>
    emit [some [.Text "within group" "keyword", .Space, .Text "(" "lparen"],
          Expr.RenderTo w,
          some [.Text ")" "rparen"]]
  | .FilterClause operand =>
    emit [some [.Text "filter" "keyword", .Space, .Text "(" "lparen", .Text "where" "keyword",
                .Space],
          Expr.renderReq operand,
          some [.Text ")" "rparen"]]
  | .DefaultExpr _ => some [.Text "default" "keyword"]
  | .Row rowWord exprs =>
    emit [emitIf rowWord [.Text "row" "keyword", .Space],
          some [.Text "(" "lparen"],
          Expr.renderLoop exprs [] [.Text "," "comma", .Space] [],
          some [.Text ")" "rparen"]]
  | .ValuesRow vr =>
    emit [some [.Text "(" "lparen"],
          Expr.renderLoop vr [] [.Text "," "comma", .Space] [],
          some [.Text ")" "rparen"]]
  | .ValuesClause vc =>
    emit [some [.Text "values" "keyword", .NewLine, .Indent],
          Expr.renderLoop vc [] [.Text "," "comma"] [.NewLine],
          some [.Unindent]]
  | .OverClause name specification =>
    emit [some [.Text "over" "keyword", .Space],
          (if name != "" then some [.Text name "identifier"]
           else Expr.renderReq specification)]
  | .WindowClause wc =>
    emit [some [.Text "window" "keyword", .NewLine, .Indent],
          Expr.renderLoop wc [] [.Text "," "comma"] [.NewLine],
          some [.Unindent]]
  | .WindowDefinition name specification =>
    emit [some [.Text name "identifier", .Space, .Text "as" "keyword", .Space],
          Expr.RenderTo specification]
  | .WindowSpecification existingName partitionClause orderClause frameClause =>
    emit [some [.Text "(" "lparen"],
          emitIf (existingName != "") [.Text existingName "identifier", .Space],
          (if partitionClause.isSome then
             emit [Expr.renderReq partitionClause,
                   emitIf (orderClause.isSome || frameClause.isSome) [.Space]]
           else some []),
          (if orderClause.isSome then
             emit [Expr.renderReq orderClause, emitIf frameClause.isSome [.Space]]
           else some []),
          Expr.renderOpt frameClause [] [],
          some [.Text ")" "rparen"]]
  | .PartitionClause pc =>
    emit [some [.Text "partition by" "keyword", .Space],
          Expr.renderLoop pc [] [.Text "," "comma", .Space] []]
  | .FrameClause mode start end_ =>
    emit [some [.Text mode "keyword", .Space],
          (if end_.isSome then
             emit [some [.Text "between" "keyword", .Space],
                   Expr.renderReq start,
                   some [.Space, .Text "and" "keyword", .Space],
                   Expr.renderReq end_]
           else Expr.renderReq start)]
  | .FrameBound currentRow boundExpr direction =>
    if currentRow then some [.Text "current row" "keyword"]
    else
      emit [(if boundExpr.isSome then Expr.renderReq boundExpr
             else some [.Text "unbounded" "keyword"]),
            some [.Space],
            some [.Text direction "keyword"]]
  | .RelationExpr re => some (RelationExpr.RenderTo re)
  | .SimpleSelect distinctList targetList intoClause fromClause whereClause groupByClause
      havingClause windowClause valuesClause leftSelect setOp setAll rightSelect table =>
    if table.isSome then
      emit [some [.Text "table" "keyword", .Space], table.map RelationExpr.RenderTo]
    else if valuesClause.isSome then Expr.renderReq valuesClause
    else if leftSelect.isSome then
      emit [Expr.renderReq leftSelect,
            some [.NewLine, .Text setOp "keyword"],
            emitIf setAll [.Space, .Text "all" "keyword"],
            some [.NewLine],
            Expr.renderReq rightSelect]
    else
      emit [some [.Text "select" "keyword"],
            Expr.renderDistinct distinctList,
            some [.NewLine, .Indent],
            Expr.renderLoop targetList [] [.Text "," "comma"] [.NewLine],
            some [.Unindent],
            (match intoClause with
             | some i => some (IntoClause.RenderTo i)
             | none => some []),
            Expr.renderOpt fromClause [] [],
            Expr.renderOpt whereClause [] [],
            Expr.renderOpt groupByClause [] [],
            Expr.renderOpt havingClause [.Text "having" "keyword", .NewLine, .Indent] [.NewLine],
            Expr.renderOpt windowClause [] []]
  | .SelectStmt simpleSelect orderClause limitClause lockingClause parenWrapped semicolon =>
    emit [emitIf parenWrapped [.Text "(" "lparen"],
          Expr.RenderTo simpleSelect,
          Expr.renderOpt orderClause [] [],
          Expr.renderOpt limitClause [] [],
          (match lockingClause with
           | some lc => some (LockingClause.RenderTo lc)
           | none => some []),
          emitIf parenWrapped [.Text ")" "rparen", .NewLine],
          emitIf semicolon [.Text ";" "semicolon", .NewLine]]
  | .ExistsExpr e => emit [some [.Text "exists" "keyword"], Expr.RenderTo e]
  | .ArraySubselect a => emit [some [.Text "array" "keyword"], Expr.RenderTo a]

/-- A call `x.F.RenderTo(r)` on a field of interface or pointer type: through nil it
does not return. -/
def Expr.renderReq : Option Expr → Option (List Call)
  | some e => Expr.RenderTo e
  | none => none

/-- An optional field: `if x.F != nil`, the calls `pre`, `x.F.RenderTo(r)` and the
calls `post`. -/
def Expr.renderOpt : Option Expr → List Call → List Call → Option (List Call)
  | some e, pre, post => emit [some pre, Expr.RenderTo e, some post]
  | none, _, _ => some []

/-- The block `if s.DistinctList != nil` of `SimpleSelect.RenderTo`: `distinct`, and for
a list that is not empty `on (`, the elements separated by comma and space, `)`. -/
def Expr.renderDistinct : Option (List Expr) → Option (List Call)
  | some dl =>
    emit [some [.Space, .Text "distinct" "keyword"],
          (if dl.length > 0 then
             emit [some [.Space, .Text "on" "keyword", .Text "(" "lparen"],
                   Expr.renderLoop dl [] [.Text "," "comma", .Space] [],
                   some [.Text ")" "rparen"]]
           else some [])]
  | none => some []

/-- A `for i, x := range xs` loop over nodes: in each round the calls `pre`,
`x.RenderTo(r)`, the calls `sep` when `i < len(xs)-1` (elements remain after `x`), and
the calls `post`. -/
def Expr.renderLoop : List Expr → List Call → List Call → List Call → Option (List Call)
  | [], _, _, _ => some []
  | x :: rest, pre, sep, post =>
    emit [some pre, Expr.RenderTo x, emitIf (!rest.isEmpty) sep, some post,
          Expr.renderLoop rest pre sep post]

end

/-! ## Vocabulary of the specification

The layout rules of the specification speak of lists rendered "one child per line,
comma-terminated except the last" and of parts "separated by" tokens.  These
definitions say so over the renderings of the children, with the position test
`i < len - 1` of the loops written out on the index. -/

/-- The calls of a loop over children whose renderings are `rs`: for the child at index
`i`, the calls `pre`, its rendering, the calls `sep` when `i + 1 < len`, and the calls
`post`. -/
def Spec.joined (pre sep post : List Call) (rs : List (List Call)) : List Call :=
  (rs.enum.map fun ir =>
    pre ++ ir.2 ++ (if ir.1 + 1 < rs.length then sep else []) ++ post).flatten

/-- One child per line: each rendering, a comma unless it is the last, a line break. -/
def Spec.commaLines (rs : List (List Call)) : List Call :=
  Spec.joined [] [.Text "," "comma"] [.NewLine] rs

/-- The children on one line, separated by a comma and a space. -/
def Spec.commaSpaced (rs : List (List Call)) : List Call :=
  Spec.joined [] [.Text "," "comma", .Space] [] rs

/-- The children one after the other, nothing between them. -/
def Spec.juxtaposed (rs : List (List Call)) : List Call :=
  Spec.joined [] [] [] rs

/-- Modelled from the spec: the indent depth of the sink after the calls `cs`, counted
from the depth before them (`Indent` pushes one level, `Unindent` pops one); the sink
itself is not among the sources. -/
def Spec.indentDepth (cs : List Call) : Int :=
  (cs.count .Indent : Int) - (cs.count .Unindent : Int)

/-- The contribution of an optional clause: nothing when it is absent, its own
rendering when it is present. -/
def Spec.clausePart : Option Expr → Option (List Call)
  | none => some []
  | some c => Expr.RenderTo c

/-- The calls after `select` for the DISTINCT list, given whether the list is present
and the renderings of its elements: nothing when absent, the bare `distinct` when empty,
`distinct on (...)` otherwise. -/
def Spec.distinctCalls (present : Bool) (rds : List (List Call)) : List Call :=
  if present then
    [.Space, .Text "distinct" "keyword"] ++
    (if rds.length > 0 then
      [.Space, .Text "on" "keyword", .Text "(" "lparen"] ++ Spec.commaSpaced rds ++
        [.Text ")" "rparen"]
     else [])
  else []

/-- The calls of one WHEN/THEN pair, given the renderings of the condition and of the
result: `when`, Space, the condition, Space, `then`, NewLine, Indent, the result,
NewLine, Unindent. -/
def Spec.whenCalls (cond result : List Call) : List Call :=
  [.Text "when" "keyword", .Space] ++ cond ++
  [.Space, .Text "then" "keyword", .NewLine, .Indent] ++ result ++ [.NewLine, .Unindent]

/-- A call that stays on the current line: a token or a space. -/
def Call.onLine : Call → Bool
  | .Text _ _ => true
  | .Space => true
  | _ => false

/-- The calls `cs` stay on one line at one indent depth: each is a token or a space,
none is NewLine, Indent or Unindent. -/
def Spec.Inline (cs : List Call) : Prop := ∀ c ∈ cs, c.onLine = true

/-- The calls `cs` change no indent depth: none is Indent or Unindent. -/
def Spec.NoIndent (cs : List Call) : Prop := Call.Indent ∉ cs ∧ Call.Unindent ∉ cs

/-- Indent and Unindent come only together with a line break: calls without NewLine
have no Indent and no Unindent. -/
def Spec.LineLed (cs : List Call) : Prop :=
  Call.NewLine ∈ cs ∨ Spec.NoIndent cs

/-- A part of a method body whose calls, when it returns, are `Spec.LineLed`. -/
def Spec.LineLedPart (p : Option (List Call)) : Prop := ∀ o, p = some o → Spec.LineLed o

/-- A part of a method body whose calls, when it returns, contain a NewLine. -/
def Spec.BreaksLine (p : Option (List Call)) : Prop := ∀ o, p = some o → Call.NewLine ∈ o

/-- Some part of the body breaks the line. -/
def Spec.someBreaksLine : List (Option (List Call)) → Prop
  | [] => False
  | p :: ps => Spec.BreaksLine p ∨ Spec.someBreaksLine ps

/-- Every part of the body is `Spec.LineLedPart`. -/
def Spec.allLineLed : List (Option (List Call)) → Prop
  | [] => True
  | p :: ps => Spec.LineLedPart p ∧ Spec.allLineLed ps

/-- A frame bound with its fields as in `type FrameBound struct`. -/
structure Spec.Bound where
  CurrentRow : Bool
  BoundExpr : Option Expr
  Direction : String

/-- The node of a frame bound. -/
def Spec.Bound.node (b : Spec.Bound) : Expr :=
  .FrameBound b.CurrentRow b.BoundExpr b.Direction

/-- A frame clause with a Start bound, its fields as in `type FrameClause struct`. -/
structure Spec.Frame where
  Mode : String
  Start : Spec.Bound
  End : Option Spec.Bound

/-- The node of a frame clause. -/
def Spec.Frame.node (f : Spec.Frame) : Expr :=
  .FrameClause f.Mode (some f.Start.node) (f.End.map Spec.Bound.node)

/-- The calls of a frame bound, given the rendering of its offset expression:
`current row`, or `unbounded` Space direction, or the offset Space direction. -/
def Spec.boundCalls (b : Spec.Bound) (offset : List Call) : List Call :=
  if b.CurrentRow then [.Text "current row" "keyword"]
  else
    (if b.BoundExpr.isSome then offset else [.Text "unbounded" "keyword"]) ++
    [.Space, .Text b.Direction "keyword"]

/-- The calls of a frame clause, given the renderings of the offset expressions of its
two bounds: `mode`, Space and the Start bound, or with an End bound `mode`, Space,
`between`, Space, the Start bound, Space, `and`, Space, the End bound. -/
def Spec.frameCalls (f : Spec.Frame) (r1 r2 : List Call) : List Call :=
  [.Text f.Mode "keyword", .Space] ++
  (match f.End with
   | none => Spec.boundCalls f.Start r1
   | some e =>
     [.Text "between" "keyword", .Space] ++ Spec.boundCalls f.Start r1 ++
     [.Space, .Text "and" "keyword", .Space] ++ Spec.boundCalls e r2)

/-- Says that the nodes `xs` render, in order, to the call lists `rs`. -/
def Spec.RendersTo (xs : List Expr) (rs : List (List Call)) : Prop :=
  List.Forall₂ (fun x r => Expr.RenderTo x = some r) xs rs

/-- Modelled from the spec: the text that the reference plain-text sink writes for calls
that stay on one line: the token texts in order, one blank for every Space call.  The
sink is not among the sources. -/
def Spec.plainText : List Call → String
  | [] => ""
  | .Text val _ :: cs => val ++ Spec.plainText cs
  | .Space :: cs => " " ++ Spec.plainText cs
  | .NewLine :: cs => Spec.plainText cs
  | .Indent :: cs => Spec.plainText cs
  | .Unindent :: cs => Spec.plainText cs

mutual

/-- Modelled from the spec: the well-formed trees of the data model (§3, §7).  A child
reference that the data model guarantees must be present, and every child that is present
must itself be well-formed.  The children that the renderer tests for absence on its own
(the ESCAPE operand, the FOR operand, the ELSE default, the clauses of a select, ...) may
be absent, and lists may be empty, so the trees of the data model are among these. -/
def Spec.wellFormed : Expr → Bool
  | .PgType _ _ _ _ _ typeMods _ _ => Spec.wellFormedAll typeMods
  | .AnyName _ => true
  | .ColumnRef _ indirection => Spec.wellFormedAll indirection
  | .Indirection i => Spec.wellFormedAll i
  | .IndirectionEl _ lowerSubscript upperSubscript =>
    Spec.wellFormedOpt lowerSubscript && Spec.wellFormedOpt upperSubscript
  | .StringConst _ => true
  | .IntegerConst _ => true
  | .FloatConst _ => true
  | .BoolConst _ => true
  | .NullConst => true
  | .BitConst _ => true
  | .BooleanExpr left _ right =>
    left.isSome && Spec.wellFormedOpt left && (right.isSome && Spec.wellFormedOpt right)
  | .BinaryExpr left _ right =>
    left.isSome && Spec.wellFormedOpt left && (right.isSome && Spec.wellFormedOpt right)
  | .ArrayConstructorExpr ace => Spec.wellFormed ace
  | .ArrayExpr a => Spec.wellFormedAll a
  | .TextOpWithEscapeExpr left _ right escape =>
    left.isSome && Spec.wellFormedOpt left && (right.isSome && Spec.wellFormedOpt right) &&
    Spec.wellFormedOpt escape
  | .UnaryExpr _ operand => operand.isSome && Spec.wellFormedOpt operand
  | .PostfixExpr operand _ => operand.isSome && Spec.wellFormedOpt operand
  | .SubqueryOpExpr value _ _ query =>
    value.isSome && Spec.wellFormedOpt value && (query.isSome && Spec.wellFormedOpt query)
  | .SubqueryOp _ => true
  | .WhenClause when_ then_ =>
    when_.isSome && Spec.wellFormedOpt when_ && (then_.isSome && Spec.wellFormedOpt then_)
  | .InExpr value _ in_ =>
    value.isSome && Spec.wellFormedOpt value && (in_.isSome && Spec.wellFormedOpt in_)
  | .BetweenExpr operand _ _ left right =>
    operand.isSome && Spec.wellFormedOpt operand &&
    (left.isSome && Spec.wellFormedOpt left) && (right.isSome && Spec.wellFormedOpt right)
  | .CaseExpr caseArg whenClauses default_ =>
    Spec.wellFormedOpt caseArg && Spec.wellFormedAll whenClauses &&
    Spec.wellFormedOpt default_
  | .ParenExpr operand indirection =>
    operand.isSome && Spec.wellFormedOpt operand && Spec.wellFormedAll indirection
  | .TypecastExpr operand typename =>
    operand.isSome && Spec.wellFormedOpt operand && Spec.wellFormed typename
  | .ConstTypeExpr typename operand =>
    Spec.wellFormed typename && (operand.isSome && Spec.wellFormedOpt operand)
  | .ConstIntervalExpr _ value _ => value.isSome && Spec.wellFormedOpt value
  | .OptInterval _ => true
  | .IntervalSecond _ => true
  | .ExtractExpr ee => Spec.wellFormed ee
  | .ExtractList extract time =>
    extract.isSome && Spec.wellFormedOpt extract && (time.isSome && Spec.wellFormedOpt time)
  | .OverlayExpr oe => Spec.wellFormed oe
  | .OverlayList dest placing from_ for_ =>
    dest.isSome && Spec.wellFormedOpt dest && (placing.isSome && Spec.wellFormedOpt placing) &&
    (from_.isSome && Spec.wellFormedOpt from_) && Spec.wellFormedOpt for_
  | .PositionExpr pe => Spec.wellFormed pe
  | .PositionList substring string =>
    substring.isSome && Spec.wellFormedOpt substring &&
    (string.isSome && Spec.wellFormedOpt string)
  | .SubstrExpr se => Spec.wellFormed se
  | .SubstrList source from_ for_ =>
    source.isSome && Spec.wellFormedOpt source && (from_.isSome && Spec.wellFormedOpt from_) &&
    Spec.wellFormedOpt for_
  | .TrimExpr _ trimList => Spec.wellFormed trimList
  | .TrimList left _ right => Spec.wellFormedOpt left && Spec.wellFormedAll right
  | .XmlElement _ attributes body =>
    Spec.wellFormedOpt attributes && Spec.wellFormedAll body
  | .XmlAttributes attrs => Spec.wellFormedAll attrs
  | .XmlAttributeEl value _ => value.isSome && Spec.wellFormedOpt value
  | .XmlExists path body =>
    path.isSome && Spec.wellFormedOpt path && Spec.wellFormed body
  | .XmlExistsArgument _ arg _ => arg.isSome && Spec.wellFormedOpt arg
  | .XmlForest f => Spec.wellFormedAll f
  | .xmlAttributes attrs => Spec.wellFormedAll attrs
  | .XmlParse _ content _ => content.isSome && Spec.wellFormedOpt content
  | .XmlPi _ content => Spec.wellFormedOpt content
  | .XmlRoot xml version _ => xml.isSome && Spec.wellFormedOpt xml && Spec.wellFormed version
  | .XmlRootVersion operand => Spec.wellFormedOpt operand
  | .XmlSerialize _ content typ =>
    content.isSome && Spec.wellFormedOpt content && Spec.wellFormed typ
  | .CollateExpr operand _ => operand.isSome && Spec.wellFormedOpt operand
  | .NotExpr operand => operand.isSome && Spec.wellFormedOpt operand
  | .IsExpr operand _ _ => operand.isSome && Spec.wellFormedOpt operand
  | .AliasedExpr operand _ => operand.isSome && Spec.wellFormedOpt operand
  | .IntoClause _ => true
  | .FromClause operand => operand.isSome && Spec.wellFormedOpt operand
  | .JoinExpr left _ right _ on_ =>
    left.isSome && Spec.wellFormedOpt left && (right.isSome && Spec.wellFormedOpt right) &&
    Spec.wellFormedOpt on_
  | .WhereClause operand => operand.isSome && Spec.wellFormedOpt operand
  | .OrderExpr operand _ _ _ => operand.isSome && Spec.wellFormedOpt operand
  | .OrderClause exprs => Spec.wellFormedAll exprs
  | .GroupByClause exprs => Spec.wellFormedAll exprs
  | .LimitClause limit offset => Spec.wellFormedOpt limit && Spec.wellFormedOpt offset
  | .AtTimeZoneExpr operand timeZone =>
    operand.isSome && Spec.wellFormedOpt operand &&
    (timeZone.isSome && Spec.wellFormedOpt timeZone)
  | .LockingItem _ => true
  | .LockingClause _ => true
  | .FuncExprNoParens _ => true
  | .FuncExpr funcApplication withinGroupClause filterClause overClause =>
    Spec.wellFormed funcApplication && Spec.wellFormedOpt withinGroupClause &&
    Spec.wellFormedOpt filterClause && Spec.wellFormedOpt overClause
  | .FuncApplication _ _ _ args variadicArg orderClause =>
    Spec.wellFormedAll args && Spec.wellFormedOpt variadicArg &&
    Spec.wellFormedOpt orderClause
  | .FuncArg _ _ operand => operand.isSome && Spec.wellFormedOpt operand
  | .CastFunc _ operand typ =>
    operand.isSome && Spec.wellFormedOpt operand && Spec.wellFormed typ
  | .IsOfExpr operand _ types =>
    operand.isSome && Spec.wellFormedOpt operand && Spec.wellFormedAll types
  | .WithinGroupClause w => Spec.wellFormed w
  | .FilterClause operand => operand.isSome && Spec.wellFormedOpt operand
  | .DefaultExpr _ => true
  | .Row _ exprs => Spec.wellFormedAll exprs
  | .ValuesRow vr => Spec.wellFormedAll vr
  | .ValuesClause vc => Spec.wellFormedAll vc
  | .OverClause name specification =>
    (name != "" || specification.isSome) && Spec.wellFormedOpt specification
  | .WindowClause wc => Spec.wellFormedAll wc
  | .WindowDefinition _ specification => Spec.wellFormed specification
  | .WindowSpecification _ partitionClause orderClause frameClause =>
    Spec.wellFormedOpt partitionClause && Spec.wellFormedOpt orderClause &&
    Spec.wellFormedOpt frameClause
  | .PartitionClause pc => Spec.wellFormedAll pc
  | .FrameClause _ start end_ =>
    start.isSome && Spec.wellFormedOpt start && Spec.wellFormedOpt end_
  | .FrameBound _ boundExpr _ => Spec.wellFormedOpt boundExpr
  | .RelationExpr _ => true
  | .SimpleSelect distinctList targetList _ fromClause whereClause groupByClause
      havingClause windowClause valuesClause leftSelect _ _ rightSelect _ =>
    Spec.wellFormedOptAll distinctList && Spec.wellFormedAll targetList &&
    Spec.wellFormedOpt fromClause && Spec.wellFormedOpt whereClause &&
    Spec.wellFormedOpt groupByClause && Spec.wellFormedOpt havingClause &&
    Spec.wellFormedOpt windowClause && Spec.wellFormedOpt valuesClause &&
    Spec.wellFormedOpt leftSelect && Spec.wellFormedOpt rightSelect &&
    (!leftSelect.isSome || rightSelect.isSome)
  | .SelectStmt simpleSelect orderClause limitClause _ _ _ =>
    Spec.wellFormed simpleSelect && Spec.wellFormedOpt orderClause &&
    Spec.wellFormedOpt limitClause
  | .ExistsExpr e => Spec.wellFormed e
  | .ArraySubselect a => Spec.wellFormed a

/-- An optional child: absent, or present and well-formed. -/
def Spec.wellFormedOpt : Option Expr → Bool
  | some e => Spec.wellFormed e
  | none => true

/-- An optional list of children: absent, or each element well-formed. -/
def Spec.wellFormedOptAll : Option (List Expr) → Bool
  | some xs => Spec.wellFormedAll xs
  | none => true

/-- A list of children: each element well-formed. -/
def Spec.wellFormedAll : List Expr → Bool
  | [] => true
  | x :: rest => Spec.wellFormed x && Spec.wellFormedAll rest

end

/-- Says that a part of a method body, when it returns, stays on the line. -/
def Spec.InlinePart (p : Option (List Call)) : Prop := ∀ o, p = some o → Spec.Inline o

/-- The typed view of Go `type PgType struct`: the node built from it is the PgType
node with the same fields. -/
structure Spec.TypeRef where
  Name : AnyName
  OptInterval : Option OptInterval
  Setof : Bool
  ArrayWord : Bool
  ArrayBounds : List IntegerConst
  TypeMods : List Expr
  CharSet : String
  WithTimeZone : Bool

/-- The PgType node of a type reference. -/
def Spec.TypeRef.node (t : Spec.TypeRef) : Expr :=
  .PgType t.Name t.OptInterval t.Setof t.ArrayWord t.ArrayBounds t.TypeMods t.CharSet
    t.WithTimeZone

/-- The typed view of Go `type XmlAttributeEl struct`. -/
structure Spec.AttributeEl where
  Value : Option Expr
  Name : String

/-- The XmlAttributeEl node of an attribute element. -/
def Spec.AttributeEl.node (a : Spec.AttributeEl) : Expr :=
  .XmlAttributeEl a.Value a.Name

/-- The value expressions of a list of attribute elements, in order. -/
def Spec.attributeArgs (attrs : List Spec.AttributeEl) : List Expr :=
  (attrs.map fun a => a.Value.toList).flatten

/-- The built-in functions with bespoke argument syntax, with the Go types of their
fields: ExtractExpr is an ExtractList, OverlayExpr an OverlayList, PositionExpr a
PositionList, SubstrExpr a SubstrList, TrimExpr embeds a TrimList, the Body of XmlExists
is an XmlExistsArgument, the Version of XmlRoot an XmlRootVersion, XmlAttributes and
XmlForest are slices of XmlAttributeEl, and the types of CastFunc and XmlSerialize are
PgType values. -/
inductive Spec.InlineCall where
  | ExtractExpr (extract time : Option Expr)
  | OverlayExpr (dest placing from_ for_ : Option Expr)
  | PositionExpr (substring string : Option Expr)
  | SubstrExpr (source from_ for_ : Option Expr)
  | TrimExpr (direction : String) (left : Option Expr) (from_ : Bool) (right : List Expr)
  | CastFunc (name : String) (operand : Option Expr) (typ : Spec.TypeRef)
  | XmlElement (name : String) (attributes : Option (List Spec.AttributeEl))
      (body : List Expr)
  | XmlAttributes (attrs : List Spec.AttributeEl)
  | XmlExists (path : Option Expr) (leftByRef : Bool) (arg : Option Expr) (rightByRef : Bool)
  | XmlForest (f : List Spec.AttributeEl)
  | XmlParse (typ : String) (content : Option Expr) (whitespaceOption : String)
  | XmlPi (name : String) (content : Option Expr)
  | XmlRoot (xml version : Option Expr) (standalone : String)
  | XmlSerialize (xmlType : String) (content : Option Expr) (typ : Spec.TypeRef)

/-- The node of a built-in function call. -/
def Spec.InlineCall.node : Spec.InlineCall → Expr
  | .ExtractExpr extract time => .ExtractExpr (.ExtractList extract time)
  | .OverlayExpr dest placing from_ for_ => .OverlayExpr (.OverlayList dest placing from_ for_)
  | .PositionExpr substring string => .PositionExpr (.PositionList substring string)
  | .SubstrExpr source from_ for_ => .SubstrExpr (.SubstrList source from_ for_)
  | .TrimExpr direction left from_ right => .TrimExpr direction (.TrimList left from_ right)
  | .CastFunc name operand typ => .CastFunc name operand typ.node
  | .XmlElement name attributes body =>
    .XmlElement name
      (attributes.map fun attrs => .XmlAttributes (attrs.map Spec.AttributeEl.node)) body
  | .XmlAttributes attrs => .XmlAttributes (attrs.map Spec.AttributeEl.node)
  | .XmlExists path leftByRef arg rightByRef =>
    .XmlExists path (.XmlExistsArgument leftByRef arg rightByRef)
  | .XmlForest f => .XmlForest (f.map Spec.AttributeEl.node)
  | .XmlParse typ content whitespaceOption => .XmlParse typ content whitespaceOption
  | .XmlPi name content => .XmlPi name content
  | .XmlRoot xml version standalone => .XmlRoot xml (.XmlRootVersion version) standalone
  | .XmlSerialize xmlType content typ => .XmlSerialize xmlType content typ.node

/-- The text of the keyword token that opens a built-in function call; for CastFunc it
is the Name field. -/
def Spec.InlineCall.keyword : Spec.InlineCall → String
  | .ExtractExpr _ _ => "extract"
  | .OverlayExpr _ _ _ _ => "overlay"
  | .PositionExpr _ _ => "position"
  | .SubstrExpr _ _ _ => "substring"
  | .TrimExpr _ _ _ _ => "trim"
  | .CastFunc name _ _ => name
  | .XmlElement _ _ _ => "xmlelement"
  | .XmlAttributes _ => "xmlattributes"
  | .XmlExists _ _ _ _ => "xmlexists"
  | .XmlForest _ => "xmlforest"
  | .XmlParse _ _ _ => "xmlparse"
  | .XmlPi _ _ => "xmlpi"
  | .XmlRoot _ _ _ => "xmlroot"
  | .XmlSerialize _ _ _ => "xmlserialize"

/-- The argument expressions of a built-in function call: the fields of interface type
Expr, with those of its records, in order. -/
def Spec.InlineCall.args : Spec.InlineCall → List Expr
  | .ExtractExpr extract time => extract.toList ++ time.toList
  | .OverlayExpr dest placing from_ for_ =>
    dest.toList ++ placing.toList ++ from_.toList ++ for_.toList
  | .PositionExpr substring string => substring.toList ++ string.toList
  | .SubstrExpr source from_ for_ => source.toList ++ from_.toList ++ for_.toList
  | .TrimExpr _ left _ right => left.toList ++ right
  | .CastFunc _ operand typ => operand.toList ++ typ.TypeMods
  | .XmlElement _ attributes body => Spec.attributeArgs (attributes.getD []) ++ body
  | .XmlAttributes attrs => Spec.attributeArgs attrs
  | .XmlExists path _ arg _ => path.toList ++ arg.toList
  | .XmlForest f => Spec.attributeArgs f
  | .XmlParse _ content _ => content.toList
  | .XmlPi _ content => content.toList
  | .XmlRoot xml version _ => xml.toList ++ version.toList
  | .XmlSerialize _ content typ => content.toList ++ typ.TypeMods

/-- Modelled from the spec: the indent depth of the sink while it takes the calls `cs`,
starting at depth `d`: `Indent` pushes one level and `Unindent` pops one; there is no
result when an `Unindent` arrives at depth 0.  The sink is not among the sources. -/
def Spec.depthAfter : Nat → List Call → Option Nat
  | d, [] => some d
  | d, .Indent :: cs => Spec.depthAfter (d + 1) cs
  | d, .Unindent :: cs => if d = 0 then none else Spec.depthAfter (d - 1) cs
  | d, .Text _ _ :: cs => Spec.depthAfter d cs
  | d, .Space :: cs => Spec.depthAfter d cs
  | d, .NewLine :: cs => Spec.depthAfter d cs

/-- The depth after the parts of a method body, an absent part counting as no call. -/
def Spec.depthParts : Nat → List (Option (List Call)) → Option Nat
  | d, [] => some d
  | d, p :: ps => (Spec.depthAfter d (p.getD [])).bind fun d1 => Spec.depthParts d1 ps

/-- Says that a part of a method body, when it returns, leaves the sink at the depth where
it found it, from every starting depth and without ever going below it. -/
def Spec.Keeps (p : Option (List Call)) : Prop :=
  ∀ d, Spec.depthAfter d (p.getD []) = some d

/-- Indent-balanced call sequences: every prefix holds at least as many Indent as
Unindent calls, and the whole sequence holds equally many. -/
def Spec.Balanced (cs : List Call) : Prop :=
  (∀ p ∈ cs.inits, List.count Call.Unindent p ≤ List.count Call.Indent p) ∧
  List.count Call.Indent cs = List.count Call.Unindent cs

instance Spec.decidableBalanced (cs : List Call) : Decidable (Spec.Balanced cs) := by
  unfold Spec.Balanced
  infer_instance

mutual

/-- The trees without a HAVING clause anywhere: the HavingClause of every SimpleSelect in
the tree, subselects included, is absent. -/
def Spec.havingFree : Expr → Bool
  | .PgType _ _ _ _ _ typeMods _ _ => Spec.havingFreeAll typeMods
  | .AnyName _ => true
  | .ColumnRef _ indirection => Spec.havingFreeAll indirection
  | .Indirection i => Spec.havingFreeAll i
  | .IndirectionEl _ lowerSubscript upperSubscript =>
    Spec.havingFreeOpt lowerSubscript && Spec.havingFreeOpt upperSubscript
  | .StringConst _ => true
  | .IntegerConst _ => true
  | .FloatConst _ => true
  | .BoolConst _ => true
  | .NullConst => true
  | .BitConst _ => true
  | .BooleanExpr left _ right =>
    Spec.havingFreeOpt left && Spec.havingFreeOpt right
  | .BinaryExpr left _ right =>
    Spec.havingFreeOpt left && Spec.havingFreeOpt right
  | .ArrayConstructorExpr ace => Spec.havingFree ace
  | .ArrayExpr a => Spec.havingFreeAll a
  | .TextOpWithEscapeExpr left _ right escape =>
    Spec.havingFreeOpt left && Spec.havingFreeOpt right && Spec.havingFreeOpt escape
  | .UnaryExpr _ operand => Spec.havingFreeOpt operand
  | .PostfixExpr operand _ => Spec.havingFreeOpt operand
  | .SubqueryOpExpr value _ _ query =>
    Spec.havingFreeOpt value && Spec.havingFreeOpt query
  | .SubqueryOp _ => true
  | .WhenClause when_ then_ =>
    Spec.havingFreeOpt when_ && Spec.havingFreeOpt then_
  | .InExpr value _ in_ =>
    Spec.havingFreeOpt value && Spec.havingFreeOpt in_
  | .BetweenExpr operand _ _ left right =>
    Spec.havingFreeOpt operand && Spec.havingFreeOpt left && Spec.havingFreeOpt right
  | .CaseExpr caseArg whenClauses default_ =>
    Spec.havingFreeOpt caseArg && Spec.havingFreeAll whenClauses &&
    Spec.havingFreeOpt default_
  | .ParenExpr operand indirection =>
    Spec.havingFreeOpt operand && Spec.havingFreeAll indirection
  | .TypecastExpr operand typename =>
    Spec.havingFreeOpt operand && Spec.havingFree typename
  | .ConstTypeExpr typename operand =>
    Spec.havingFree typename && Spec.havingFreeOpt operand
  | .ConstIntervalExpr _ value _ => Spec.havingFreeOpt value
  | .OptInterval _ => true
  | .IntervalSecond _ => true
  | .ExtractExpr ee => Spec.havingFree ee
  | .ExtractList extract time =>
    Spec.havingFreeOpt extract && Spec.havingFreeOpt time
  | .OverlayExpr oe => Spec.havingFree oe
  | .OverlayList dest placing from_ for_ =>
    Spec.havingFreeOpt dest && Spec.havingFreeOpt placing &&
    Spec.havingFreeOpt from_ && Spec.havingFreeOpt for_
  | .PositionExpr pe => Spec.havingFree pe
  | .PositionList substring string =>
    Spec.havingFreeOpt substring && Spec.havingFreeOpt string
  | .SubstrExpr se => Spec.havingFree se
  | .SubstrList source from_ for_ =>
    Spec.havingFreeOpt source && Spec.havingFreeOpt from_ && Spec.havingFreeOpt for_
  | .TrimExpr _ trimList => Spec.havingFree trimList
  | .TrimList left _ right => Spec.havingFreeOpt left && Spec.havingFreeAll right
  | .XmlElement _ attributes body =>
    Spec.havingFreeOpt attributes && Spec.havingFreeAll body
  | .XmlAttributes attrs => Spec.havingFreeAll attrs
  | .XmlAttributeEl value _ => Spec.havingFreeOpt value
  | .XmlExists path body =>
    Spec.havingFreeOpt path && Spec.havingFree body
  | .XmlExistsArgument _ arg _ => Spec.havingFreeOpt arg
  | .XmlForest f => Spec.havingFreeAll f
  | .xmlAttributes attrs => Spec.havingFreeAll attrs
  | .XmlParse _ content _ => Spec.havingFreeOpt content
  | .XmlPi _ content => Spec.havingFreeOpt content
  | .XmlRoot xml version _ => Spec.havingFreeOpt xml && Spec.havingFree version
  | .XmlRootVersion operand => Spec.havingFreeOpt operand
  | .XmlSerialize _ content typ =>
    Spec.havingFreeOpt content && Spec.havingFree typ
  | .CollateExpr operand _ => Spec.havingFreeOpt operand
  | .NotExpr operand => Spec.havingFreeOpt operand
  | .IsExpr operand _ _ => Spec.havingFreeOpt operand
  | .AliasedExpr operand _ => Spec.havingFreeOpt operand
  | .IntoClause _ => true
  | .FromClause operand => Spec.havingFreeOpt operand
  | .JoinExpr left _ right _ on_ =>
    Spec.havingFreeOpt left && Spec.havingFreeOpt right && Spec.havingFreeOpt on_
  | .WhereClause operand => Spec.havingFreeOpt operand
  | .OrderExpr operand _ _ _ => Spec.havingFreeOpt operand
  | .OrderClause exprs => Spec.havingFreeAll exprs
  | .GroupByClause exprs => Spec.havingFreeAll exprs
  | .LimitClause limit offset => Spec.havingFreeOpt limit && Spec.havingFreeOpt offset
  | .AtTimeZoneExpr operand timeZone =>
    Spec.havingFreeOpt operand && Spec.havingFreeOpt timeZone
  | .LockingItem _ => true
  | .LockingClause _ => true
  | .FuncExprNoParens _ => true
  | .FuncExpr funcApplication withinGroupClause filterClause overClause =>
    Spec.havingFree funcApplication && Spec.havingFreeOpt withinGroupClause &&
    Spec.havingFreeOpt filterClause && Spec.havingFreeOpt overClause
  | .FuncApplication _ _ _ args variadicArg orderClause =>
    Spec.havingFreeAll args && Spec.havingFreeOpt variadicArg &&
    Spec.havingFreeOpt orderClause
  | .FuncArg _ _ operand => Spec.havingFreeOpt operand
  | .CastFunc _ operand typ =>
    Spec.havingFreeOpt operand && Spec.havingFree typ
  | .IsOfExpr operand _ types =>
    Spec.havingFreeOpt operand && Spec.havingFreeAll types
  | .WithinGroupClause w => Spec.havingFree w
  | .FilterClause operand => Spec.havingFreeOpt operand
  | .DefaultExpr _ => true
  | .Row _ exprs => Spec.havingFreeAll exprs
  | .ValuesRow vr => Spec.havingFreeAll vr
  | .ValuesClause vc => Spec.havingFreeAll vc
  | .OverClause _ specification =>
    Spec.havingFreeOpt specification
  | .WindowClause wc => Spec.havingFreeAll wc
  | .WindowDefinition _ specification => Spec.havingFree specification
  | .WindowSpecification _ partitionClause orderClause frameClause =>
    Spec.havingFreeOpt partitionClause && Spec.havingFreeOpt orderClause &&
    Spec.havingFreeOpt frameClause
  | .PartitionClause pc => Spec.havingFreeAll pc
  | .FrameClause _ start end_ =>
    Spec.havingFreeOpt start && Spec.havingFreeOpt end_
  | .FrameBound _ boundExpr _ => Spec.havingFreeOpt boundExpr
  | .RelationExpr _ => true
  | .SimpleSelect distinctList targetList _ fromClause whereClause groupByClause
      havingClause windowClause valuesClause leftSelect _ _ rightSelect _ =>
    Spec.havingFreeOptAll distinctList && Spec.havingFreeAll targetList &&
    Spec.havingFreeOpt fromClause && Spec.havingFreeOpt whereClause &&
    Spec.havingFreeOpt groupByClause && havingClause.isNone &&
    Spec.havingFreeOpt windowClause && Spec.havingFreeOpt valuesClause &&
    Spec.havingFreeOpt leftSelect && Spec.havingFreeOpt rightSelect
  | .SelectStmt simpleSelect orderClause limitClause _ _ _ =>
    Spec.havingFree simpleSelect && Spec.havingFreeOpt orderClause &&
    Spec.havingFreeOpt limitClause
  | .ExistsExpr e => Spec.havingFree e
  | .ArraySubselect a => Spec.havingFree a

/-- An optional child: absent, or without a HAVING clause. -/
def Spec.havingFreeOpt : Option Expr → Bool
  | some e => Spec.havingFree e
  | none => true

/-- An optional list of children: absent, or each element without a HAVING clause. -/
def Spec.havingFreeOptAll : Option (List Expr) → Bool
  | some xs => Spec.havingFreeAll xs
  | none => true

/-- A list of children: each element without a HAVING clause. -/
def Spec.havingFreeAll : List Expr → Bool
  | [] => true
  | x :: rest => Spec.havingFree x && Spec.havingFreeAll rest

end

/-! ## Lemmas on the sink-call sequences -/

@[simp] theorem emit_nil : emit [] = some [] := rfl

@[simp] theorem emit_cons_some (a : List Call) (ps : List (Option (List Call))) :
    emit (some a :: ps) = (emit ps).map fun b => a ++ b := rfl

@[simp] theorem emit_cons_none (ps : List (Option (List Call))) : emit (none :: ps) = none := rfl

@[simp] theorem emitIf_true (calls : List Call) : emitIf true calls = some calls := rfl

@[simp] theorem emitIf_false (calls : List Call) : emitIf false calls = some [] := rfl

theorem emitIf_eq (c : Bool) (calls : List Call) :
    emitIf c calls = some (if c then calls else []) := by
  cases c <;> rfl

@[simp] theorem renderReq_some (e : Expr) : Expr.renderReq (some e) = Expr.RenderTo e := rfl

@[simp] theorem renderReq_none : Expr.renderReq none = none := rfl

@[simp] theorem renderOpt_none (pre post : List Call) :
    Expr.renderOpt none pre post = some [] := rfl

theorem renderOpt_some (e : Expr) (pre post : List Call) :
    Expr.renderOpt (some e) pre post = emit [some pre, Expr.RenderTo e, some post] := rfl

@[simp] theorem renderLoop_nil (pre sep post : List Call) :
    Expr.renderLoop [] pre sep post = some [] := rfl

theorem renderLoop_cons (x : Expr) (rest : List Expr) (pre sep post : List Call) :
    Expr.renderLoop (x :: rest) pre sep post =
      emit [some pre, Expr.RenderTo x, emitIf (!rest.isEmpty) sep, some post,
            Expr.renderLoop rest pre sep post] := rfl

/-- Shifting every index and the length by one leaves the index test of the loop as it
is. -/
theorem joined_shift (pre sep post : List Call) (n : Nat) :
    ∀ (rs : List (List Call)) (k : Nat),
      ((rs.enumFrom (k + 1)).map fun ir =>
        pre ++ ir.2 ++ (if ir.1 + 1 < n + 1 then sep else []) ++ post) =
      ((rs.enumFrom k).map fun ir =>
        pre ++ ir.2 ++ (if ir.1 + 1 < n then sep else []) ++ post) := by
  intro rs
  induction rs with
  | nil => intro k; rfl
  | cons r rest ih =>
    intro k
    rw [List.enumFrom_cons, List.map_cons, List.enumFrom_cons, List.map_cons, ih (k + 1)]
    simp only [Nat.add_lt_add_iff_right]

theorem joined_nil (pre sep post : List Call) : Spec.joined pre sep post [] = [] := rfl

theorem joined_cons (pre sep post : List Call) (r : List Call) (rest : List (List Call)) :
    Spec.joined pre sep post (r :: rest) =
      pre ++ r ++ (if rest.isEmpty then [] else sep) ++ post ++ Spec.joined pre sep post rest := by
  have hshift := joined_shift pre sep post rest.length rest 0
  simp only [Nat.zero_add] at hshift
  simp only [Spec.joined, List.enum, List.enumFrom_cons, List.map_cons, List.flatten_cons,
    List.length_cons, Nat.zero_add, hshift]
  cases rest <;> simp

theorem renderLoop_eq (pre sep post : List Call) (xs : List Expr) (rs : List (List Call))
    (h : Spec.RendersTo xs rs) :
    Expr.renderLoop xs pre sep post = some (Spec.joined pre sep post rs) := by
  induction h with
  | nil => rfl
  | cons hx _ ih =>
    rename_i x r xs rs hrest
    have hlen : xs.isEmpty = rs.isEmpty := by
      cases hrest <;> rfl
    rw [renderLoop_cons, hx, ih, joined_cons, emitIf_eq, hlen]
    cases rs.isEmpty <;> simp

theorem indentDepth_append (a b : List Call) :
    Spec.indentDepth (a ++ b) = Spec.indentDepth a + Spec.indentDepth b := by
  simp only [Spec.indentDepth, List.count_append, Nat.cast_add]
  ring

theorem rendersTo_length (xs : List Expr) (rs : List (List Call)) (h : Spec.RendersTo xs rs) :
    xs.length = rs.length :=
  List.Forall₂.length_eq h

theorem renderOpt_eq (o : Option Expr) (r pre post : List Call)
    (h : Spec.clausePart o = some r) :
    Expr.renderOpt o pre post = some (if o.isSome then pre ++ r ++ post else []) := by
  cases o with
  | none => rfl
  | some e =>
    simp only [Spec.clausePart] at h
    simp [renderOpt_some, h]

theorem renderOpt_clause (o : Option Expr) (r : List Call)
    (h : Spec.clausePart o = some r) : Expr.renderOpt o [] [] = some r := by
  cases o with
  | none => exact h
  | some e =>
    simp only [Spec.clausePart] at h
    simp [renderOpt_some, h]

theorem clausePart_none_eq (r : List Call) (h : Spec.clausePart none = some r) : r = [] := by
  simp only [Spec.clausePart, Option.some.injEq] at h
  exact h.symm

theorem emit_cons_eq_some (a : List Call) (ps : List (Option (List Call))) (out : List Call)
    (h : emit (some a :: ps) = some out) : ∃ rest, emit ps = some rest ∧ out = a ++ rest := by
  rw [emit_cons_some] at h
  cases hps : emit ps with
  | none => rw [hps] at h; cases h
  | some rest =>
    rw [hps] at h
    simp only [Option.map_some', Option.some.injEq] at h
    exact ⟨rest, rfl, h.symm⟩

/-- The number of occurrences of a call in the calls of a loop: those of the loop itself
(`pre` and `post` in every round, `sep` in every round but the last) and those of the
children. -/
theorem count_joined (c : Call) (pre sep post : List Call) (rs : List (List Call)) :
    List.count c (Spec.joined pre sep post rs) =
      rs.length * (List.count c pre + List.count c post) +
      (rs.length - 1) * List.count c sep + (rs.map (List.count c)).sum := by
  induction rs with
  | nil => simp [joined_nil]
  | cons r rest ih =>
    rw [joined_cons, List.count_append, ih]
    cases rest with
    | nil => simp [List.count_append]; ring
    | cons r2 rest2 =>
      simp [List.count_append]
      ring

theorem joined_plain (rs : List (List Call)) : Spec.joined [] [] [] rs = rs.flatten := by
  induction rs with
  | nil => rfl
  | cons r rest ih =>
    rw [joined_cons, ih]
    simp

/-! ## The statement-body clauses -/

/-- C1: FROM, WHERE, GROUP BY and ORDER BY each render as the clause keyword, NewLine,
Indent, the body, Unindent.  The body of FROM and WHERE is the rendering of the single
expression followed by NewLine; the body of GROUP BY and ORDER BY is, for each element
in list order, its rendering, a comma unless it is the last element, and NewLine. -/
theorem clause_keyword_indent_body_unindent :
    (∀ (e : Expr) (body : List Call), Expr.RenderTo e = some body →
      Expr.RenderTo (.FromClause (some e)) =
        some ([.Text "from" "keyword", .NewLine, .Indent] ++ (body ++ [.NewLine]) ++
              [.Unindent])) ∧
    (∀ (e : Expr) (body : List Call), Expr.RenderTo e = some body →
      Expr.RenderTo (.WhereClause (some e)) =
        some ([.Text "where" "keyword", .NewLine, .Indent] ++ (body ++ [.NewLine]) ++
              [.Unindent])) ∧
    (∀ (exprs : List Expr) (rs : List (List Call)), Spec.RendersTo exprs rs →
      Expr.RenderTo (.GroupByClause exprs) =
        some ([.Text "group by" "keyword", .NewLine, .Indent] ++ Spec.commaLines rs ++
              [.Unindent])) ∧
    (∀ (exprs : List Expr) (rs : List (List Call)), Spec.RendersTo exprs rs →
      Expr.RenderTo (.OrderClause exprs) =
        some ([.Text "order by" "keyword", .NewLine, .Indent] ++ Spec.commaLines rs ++
              [.Unindent])) := by
  refine ⟨?_, ?_, ?_, ?_⟩
  · intro e body h
    simp [Expr.RenderTo, h]
  · intro e body h
    simp [Expr.RenderTo, h]
  · intro exprs rs h
    simp [Expr.RenderTo, renderLoop_eq _ _ _ exprs rs h, Spec.commaLines]
  · intro exprs rs h
    simp [Expr.RenderTo, renderLoop_eq _ _ _ exprs rs h, Spec.commaLines]

/-- C1 at `from t`-like bodies: a FROM over the column `t`, a WHERE over `a`, a GROUP BY
and an ORDER BY over the two columns `a`, `b`. -/
theorem clause_keyword_indent_body_unindent_witness :
    Expr.RenderTo (.FromClause (some (.ColumnRef "t" []))) =
      some [.Text "from" "keyword", .NewLine, .Indent, .Text "t" "identifer", .NewLine,
            .Unindent] ∧
    Expr.RenderTo (.WhereClause (some (.ColumnRef "a" []))) =
      some [.Text "where" "keyword", .NewLine, .Indent, .Text "a" "identifer", .NewLine,
            .Unindent] ∧
    Expr.RenderTo (.GroupByClause [.ColumnRef "a" [], .ColumnRef "b" []]) =
      some [.Text "group by" "keyword", .NewLine, .Indent,
            .Text "a" "identifer", .Text "," "comma", .NewLine,
            .Text "b" "identifer", .NewLine, .Unindent] ∧
    Expr.RenderTo (.OrderClause [.OrderExpr (some (.ColumnRef "a" [])) "desc" [] "",
                                 .OrderExpr (some (.ColumnRef "b" [])) "" [] ""]) =
      some [.Text "order by" "keyword", .NewLine, .Indent,
            .Text "a" "identifer", .Space, .Text "desc" "keyword", .Text "," "comma", .NewLine,
            .Text "b" "identifer", .NewLine, .Unindent] :=
  ⟨clause_keyword_indent_body_unindent.1 (.ColumnRef "t" []) [.Text "t" "identifer"] rfl,
   clause_keyword_indent_body_unindent.2.1 (.ColumnRef "a" []) [.Text "a" "identifer"] rfl,
   clause_keyword_indent_body_unindent.2.2.1 [.ColumnRef "a" [], .ColumnRef "b" []]
     [[.Text "a" "identifer"], [.Text "b" "identifer"]]
     (List.Forall₂.cons rfl (List.Forall₂.cons rfl List.Forall₂.nil)),
   clause_keyword_indent_body_unindent.2.2.2
     [.OrderExpr (some (.ColumnRef "a" [])) "desc" [] "",
      .OrderExpr (some (.ColumnRef "b" [])) "" [] ""]
     [[.Text "a" "identifer", .Space, .Text "desc" "keyword"], [.Text "b" "identifer"]]
     (List.Forall₂.cons rfl (List.Forall₂.cons rfl List.Forall₂.nil))⟩

/-! ## Boolean connectives -/

/-- Boolean chains: a left-nested chain `(a op b) op c` renders as `a`, NewLine, `op`, Space, `b`,
NewLine, `op`, Space, `c`.  In general `BooleanExpr{l, op, r}` renders as `l`, NewLine,
`op`, Space, `r`; its own calls are no Indent and no Unindent, so the indent depth at
which the right operand starts is the depth at which the left one ended, and with
indent-balanced terms every continuation term of the chain starts, on a new line led by
the connective, at the depth of the first term. -/
theorem boolean_chain_flat (a b c : Expr) (op : String) (ra rb rc : List Call)
    (ha : Expr.RenderTo a = some ra) (hb : Expr.RenderTo b = some rb)
    (hc : Expr.RenderTo c = some rc) :
    Expr.RenderTo (.BooleanExpr (some (.BooleanExpr (some a) op (some b))) op (some c)) =
        some (ra ++ [.NewLine, .Text op "operator", .Space] ++ rb ++
              [.NewLine, .Text op "operator", .Space] ++ rc) ∧
    (∀ (l r : Expr) (o : String) (rl rr : List Call),
      Expr.RenderTo l = some rl → Expr.RenderTo r = some rr →
        Expr.RenderTo (.BooleanExpr (some l) o (some r)) =
            some (rl ++ [.NewLine, .Text o "operator", .Space] ++ rr) ∧
        List.count Call.Indent (rl ++ [.NewLine, .Text o "operator", .Space] ++ rr) =
            List.count Call.Indent rl + List.count Call.Indent rr ∧
        List.count Call.Unindent (rl ++ [.NewLine, .Text o "operator", .Space] ++ rr) =
            List.count Call.Unindent rl + List.count Call.Unindent rr ∧
        Spec.indentDepth (rl ++ [.NewLine, .Text o "operator", .Space]) =
            Spec.indentDepth rl) ∧
    (Spec.indentDepth ra = 0 → Spec.indentDepth rb = 0 →
      Spec.indentDepth (ra ++ [.NewLine, .Text op "operator", .Space]) = 0 ∧
      Spec.indentDepth (ra ++ [.NewLine, .Text op "operator", .Space] ++ rb ++
        [.NewLine, .Text op "operator", .Space]) = 0) := by
  refine ⟨?_, ?_, ?_⟩
  · simp [Expr.RenderTo, ha, hb, hc]
  · intro l r o rl rr hl hr
    refine ⟨?_, ?_, ?_, ?_⟩
    · simp [Expr.RenderTo, hl, hr]
    · simp [List.count_append, List.count_cons]
    · simp [List.count_append, List.count_cons]
    · simp [Spec.indentDepth, List.count_append, List.count_cons]
  · intro h1 h2
    have hown : Spec.indentDepth [.NewLine, .Text op "operator", .Space] = 0 := by
      simp [Spec.indentDepth, List.count_cons]
    constructor <;> simp only [indentDepth_append, h1, h2, hown] <;> rfl

/-- The chain `a and b and c` over three columns. -/
theorem boolean_chain_flat_witness :
    Expr.RenderTo (.BooleanExpr (some (.BooleanExpr (some (.ColumnRef "a" [])) "and"
        (some (.ColumnRef "b" [])))) "and" (some (.ColumnRef "c" []))) =
      some [.Text "a" "identifer", .NewLine, .Text "and" "operator", .Space,
            .Text "b" "identifer", .NewLine, .Text "and" "operator", .Space,
            .Text "c" "identifer"] :=
  (boolean_chain_flat (.ColumnRef "a" []) (.ColumnRef "b" []) (.ColumnRef "c" []) "and"
    [.Text "a" "identifer"] [.Text "b" "identifer"] [.Text "c" "identifer"] rfl rfl rfl).1

/-- C2: the continuation terms of a chain do not always start at the indent depth of the
first term.  In `exists (select 1 having h) and b and c` the first term starts at depth 0
and ends at depth 1, because the HAVING block of SimpleSelect.RenderTo emits an Indent
and no Unindent, and BooleanExpr emits neither: the terms `b` and `c` start, on their new
lines led by `and`, at depth 1. -/
theorem boolean_chain_depth_after_having :
    Expr.RenderTo (.ExistsExpr (.SelectStmt
        (.SimpleSelect none [.IntegerConst "1"] none none none none
          (some (.ColumnRef "h" [])) none none none "" false none none)
        none none none true false)) =
      some [.Text "exists" "keyword", .Text "(" "lparen", .Text "select" "keyword", .NewLine,
            .Indent, .Text "1" "IntegerConst", .NewLine, .Unindent,
            .Text "having" "keyword", .NewLine, .Indent, .Text "h" "identifer", .NewLine,
            .Text ")" "rparen", .NewLine] ∧
    Expr.RenderTo (.BooleanExpr (some (.BooleanExpr
        (some (.ExistsExpr (.SelectStmt
          (.SimpleSelect none [.IntegerConst "1"] none none none none
            (some (.ColumnRef "h" [])) none none none "" false none none)
          none none none true false)))
        "and" (some (.ColumnRef "b" [])))) "and" (some (.ColumnRef "c" []))) =
      some ([.Text "exists" "keyword", .Text "(" "lparen", .Text "select" "keyword", .NewLine,
             .Indent, .Text "1" "IntegerConst", .NewLine, .Unindent,
             .Text "having" "keyword", .NewLine, .Indent, .Text "h" "identifer", .NewLine,
             .Text ")" "rparen", .NewLine] ++
            [.NewLine, .Text "and" "operator", .Space] ++ [.Text "b" "identifer"] ++
            [.NewLine, .Text "and" "operator", .Space] ++ [.Text "c" "identifer"]) ∧
    Spec.indentDepth ([] : List Call) = 0 ∧
    Spec.indentDepth ([.Text "exists" "keyword", .Text "(" "lparen", .Text "select" "keyword",
        .NewLine, .Indent, .Text "1" "IntegerConst", .NewLine, .Unindent,
        .Text "having" "keyword", .NewLine, .Indent, .Text "h" "identifer", .NewLine,
        .Text ")" "rparen", .NewLine] ++
        [.NewLine, .Text "and" "operator", .Space]) = 1 ∧
    Spec.indentDepth ([.Text "exists" "keyword", .Text "(" "lparen", .Text "select" "keyword",
        .NewLine, .Indent, .Text "1" "IntegerConst", .NewLine, .Unindent,
        .Text "having" "keyword", .NewLine, .Indent, .Text "h" "identifer", .NewLine,
        .Text ")" "rparen", .NewLine] ++
        [.NewLine, .Text "and" "operator", .Space] ++ [.Text "b" "identifer"] ++
        [.NewLine, .Text "and" "operator", .Space]) = 1 := by
  refine ⟨rfl, rfl, ?_, ?_, ?_⟩ <;> simp [Spec.indentDepth, List.count_cons]

/-! ## The canonical SELECT statement -/

/-- The DISTINCT block in the vocabulary of the specification. -/
theorem renderDistinct_eq (distinctList : Option (List Expr)) (rds : List (List Call))
    (hds : Spec.RendersTo (distinctList.getD []) rds) :
    Expr.renderDistinct distinctList = some (Spec.distinctCalls distinctList.isSome rds) := by
  cases distinctList with
  | none => rfl
  | some dl =>
    simp only [Option.getD_some] at hds
    have hlen := rendersTo_length dl rds hds
    by_cases hpos : rds.length > 0
    · simp [Expr.renderDistinct, renderLoop_eq _ _ _ dl rds hds, Spec.distinctCalls, hlen,
        hpos, Spec.commaSpaced]
    · simp [Expr.renderDistinct, Spec.distinctCalls, hlen, hpos]


/-- C3: in a canonical SELECT statement (no table shorthand, VALUES or set operation) each
of WHERE, GROUP BY, ORDER BY and LIMIT contributes nothing when absent and exactly its own
rendering when present, at a fixed position: WHERE then GROUP BY after FROM inside the
simple select, ORDER BY then LIMIT after the simple select.  Every other call of the
statement is spelled out: none of them is a `where`, `group by`, `order by`, `limit` or
`offset` token, and none depends on the four clauses. -/
theorem select_clause_omission
    (distinctList : Option (List Expr)) (targetList : List Expr)
    (intoClause : Option IntoClause)
    (fromClause whereClause groupByClause havingClause windowClause : Option Expr)
    (setOp : String) (setAll : Bool) (rightSelect : Option Expr)
    (orderClause limitClause : Option Expr) (lockingClause : Option LockingClause)
    (parenWrapped semicolon : Bool)
    (rds rts : List (List Call)) (f w g h win o l : List Call)
    (hds : Spec.RendersTo (distinctList.getD []) rds)
    (hts : Spec.RendersTo targetList rts)
    (hf : Spec.clausePart fromClause = some f)
    (hw : Spec.clausePart whereClause = some w)
    (hg : Spec.clausePart groupByClause = some g)
    (hh : Spec.clausePart havingClause = some h)
    (hwin : Spec.clausePart windowClause = some win)
    (ho : Spec.clausePart orderClause = some o)
    (hl : Spec.clausePart limitClause = some l) :
    Expr.RenderTo (.SelectStmt
        (.SimpleSelect distinctList targetList intoClause fromClause whereClause groupByClause
          havingClause windowClause none none setOp setAll rightSelect none)
        orderClause limitClause lockingClause parenWrapped semicolon) =
      some ((if parenWrapped then [.Text "(" "lparen"] else []) ++
            [.Text "select" "keyword"] ++ Spec.distinctCalls distinctList.isSome rds ++
            [.NewLine, .Indent] ++ Spec.commaLines rts ++ [.Unindent] ++
            (match intoClause with
             | some i => IntoClause.RenderTo i
             | none => []) ++
            f ++
            w ++
            g ++
            (if havingClause.isSome then
              [.Text "having" "keyword", .NewLine, .Indent] ++ h ++ [.NewLine] else []) ++
            win ++
            o ++
            l ++
            (match lockingClause with
             | some lc => LockingClause.RenderTo lc
             | none => []) ++
            (if parenWrapped then [.Text ")" "rparen", .NewLine] else []) ++
            (if semicolon then [.Text ";" "semicolon", .NewLine] else [])) ∧
    (whereClause = none → w = []) ∧ (groupByClause = none → g = []) ∧
    (orderClause = none → o = []) ∧ (limitClause = none → l = []) := by
  refine ⟨?_, ?_, ?_, ?_, ?_⟩
  · simp only [Expr.RenderTo]
    rw [renderLoop_eq _ _ _ targetList rts hts, renderOpt_clause _ _ hf,
      renderOpt_clause _ _ hw, renderOpt_clause _ _ hg, renderOpt_eq _ _ _ _ hh,
      renderOpt_clause _ _ hwin, renderOpt_clause _ _ ho, renderOpt_clause _ _ hl]
    simp only [emitIf_eq]
    have hinto : (match intoClause with
        | some i => some (IntoClause.RenderTo i)
        | none => some []) = some (match intoClause with
        | some i => IntoClause.RenderTo i
        | none => []) := by cases intoClause <;> rfl
    have hlock : (match lockingClause with
        | some lc => some (LockingClause.RenderTo lc)
        | none => some []) = some (match lockingClause with
        | some lc => LockingClause.RenderTo lc
        | none => []) := by cases lockingClause <;> rfl
    rw [hinto, hlock]
    rw [renderDistinct_eq distinctList rds hds]
    simp [Spec.commaLines]
  · intro hn; subst hn; exact clausePart_none_eq w hw
  · intro hn; subst hn; exact clausePart_none_eq g hg
  · intro hn; subst hn; exact clausePart_none_eq o ho
  · intro hn; subst hn; exact clausePart_none_eq l hl

/-- C3 at `select a from t where c;`: the WHERE rendering stands between FROM and the
semicolon, and no other clause keyword is emitted. -/
theorem select_clause_omission_witness :
    Expr.RenderTo (.SelectStmt
        (.SimpleSelect none [.ColumnRef "a" []] none
          (some (.FromClause (some (.RelationExpr ⟨["t"], false, false⟩))))
          (some (.WhereClause (some (.ColumnRef "c" [])))) none none none none none "" false
          none none)
        none none none false true) =
      some [.Text "select" "keyword", .NewLine, .Indent, .Text "a" "identifer", .NewLine,
            .Unindent,
            .Text "from" "keyword", .NewLine, .Indent, .Text "t" "identifer", .NewLine,
            .NewLine, .Unindent,
            .Text "where" "keyword", .NewLine, .Indent, .Text "c" "identifer", .NewLine,
            .Unindent,
            .Text ";" "semicolon", .NewLine] :=
  (select_clause_omission none [.ColumnRef "a" []] none
    (some (.FromClause (some (.RelationExpr ⟨["t"], false, false⟩))))
    (some (.WhereClause (some (.ColumnRef "c" [])))) none none none "" false none
    none none none false true
    [] [[.Text "a" "identifer"]]
    [.Text "from" "keyword", .NewLine, .Indent, .Text "t" "identifer", .NewLine, .NewLine,
     .Unindent]
    [.Text "where" "keyword", .NewLine, .Indent, .Text "c" "identifer", .NewLine, .Unindent]
    [] [] [] [] []
    List.Forall₂.nil (List.Forall₂.cons rfl List.Forall₂.nil) rfl rfl rfl rfl rfl rfl rfl).1

/-- C4: in a canonical SimpleSelect the calls between the Indent after `select` and the
Unindent that follows the target list are the target renderings in list order, each
followed by a comma except the last and then by one NewLine: the list itself emits one
NewLine per target and one comma per target but the last.  With an empty target list the
rendering is `select`, the DISTINCT tokens, NewLine, Indent, Unindent. -/
theorem target_list_lines
    (distinctList : Option (List Expr)) (targetList : List Expr)
    (intoClause : Option IntoClause)
    (fromClause whereClause groupByClause havingClause windowClause : Option Expr)
    (setOp : String) (setAll : Bool) (rightSelect : Option Expr)
    (rds rts : List (List Call)) (out : List Call)
    (hds : Spec.RendersTo (distinctList.getD []) rds)
    (hts : Spec.RendersTo targetList rts)
    (hout : Expr.RenderTo (.SimpleSelect distinctList targetList intoClause fromClause
      whereClause groupByClause havingClause windowClause none none setOp setAll rightSelect
      none) = some out) :
    (∃ rest : List Call,
      out = [.Text "select" "keyword"] ++ Spec.distinctCalls distinctList.isSome rds ++
            [.NewLine, .Indent] ++ Spec.commaLines rts ++ [.Unindent] ++ rest ∧
      (targetList = [] →
        out = [.Text "select" "keyword"] ++ Spec.distinctCalls distinctList.isSome rds ++
              [.NewLine, .Indent, .Unindent] ++ rest)) ∧
    Spec.commaLines rts =
      (rts.enum.map fun ir =>
        ir.2 ++ (if ir.1 + 1 < targetList.length then [.Text "," "comma"] else []) ++
          [.NewLine]).flatten ∧
    List.count Call.NewLine (Spec.commaLines rts) =
      targetList.length + (rts.map (List.count Call.NewLine)).sum ∧
    List.count (Call.Text "," "comma") (Spec.commaLines rts) =
      (targetList.length - 1) + (rts.map (List.count (Call.Text "," "comma"))).sum := by
  have hlen := rendersTo_length targetList rts hts
  refine ⟨?_, ?_, ?_, ?_⟩
  · simp only [Expr.RenderTo] at hout
    rw [renderDistinct_eq distinctList rds hds, renderLoop_eq _ _ _ targetList rts hts] at hout
    simp only [Option.isSome_none, Bool.false_eq_true, if_false] at hout
    obtain ⟨r1, h1, e1⟩ := emit_cons_eq_some _ _ _ hout
    obtain ⟨r2, h2, e2⟩ := emit_cons_eq_some _ _ _ h1
    obtain ⟨r3, h3, e3⟩ := emit_cons_eq_some _ _ _ h2
    obtain ⟨r4, h4, e4⟩ := emit_cons_eq_some _ _ _ h3
    obtain ⟨r5, h5, e5⟩ := emit_cons_eq_some _ _ _ h4
    refine ⟨r5, ?_, ?_⟩
    · subst e1 e2 e3 e4 e5
      simp [Spec.commaLines]
    · intro hnil
      subst hnil
      cases hts
      subst e1 e2 e3 e4 e5
      simp [Spec.joined]
  · simp [Spec.commaLines, Spec.joined, hlen]
  · rw [Spec.commaLines, count_joined, hlen]
    simp [List.count_cons]
  · rw [Spec.commaLines, count_joined, hlen]
    simp [List.count_cons]

/-- C4 at `select a, b`: two lines, one comma. -/
theorem target_list_lines_witness :
    (∃ rest : List Call,
      [Call.Text "select" "keyword", .NewLine, .Indent,
        .Text "a" "identifer", .Text "," "comma", .NewLine,
        .Text "b" "identifer", .NewLine, .Unindent] =
        [Call.Text "select" "keyword"] ++ Spec.distinctCalls false [] ++ [.NewLine, .Indent] ++
          Spec.commaLines [[.Text "a" "identifer"], [.Text "b" "identifer"]] ++ [.Unindent] ++
          rest) ∧
    List.count Call.NewLine
        (Spec.commaLines [[.Text "a" "identifer"], [.Text "b" "identifer"]]) = 2 ∧
    List.count (Call.Text "," "comma")
        (Spec.commaLines [[.Text "a" "identifer"], [.Text "b" "identifer"]]) = 1 :=
  have h := target_list_lines none [.ColumnRef "a" [], .ColumnRef "b" []] none none none none
    none none "" false none [] [[.Text "a" "identifer"], [.Text "b" "identifer"]]
    [.Text "select" "keyword", .NewLine, .Indent,
      .Text "a" "identifer", .Text "," "comma", .NewLine,
      .Text "b" "identifer", .NewLine, .Unindent]
    List.Forall₂.nil (List.Forall₂.cons rfl (List.Forall₂.cons rfl List.Forall₂.nil)) rfl
  ⟨h.1.imp fun _ hr => hr.1, h.2.2.1, h.2.2.2⟩

/-! ## CASE -/

/-- The WHEN/THEN pairs of a CASE render to their `Spec.whenCalls`. -/
theorem when_clauses_render :
    ∀ (pairs : List (Expr × Expr)) (rps : List (List Call × List Call)),
      List.Forall₂ (fun p r => Expr.RenderTo p.1 = some r.1 ∧ Expr.RenderTo p.2 = some r.2)
        pairs rps →
      Spec.RendersTo (pairs.map fun p => Expr.WhenClause (some p.1) (some p.2))
        (rps.map fun r => Spec.whenCalls r.1 r.2) := by
  intro pairs rps h
  induction h with
  | nil => exact List.Forall₂.nil
  | cons hp _ ih =>
    refine List.Forall₂.cons ?_ ih
    simp [Expr.RenderTo, hp.1, hp.2, Spec.whenCalls]

/-- C5: a CaseExpr renders as `case`; Space and the subject when a subject is present;
NewLine; for each WHEN/THEN pair in order `when`, Space, the condition, Space, `then`,
NewLine, Indent, the result, NewLine, Unindent; when a default is present `else`,
NewLine, Indent, the default, NewLine, Unindent; and finally `end`, NewLine. -/
theorem case_expr_shape
    (caseArg : Option Expr) (pairs : List (Expr × Expr)) (default_ : Option Expr)
    (s d : List Call) (rps : List (List Call × List Call))
    (hs : Spec.clausePart caseArg = some s)
    (hps : List.Forall₂
      (fun p r => Expr.RenderTo p.1 = some r.1 ∧ Expr.RenderTo p.2 = some r.2) pairs rps)
    (hd : Spec.clausePart default_ = some d) :
    Expr.RenderTo (.CaseExpr caseArg
        (pairs.map fun p => Expr.WhenClause (some p.1) (some p.2)) default_) =
      some ([.Text "case" "keyword"] ++
            (if caseArg.isSome then [.Space] ++ s else []) ++
            [.NewLine] ++
            (rps.map fun r =>
              [.Text "when" "keyword", .Space] ++ r.1 ++
              [.Space, .Text "then" "keyword", .NewLine, .Indent] ++ r.2 ++
              [.NewLine, .Unindent]).flatten ++
            (if default_.isSome then
              [.Text "else" "keyword", .NewLine, .Indent] ++ d ++ [.NewLine, .Unindent]
             else []) ++
            [.Text "end" "keyword", .NewLine]) := by
  have hw := when_clauses_render pairs rps hps
  simp only [Expr.RenderTo]
  rw [renderOpt_eq _ _ _ _ hs, renderOpt_eq _ _ _ _ hd, renderLoop_eq _ _ _ _ _ hw,
    joined_plain]
  simp [Spec.whenCalls]

/-- C5 at `case x when 1 then 'a' else 'b' end`. -/
theorem case_expr_shape_witness :
    Expr.RenderTo (.CaseExpr (some (.ColumnRef "x" []))
        [.WhenClause (some (.IntegerConst "1")) (some (.StringConst "'a'"))]
        (some (.StringConst "'b'"))) =
      some [.Text "case" "keyword", .Space, .Text "x" "identifer", .NewLine,
            .Text "when" "keyword", .Space, .Text "1" "IntegerConst", .Space,
            .Text "then" "keyword", .NewLine, .Indent, .Text "'a'" "StringConst", .NewLine,
            .Unindent,
            .Text "else" "keyword", .NewLine, .Indent, .Text "'b'" "StringConst", .NewLine,
            .Unindent,
            .Text "end" "keyword", .NewLine] :=
  case_expr_shape (some (.ColumnRef "x" [])) [(.IntegerConst "1", .StringConst "'a'")]
    (some (.StringConst "'b'")) [.Text "x" "identifer"] [.Text "'b'" "StringConst"]
    [([.Text "1" "IntegerConst"], [.Text "'a'" "StringConst"])]
    rfl (List.Forall₂.cons ⟨rfl, rfl⟩ List.Forall₂.nil) rfl

/-! ## Joins -/

/-- The loop over the USING columns: the column names separated by comma and space. -/
theorem renderUsing_eq :
    ∀ (cols : List String),
      JoinExpr.renderUsing cols =
        Spec.commaSpaced (cols.map fun u => [Call.Text u "identifier"]) := by
  intro cols
  induction cols with
  | nil => rfl
  | cons u rest ih =>
    cases rest with
    | nil => simp [JoinExpr.renderUsing, Spec.commaSpaced, joined_cons, joined_nil]
    | cons v rest2 =>
      rw [JoinExpr.renderUsing, ih]
      simp [Spec.commaSpaced, joined_cons]

theorem sum_map_count_text (c : Call) (typ : String) (hc : ∀ s, c ≠ Call.Text s typ) :
    ∀ (cols : List String),
      ((cols.map fun u => [Call.Text u typ]).map (List.count c)).sum = 0 := by
  intro cols
  induction cols with
  | nil => rfl
  | cons u rest ih =>
    have hne : ¬ (Call.Text u typ == c) = true := by
      simp only [beq_iff_eq]
      exact fun h => hc u h.symm
    simp only [List.map_cons, List.sum_cons, ih, List.count_cons, List.count_nil, hne]
    rfl

/-- C6: a JoinExpr renders its left operand, then `,` and NewLine for the comma form,
or NewLine, the join kind and Space for the keyword form, then its right operand;
it goes on with Space, `using`, `(`, the columns separated by comma and space, `)`
exactly when the Using list is not empty, and with Space, `on`, Space and the ON
predicate exactly when On is present.  The Indent and Unindent calls of the rendering are
those of the operands and of the predicate: JoinExpr emits none itself. -/
theorem join_expr_shape
    (left right : Expr) (join : String) (cols : List String) (on_ : Option Expr)
    (rl rr ro : List Call)
    (hl : Expr.RenderTo left = some rl) (hr : Expr.RenderTo right = some rr)
    (ho : Spec.clausePart on_ = some ro) :
    Expr.RenderTo (.JoinExpr (some left) join (some right) cols on_) =
      some (rl ++
            (if join = "," then [.Text "," "comma", .NewLine]
             else [.NewLine, .Text join "keyword", .Space]) ++
            rr ++
            (if cols ≠ [] then
              [.Space, .Text "using" "keyword", .Text "(" "lparen"] ++
              Spec.commaSpaced (cols.map fun u => [Call.Text u "identifier"]) ++
              [.Text ")" "rparen"]
             else []) ++
            (if on_.isSome then [.Space, .Text "on" "keyword", .Space] ++ ro else [])) ∧
    (∀ out, Expr.RenderTo (.JoinExpr (some left) join (some right) cols on_) = some out →
      List.count Call.Indent out =
        List.count Call.Indent rl + List.count Call.Indent rr + List.count Call.Indent ro ∧
      List.count Call.Unindent out =
        List.count Call.Unindent rl + List.count Call.Unindent rr +
          List.count Call.Unindent ro) := by
  have hro : on_.isSome = false → ro = [] := by
    intro h
    cases on_ with
    | none => exact clausePart_none_eq ro ho
    | some e => cases h
  have hmain : Expr.RenderTo (.JoinExpr (some left) join (some right) cols on_) =
      some (rl ++
            (if join = "," then [.Text "," "comma", .NewLine]
             else [.NewLine, .Text join "keyword", .Space]) ++
            rr ++
            (if cols ≠ [] then
              [.Space, .Text "using" "keyword", .Text "(" "lparen"] ++
              Spec.commaSpaced (cols.map fun u => [Call.Text u "identifier"]) ++
              [.Text ")" "rparen"]
             else []) ++
            (if on_.isSome then [.Space, .Text "on" "keyword", .Space] ++ ro else [])) := by
    simp only [Expr.RenderTo, renderReq_some]
    rw [hl, hr, renderOpt_eq _ _ _ _ ho, renderUsing_eq]
    by_cases hj : join = "," <;> by_cases hc : cols = [] <;>
      simp [hj, hc, List.length_pos]
  refine ⟨hmain, ?_⟩
  intro out hout
  rw [hmain] at hout
  simp only [Option.some.injEq] at hout
  subst hout
  have hI := sum_map_count_text Call.Indent "identifier" (fun s h => by cases h) cols
  have hU := sum_map_count_text Call.Unindent "identifier" (fun s h => by cases h) cols
  simp only [List.map_map] at hI hU
  constructor
  · by_cases hj : join = "," <;> by_cases hc : cols = [] <;> cases hsome : on_.isSome <;>
      simp [hj, hc, hsome, hro, List.count_append, List.count_cons, Spec.commaSpaced,
        count_joined, hI] <;> omega
  · by_cases hj : join = "," <;> by_cases hc : cols = [] <;> cases hsome : on_.isSome <;>
      simp [hj, hc, hsome, hro, List.count_append, List.count_cons, Spec.commaSpaced,
        count_joined, hU] <;> omega

/-- C6 at `a join b using (x, y) on c` over plain columns. -/
theorem join_expr_shape_witness :
    Expr.RenderTo (.JoinExpr (some (.ColumnRef "a" [])) "join" (some (.ColumnRef "b" []))
        ["x", "y"] (some (.ColumnRef "c" []))) =
      some [.Text "a" "identifer", .NewLine, .Text "join" "keyword", .Space,
            .Text "b" "identifer",
            .Space, .Text "using" "keyword", .Text "(" "lparen", .Text "x" "identifier",
            .Text "," "comma", .Space, .Text "y" "identifier", .Text ")" "rparen",
            .Space, .Text "on" "keyword", .Space, .Text "c" "identifer"] :=
  (join_expr_shape (.ColumnRef "a" []) (.ColumnRef "b" []) "join" ["x", "y"]
    (some (.ColumnRef "c" [])) [.Text "a" "identifer"] [.Text "b" "identifer"]
    [.Text "c" "identifer"] rfl rfl rfl).1

/-- C7: the keyword-form join `a join b on c` whose operands are the relations `a` and
`b`.  `RelationExpr.RenderTo` ends with a NewLine call, so between the join kind `join`
and the keyword `on` the sink receives a NewLine: the ON predicate does not stay on the
line of the right operand. -/
theorem join_relation_on_next_line :
    Expr.RenderTo (.JoinExpr (some (.RelationExpr ⟨["a"], false, false⟩)) "join"
        (some (.RelationExpr ⟨["b"], false, false⟩)) [] (some (.ColumnRef "c" []))) =
      some [.Text "a" "identifer", .NewLine, .NewLine, .Text "join" "keyword", .Space,
            .Text "b" "identifer", .NewLine,
            .Space, .Text "on" "keyword", .Space, .Text "c" "identifer"] ∧
    Expr.RenderTo (.JoinExpr (some (.RelationExpr ⟨["a"], false, false⟩)) "join"
        (some (.RelationExpr ⟨["b"], false, false⟩)) ["x"] none) =
      some [.Text "a" "identifer", .NewLine, .NewLine, .Text "join" "keyword", .Space,
            .Text "b" "identifer", .NewLine,
            .Space, .Text "using" "keyword", .Text "(" "lparen", .Text "x" "identifier",
            .Text ")" "rparen"] :=
  ⟨rfl, rfl⟩

/-! ## LIMIT -/

/-- C8 fails at `limit 10`: the rendering is `limit`, Space, `10`, NewLine, and not the
statement-body shape `limit`, NewLine, Indent, `10`, NewLine, Unindent. -/
theorem limit_clause_not_indented :
    Expr.RenderTo (.LimitClause (some (.IntegerConst "10")) none) =
      some [.Text "limit" "keyword", .Space, .Text "10" "IntegerConst", .NewLine] ∧
    Expr.RenderTo (.LimitClause (some (.IntegerConst "10")) none) ≠
      some [.Text "limit" "keyword", .NewLine, .Indent, .Text "10" "IntegerConst", .NewLine,
            .Unindent] := by
  constructor
  · rfl
  · decide

/-- C8 as amended: a LimitClause with a Limit expression renders `limit`, Space, the
limit expression, NewLine, all on one line and with no Indent or Unindent of its own,
followed when an Offset expression is present by `offset`, Space, the offset expression,
NewLine. -/
theorem limit_clause_inline
    (limit : Expr) (offset : Option Expr) (rl ro : List Call)
    (hl : Expr.RenderTo limit = some rl) (ho : Spec.clausePart offset = some ro) :
    Expr.RenderTo (.LimitClause (some limit) offset) =
      some ([.Text "limit" "keyword", .Space] ++ rl ++ [.NewLine] ++
            (if offset.isSome then [.Text "offset" "keyword", .Space] ++ ro ++ [.NewLine]
             else [])) ∧
    List.count Call.Indent ([.Text "limit" "keyword", .Space] ++ rl ++ [.NewLine]) =
      List.count Call.Indent rl ∧
    List.count Call.Unindent ([.Text "limit" "keyword", .Space] ++ rl ++ [.NewLine]) =
      List.count Call.Unindent rl := by
  refine ⟨?_, ?_, ?_⟩
  · simp only [Expr.RenderTo]
    rw [renderOpt_eq _ _ _ _ ho, renderOpt_some, hl]
    simp
  · simp [List.count_append, List.count_cons]
  · simp [List.count_append, List.count_cons]

/-- C8 as amended, at `limit 10 offset 5`. -/
theorem limit_clause_inline_witness :
    Expr.RenderTo (.LimitClause (some (.IntegerConst "10")) (some (.IntegerConst "5"))) =
      some [.Text "limit" "keyword", .Space, .Text "10" "IntegerConst", .NewLine,
            .Text "offset" "keyword", .Space, .Text "5" "IntegerConst", .NewLine] :=
  (limit_clause_inline (.IntegerConst "10") (some (.IntegerConst "5"))
    [.Text "10" "IntegerConst"] [.Text "5" "IntegerConst"] rfl rfl).1

/-! ## Calls that stay on the line -/

theorem inline_nil : Spec.Inline [] := by
  intro c hc; cases hc

theorem inline_cons (c : Call) (cs : List Call) :
    Spec.Inline (c :: cs) ↔ c.onLine = true ∧ Spec.Inline cs := by
  simp [Spec.Inline]

theorem inline_append (a b : List Call) :
    Spec.Inline (a ++ b) ↔ Spec.Inline a ∧ Spec.Inline b := by
  simp only [Spec.Inline, List.mem_append]
  constructor
  · intro h; exact ⟨fun c hc => h c (Or.inl hc), fun c hc => h c (Or.inr hc)⟩
  · rintro ⟨h1, h2⟩ c (hc | hc)
    · exact h1 c hc
    · exact h2 c hc

theorem inline_iff (cs : List Call) :
    Spec.Inline cs ↔ Call.NewLine ∉ cs ∧ Call.Indent ∉ cs ∧ Call.Unindent ∉ cs := by
  constructor
  · intro h
    refine ⟨fun hm => ?_, fun hm => ?_, fun hm => ?_⟩ <;> exact absurd (h _ hm) (by decide)
  · rintro ⟨h1, h2, h3⟩ c hc
    cases c with
    | Text v t => rfl
    | Space => rfl
    | NewLine => exact absurd hc h1
    | Indent => exact absurd hc h2
    | Unindent => exact absurd hc h3

theorem noIndent_nil : Spec.NoIndent [] := by
  simp [Spec.NoIndent]

theorem noIndent_cons (c : Call) (cs : List Call) :
    Spec.NoIndent (c :: cs) ↔
      (c ≠ Call.Indent ∧ c ≠ Call.Unindent) ∧ Spec.NoIndent cs := by
  simp only [Spec.NoIndent, List.mem_cons, not_or]
  constructor
  · rintro ⟨⟨h1, h2⟩, h3, h4⟩
    exact ⟨⟨fun h => h1 h.symm, fun h => h3 h.symm⟩, h2, h4⟩
  · rintro ⟨⟨h1, h2⟩, h3, h4⟩
    exact ⟨⟨fun h => h1 h.symm, h3⟩, fun h => h2 h.symm, h4⟩

theorem noIndent_append (a b : List Call) :
    Spec.NoIndent (a ++ b) ↔ Spec.NoIndent a ∧ Spec.NoIndent b := by
  simp only [Spec.NoIndent, List.mem_append, not_or]
  tauto

theorem inline_ite (c : Prop) [Decidable c] (a b : List Call) :
    Spec.Inline (if c then a else b) ↔ (c → Spec.Inline a) ∧ (¬ c → Spec.Inline b) := by
  by_cases hc : c <;> simp [hc]

theorem noIndent_ite (c : Prop) [Decidable c] (a b : List Call) :
    Spec.NoIndent (if c then a else b) ↔
      (c → Spec.NoIndent a) ∧ (¬ c → Spec.NoIndent b) := by
  by_cases hc : c <;> simp [hc]

theorem noIndent_of_inline (cs : List Call) (h : Spec.Inline cs) : Spec.NoIndent cs :=
  ⟨((inline_iff cs).1 h).2.1, ((inline_iff cs).1 h).2.2⟩

theorem inline_anyName : ∀ (an : AnyName), Spec.Inline (AnyName.RenderTo an) := by
  intro an
  induction an with
  | nil => exact inline_nil
  | cons n rest ih =>
    cases rest with
    | nil => simp [AnyName.RenderTo, inline_cons, inline_nil, Call.onLine]
    | cons m rest2 =>
      rw [AnyName.RenderTo]
      simp [inline_cons, Call.onLine, ih]

theorem inline_intervalSecond (is_ : IntervalSecond) :
    Spec.Inline (IntervalSecond.RenderTo is_) := by
  simp [IntervalSecond.RenderTo, IntegerConst.RenderTo, inline_append, inline_cons,
    inline_nil, inline_ite, Call.onLine]

theorem inline_optInterval (oi : OptInterval) : Spec.Inline (OptInterval.RenderTo oi) := by
  obtain ⟨l, r, sec⟩ := oi
  cases sec <;>
    simp [OptInterval.RenderTo, inline_append, inline_cons, inline_nil, inline_ite,
      Call.onLine, inline_intervalSecond]

theorem inline_subqueryOp (s : SubqueryOp) : Spec.Inline (SubqueryOp.RenderTo s) := by
  simp [SubqueryOp.RenderTo, inline_append, inline_cons, inline_nil, inline_ite,
    Call.onLine, inline_anyName]

theorem inline_renderUsing : ∀ (cols : List String), Spec.Inline (JoinExpr.renderUsing cols) := by
  intro cols
  induction cols with
  | nil => exact inline_nil
  | cons u rest ih =>
    cases rest with
    | nil => simp [JoinExpr.renderUsing, inline_cons, inline_nil, Call.onLine]
    | cons v rest2 =>
      rw [JoinExpr.renderUsing]
      simp [inline_cons, Call.onLine, ih]

theorem inline_renderArrayBounds :
    ∀ (abs_ : List IntegerConst), Spec.Inline (PgType.renderArrayBounds abs_) := by
  intro abs_
  induction abs_ with
  | nil => exact inline_nil
  | cons ab rest ih =>
    rw [PgType.renderArrayBounds]
    simp [inline_cons, Call.onLine, ih]

theorem inline_renderRels : ∀ (rels : List AnyName), Spec.Inline (LockingItem.renderRels rels) := by
  intro rels
  induction rels with
  | nil => exact inline_nil
  | cons lr rest ih =>
    cases rest with
    | nil => simpa [LockingItem.renderRels] using inline_anyName lr
    | cons lr2 rest2 =>
      rw [LockingItem.renderRels]
      simp [inline_append, inline_cons, inline_nil, Call.onLine, ih, inline_anyName]

theorem noIndent_intoClause (i : IntoClause) : Spec.NoIndent (IntoClause.RenderTo i) := by
  have h := noIndent_of_inline _ (inline_anyName i.Target)
  simp [IntoClause.RenderTo, noIndent_append, noIndent_cons, noIndent_nil, noIndent_ite, h]

theorem noIndent_lockingItem (li : LockingItem) : Spec.NoIndent (LockingItem.RenderTo li) := by
  have h := fun rels => noIndent_of_inline _ (inline_renderRels rels)
  obtain ⟨s, rels, w⟩ := li
  cases rels <;>
    simp [LockingItem.RenderTo, noIndent_append, noIndent_cons, noIndent_nil, noIndent_ite, h]

theorem noIndent_lockingClause (lc : LockingClause) :
    Spec.NoIndent (LockingClause.RenderTo lc) := by
  unfold LockingClause.RenderTo
  induction lc.Locks with
  | nil => exact noIndent_nil
  | cons li rest ih =>
    simp only [List.map_cons, List.flatten_cons, noIndent_append]
    exact ⟨noIndent_lockingItem li, ih⟩

theorem noIndent_relationExpr (re : RelationExpr) :
    Spec.NoIndent (RelationExpr.RenderTo re) := by
  have h := noIndent_of_inline _ (inline_anyName re.Name)
  simp [RelationExpr.RenderTo, noIndent_append, noIndent_cons, noIndent_nil, noIndent_ite, h]

/-! ## No indent without a line break -/

theorem lineLed_append (a b : List Call) (ha : Spec.LineLed a) (hb : Spec.LineLed b) :
    Spec.LineLed (a ++ b) := by
  unfold Spec.LineLed at *
  simp only [List.mem_append, noIndent_append]
  tauto

theorem emit_mem_of_someBreaksLine :
    ∀ (parts : List (Option (List Call))) (out : List Call),
      emit parts = some out → Spec.someBreaksLine parts → Call.NewLine ∈ out := by
  intro parts
  induction parts with
  | nil => intro out _ h; exact h.elim
  | cons p ps ih =>
    intro out h hany
    cases p with
    | none => cases h
    | some a =>
      obtain ⟨rest, hrest, rfl⟩ := emit_cons_eq_some a ps out h
      rcases hany with h1 | h2
      · exact List.mem_append_left _ (h1 a rfl)
      · exact List.mem_append_right _ (ih rest hrest h2)

theorem emit_lineLed_of_allLineLed :
    ∀ (parts : List (Option (List Call))) (out : List Call),
      emit parts = some out → Spec.allLineLed parts → Spec.LineLed out := by
  intro parts
  induction parts with
  | nil =>
    intro out h _
    cases h
    exact Or.inr noIndent_nil
  | cons p ps ih =>
    intro out h hall
    cases p with
    | none => cases h
    | some a =>
      obtain ⟨rest, hrest, rfl⟩ := emit_cons_eq_some a ps out h
      exact lineLed_append _ _ (hall.1 a rfl) (ih rest hrest hall.2)

/-- A method body is line-led when one of its parts breaks the line, or when all of its
parts are line-led. -/
theorem lineLedPart_emit (parts : List (Option (List Call)))
    (h : Spec.someBreaksLine parts ∨ Spec.allLineLed parts) :
    Spec.LineLedPart (emit parts) := by
  intro out hout
  rcases h with h | h
  · exact Or.inl (emit_mem_of_someBreaksLine parts out hout h)
  · exact emit_lineLed_of_allLineLed parts out hout h

theorem lineLedPart_some (a : List Call) : Spec.LineLedPart (some a) ↔ Spec.LineLed a := by
  constructor
  · intro h; exact h a rfl
  · intro h o ho; cases ho; exact h

theorem breaksLine_some (a : List Call) : Spec.BreaksLine (some a) ↔ Call.NewLine ∈ a := by
  constructor
  · intro h; exact h a rfl
  · intro h o ho; cases ho; exact h

theorem lineLedPart_none : Spec.LineLedPart none := by
  intro o ho; cases ho

theorem lineLedPart_emitIf (c : Bool) (a : List Call) :
    Spec.LineLedPart (emitIf c a) ↔ (c = true → Spec.LineLed a) := by
  cases c
  · simp [emitIf, lineLedPart_some, Spec.LineLed, noIndent_nil]
  · simp [emitIf, lineLedPart_some]

theorem lineLedPart_ite (c : Prop) [Decidable c] (a b : Option (List Call)) :
    Spec.LineLedPart (if c then a else b) ↔
      (c → Spec.LineLedPart a) ∧ (¬ c → Spec.LineLedPart b) := by
  by_cases hc : c <;> simp [hc]

theorem someBreaksLine_cons (p : Option (List Call)) (ps : List (Option (List Call))) :
    Spec.someBreaksLine (p :: ps) ↔ Spec.BreaksLine p ∨ Spec.someBreaksLine ps := Iff.rfl

theorem someBreaksLine_nil : Spec.someBreaksLine [] ↔ False := Iff.rfl

theorem allLineLed_cons (p : Option (List Call)) (ps : List (Option (List Call))) :
    Spec.allLineLed (p :: ps) ↔ Spec.LineLedPart p ∧ Spec.allLineLed ps := Iff.rfl

theorem allLineLed_nil : Spec.allLineLed [] ↔ True := Iff.rfl

/-- Every rendering is line-led: each method that emits Indent or Unindent emits a
NewLine as well.  By induction over the tree, one case per node type. -/
theorem render_lineLed : ∀ e : Expr, Spec.LineLedPart (Expr.RenderTo e) := by
  apply @Expr.rec (fun e => Spec.LineLedPart (Expr.RenderTo e))
    (fun xs => ∀ pre sep post, Spec.LineLed pre → Spec.LineLed sep → Spec.LineLed post →
      Spec.LineLedPart (Expr.renderLoop xs pre sep post))
    (fun o => Spec.LineLedPart (Expr.renderReq o) ∧ ∀ pre post,
      (Call.NewLine ∈ pre ∨ Call.NewLine ∈ post ∨ (Spec.LineLed pre ∧ Spec.LineLed post)) →
      Spec.LineLedPart (Expr.renderOpt o pre post))
    (fun ol => Spec.LineLedPart (Expr.renderDistinct ol))
  all_goals intros
  all_goals try simp only [Expr.RenderTo]
  all_goals try cases ‹Option OptInterval›
  all_goals try cases ‹Option RelationExpr›
  all_goals try cases ‹Option IntoClause›
  all_goals try cases ‹Option LockingClause›
  all_goals try simp only [Spec.LineLed] at *
  all_goals try simp only [renderLoop_cons, Expr.renderDistinct]
  all_goals try apply lineLedPart_emit
  all_goals try (
    simp [-emit_cons_some, -emit_cons_none, -emit_nil,
      lineLedPart_emit, someBreaksLine_cons, someBreaksLine_nil, allLineLed_cons,
      allLineLed_nil, lineLedPart_some, breaksLine_some, lineLedPart_emitIf,
      lineLedPart_ite, lineLedPart_none, Spec.LineLed, noIndent_cons, noIndent_append,
      noIndent_nil,
      noIndent_of_inline, inline_anyName, inline_optInterval, inline_intervalSecond,
      inline_subqueryOp, inline_renderUsing, inline_renderArrayBounds,
      noIndent_intoClause, noIndent_lockingItem, noIndent_lockingClause,
      noIndent_relationExpr, IntegerConst.RenderTo, *]
    done)
  case some =>
    rename_i val ih
    refine ⟨ih, fun pre post h => ?_⟩
    rw [renderOpt_some]
    apply lineLedPart_emit
    simp only [someBreaksLine_cons, someBreaksLine_nil, allLineLed_cons, allLineLed_nil,
      breaksLine_some, lineLedPart_some, Spec.LineLed]
    tauto

/-- A rendering without NewLine has no Indent and no Unindent either. -/
theorem noIndent_of_no_newline (e : Expr) (r : List Call) (h : Expr.RenderTo e = some r)
    (hn : Call.NewLine ∉ r) : Spec.NoIndent r := by
  rcases render_lineLed e r h with h1 | h2
  · exact absurd h1 hn
  · exact h2

/-- A rendering without NewLine stays on one line at one indent depth. -/
theorem inline_of_no_newline (e : Expr) (r : List Call) (h : Expr.RenderTo e = some r)
    (hn : Call.NewLine ∉ r) : Spec.Inline r :=
  (inline_iff r).2
    ⟨hn, (noIndent_of_no_newline e r h hn).1, (noIndent_of_no_newline e r h hn).2⟩

/-! ## Frame clauses -/

theorem inline_joined (pre sep post : List Call) (hpre : Spec.Inline pre)
    (hsep : Spec.Inline sep) (hpost : Spec.Inline post) :
    ∀ (rs : List (List Call)), (∀ r ∈ rs, Spec.Inline r) →
      Spec.Inline (Spec.joined pre sep post rs) := by
  intro rs
  induction rs with
  | nil => intro _; exact inline_nil
  | cons r rest ih =>
    intro h
    rw [joined_cons]
    simp only [inline_append, inline_ite]
    exact
      ⟨⟨⟨⟨hpre, h r (List.mem_cons_self _ _)⟩, fun _ => inline_nil, fun _ => hsep⟩, hpost⟩,
        ih fun r' hr' => h r' (List.mem_cons_of_mem _ hr')⟩

/-- The calls of a frame bound. -/
theorem frameBound_render (b : Spec.Bound) (r : List Call)
    (h : Spec.clausePart b.BoundExpr = some r) :
    Expr.RenderTo b.node = some (Spec.boundCalls b r) := by
  obtain ⟨c, e, d⟩ := b
  cases c
  · cases e with
    | none => simp [Spec.Bound.node, Expr.RenderTo, Spec.boundCalls]
    | some x =>
      simp only [Spec.clausePart] at h
      simp [Spec.Bound.node, Expr.RenderTo, Spec.boundCalls, h]
  · simp [Spec.Bound.node, Expr.RenderTo, Spec.boundCalls]

theorem inline_boundCalls (b : Spec.Bound) (r : List Call) (h : Spec.Inline r) :
    Spec.Inline (Spec.boundCalls b r) := by
  simp only [Spec.boundCalls, inline_ite, inline_append, inline_cons, inline_nil, Call.onLine]
  simp [h]

/-- The calls of a frame clause: `mode`, Space and the Start bound, or with an End bound
`mode`, Space, `between`, Space, the Start bound, Space, `and`, Space, the End bound. -/
theorem frame_render (f : Spec.Frame) (r1 r2 : List Call)
    (h1 : Spec.clausePart f.Start.BoundExpr = some r1)
    (h2 : ∀ e, f.End = some e → Spec.clausePart e.BoundExpr = some r2) :
    Expr.RenderTo f.node = some (Spec.frameCalls f r1 r2) := by
  obtain ⟨mode, start, end_⟩ := f
  have hs := frameBound_render start r1 h1
  have hunfold : ∀ (s e : Option Expr), Expr.RenderTo (.FrameClause mode s e) =
      emit [some [.Text mode "keyword", .Space],
            (if e.isSome then
               emit [some [.Text "between" "keyword", .Space],
                     Expr.renderReq s,
                     some [.Space, .Text "and" "keyword", .Space],
                     Expr.renderReq e]
             else Expr.renderReq s)] := fun _ _ => rfl
  cases end_ with
  | none =>
    simp only [Spec.Frame.node, Option.map_none']
    rw [hunfold, renderReq_some, hs]
    simp [Spec.frameCalls]
  | some e =>
    have he := frameBound_render e r2 (h2 e rfl)
    simp only [Spec.Frame.node, Option.map_some']
    rw [hunfold, renderReq_some, renderReq_some, hs, he]
    simp [Spec.frameCalls]

theorem inline_frameCalls (f : Spec.Frame) (r1 r2 : List Call) (h1 : Spec.Inline r1)
    (h2 : f.End.isSome → Spec.Inline r2) : Spec.Inline (Spec.frameCalls f r1 r2) := by
  have i1 := inline_boundCalls f.Start r1 h1
  unfold Spec.frameCalls
  cases hE : f.End with
  | none => simp [inline_append, inline_cons, inline_nil, Call.onLine, i1]
  | some e =>
    have i2 := inline_boundCalls e r2 (h2 (by simp [hE]))
    simp [inline_append, inline_cons, inline_nil, Call.onLine, i1, i2]

/-- C10: a FrameClause with a Start bound renders as `mode`, Space, the Start bound when
End is absent, and as `mode`, Space, `between`, Space, the Start bound, Space, `and`,
Space, the End bound when End is present.  A bound renders as `current row`, or as
`unbounded` Space direction, or as its offset expression Space direction.  Neither form
contains a NewLine, Indent or Unindent call when the renderings of the offset expressions
contain none. -/
theorem frame_clause_shape (f : Spec.Frame) (r1 r2 : List Call)
    (h1 : Spec.clausePart f.Start.BoundExpr = some r1)
    (h2 : ∀ e, f.End = some e → Spec.clausePart e.BoundExpr = some r2) :
    (f.End = none →
      Expr.RenderTo (.FrameClause f.Mode (some f.Start.node) none) =
        some ([.Text f.Mode "keyword", .Space] ++ Spec.boundCalls f.Start r1)) ∧
    (∀ e, f.End = some e →
      Expr.RenderTo (.FrameClause f.Mode (some f.Start.node) (some e.node)) =
        some ([.Text f.Mode "keyword", .Space, .Text "between" "keyword", .Space] ++
              Spec.boundCalls f.Start r1 ++ [.Space, .Text "and" "keyword", .Space] ++
              Spec.boundCalls e r2)) ∧
    (∀ (b : Spec.Bound) (r : List Call), Spec.clausePart b.BoundExpr = some r →
      Expr.RenderTo (.FrameBound b.CurrentRow b.BoundExpr b.Direction) =
        some (if b.CurrentRow then [.Text "current row" "keyword"]
              else if b.BoundExpr.isSome then r ++ [.Space, .Text b.Direction "keyword"]
              else [.Text "unbounded" "keyword", .Space, .Text b.Direction "keyword"])) ∧
    (∀ out, Expr.RenderTo f.node = some out →
      (Call.NewLine ∉ r1 ∧ Call.Indent ∉ r1 ∧ Call.Unindent ∉ r1) →
      (Call.NewLine ∉ r2 ∧ Call.Indent ∉ r2 ∧ Call.Unindent ∉ r2) →
      Call.NewLine ∉ out ∧ Call.Indent ∉ out ∧ Call.Unindent ∉ out) := by
  have hf := frame_render f r1 r2 h1 h2
  refine ⟨?_, ?_, ?_, ?_⟩
  · intro hnone
    simpa [Spec.Frame.node, Spec.frameCalls, hnone] using hf
  · intro e he
    simpa [Spec.Frame.node, Spec.frameCalls, he] using hf
  · intro b r hb
    have h := frameBound_render b r hb
    simp only [Spec.Bound.node] at h
    rw [h, Spec.boundCalls]
    by_cases hc : b.CurrentRow = true <;> cases hb' : b.BoundExpr.isSome <;> simp [hc, hb']
  · intro out hout hr1 hr2
    rw [hf] at hout
    simp only [Option.some.injEq] at hout
    subst hout
    rw [← inline_iff]
    exact inline_frameCalls f r1 r2 ((inline_iff r1).2 hr1) (fun _ => (inline_iff r2).2 hr2)

/-- C10 at `rows between 1 preceding and current row` and at `range unbounded preceding`. -/
theorem frame_clause_shape_witness :
    Expr.RenderTo (.FrameClause "rows" (some (.FrameBound false (some (.IntegerConst "1"))
        "preceding")) (some (.FrameBound true none ""))) =
      some [.Text "rows" "keyword", .Space, .Text "between" "keyword", .Space,
            .Text "1" "IntegerConst", .Space, .Text "preceding" "keyword", .Space,
            .Text "and" "keyword", .Space, .Text "current row" "keyword"] ∧
    Expr.RenderTo (.FrameClause "range" (some (.FrameBound false none "preceding")) none) =
      some [.Text "range" "keyword", .Space, .Text "unbounded" "keyword", .Space,
            .Text "preceding" "keyword"] :=
  ⟨(frame_clause_shape ⟨"rows", ⟨false, some (.IntegerConst "1"), "preceding"⟩,
      some ⟨true, none, ""⟩⟩ [.Text "1" "IntegerConst"] []
      rfl (fun e he => by cases he; rfl)).2.1 ⟨true, none, ""⟩ rfl,
   (frame_clause_shape ⟨"range", ⟨false, none, "preceding"⟩, none⟩ [] []
      rfl (fun e he => by cases he)).1 rfl⟩

/-! ## Window specifications -/

theorem rendersTo_mem (xs : List Expr) (rs : List (List Call)) (h : Spec.RendersTo xs rs) :
    ∀ r ∈ rs, ∃ x, Expr.RenderTo x = some r := by
  induction h with
  | nil => intro r hr; cases hr
  | cons hx _ ih =>
    intro r hr
    rcases List.mem_cons.1 hr with rfl | hr'
    · exact ⟨_, hx⟩
    · exact ih r hr'

theorem partitionClause_render (pc : List Expr) (rps : List (List Call))
    (h : Spec.RendersTo pc rps) :
    Expr.RenderTo (.PartitionClause pc) =
      some ([.Text "partition by" "keyword", .Space] ++ Spec.commaSpaced rps) := by
  simp [Expr.RenderTo, renderLoop_eq _ _ _ pc rps h, Spec.commaSpaced]

theorem orderClause_render (exprs : List Expr) (ros : List (List Call))
    (h : Spec.RendersTo exprs ros) :
    Expr.RenderTo (.OrderClause exprs) =
      some ([.Text "order by" "keyword", .NewLine, .Indent] ++ Spec.commaLines ros ++
            [.Unindent]) := by
  simp [Expr.RenderTo, renderLoop_eq _ _ _ exprs ros h, Spec.commaLines]

/-- The calls of a window specification, part by part. -/
theorem windowSpec_render
    (existingName : String) (pc oc : Option (List Expr)) (frame : Option Spec.Frame)
    (rps ros : List (List Call)) (r1 r2 : List Call)
    (hps : Spec.RendersTo (pc.getD []) rps)
    (hos : Spec.RendersTo (oc.getD []) ros)
    (h1 : ∀ f, frame = some f → Spec.clausePart f.Start.BoundExpr = some r1)
    (h2 : ∀ f e, frame = some f → f.End = some e → Spec.clausePart e.BoundExpr = some r2) :
    Expr.RenderTo (.WindowSpecification existingName (pc.map Expr.PartitionClause)
        (oc.map Expr.OrderClause) (frame.map Spec.Frame.node)) =
      some ([.Text "(" "lparen"] ++
            (if existingName ≠ "" then [.Text existingName "identifier", .Space] else []) ++
            (if pc.isSome then
              [.Text "partition by" "keyword", .Space] ++ Spec.commaSpaced rps else []) ++
            (if pc.isSome && (oc.isSome || frame.isSome) then [.Space] else []) ++
            (if oc.isSome then
              [.Text "order by" "keyword", .NewLine, .Indent] ++ Spec.commaLines ros ++
              [.Unindent] else []) ++
            (if oc.isSome && frame.isSome then [.Space] else []) ++
            (match frame with
             | some f => Spec.frameCalls f r1 r2
             | none => []) ++
            [.Text ")" "rparen"]) := by
  have hunfold : ∀ (p o f : Option Expr),
      Expr.RenderTo (.WindowSpecification existingName p o f) =
        emit [some [.Text "(" "lparen"],
              emitIf (existingName != "") [.Text existingName "identifier", .Space],
              (if p.isSome then
                 emit [Expr.renderReq p, emitIf (o.isSome || f.isSome) [.Space]]
               else some []),
              (if o.isSome then emit [Expr.renderReq o, emitIf f.isSome [.Space]]
               else some []),
              Expr.renderOpt f [] [],
              some [.Text ")" "rparen"]] := fun _ _ _ => rfl
  rw [hunfold]
  have hP : ∀ l, pc = some l → Expr.RenderTo (.PartitionClause l) =
      some ([.Text "partition by" "keyword", .Space] ++ Spec.commaSpaced rps) := by
    intro l hl
    subst hl
    exact partitionClause_render l rps hps
  have hO : ∀ l, oc = some l → Expr.RenderTo (.OrderClause l) =
      some ([.Text "order by" "keyword", .NewLine, .Indent] ++ Spec.commaLines ros ++
            [.Unindent]) := by
    intro l hl
    subst hl
    exact orderClause_render l ros hos
  have hF : ∀ f, frame = some f → Expr.RenderTo f.node = some (Spec.frameCalls f r1 r2) :=
    fun f hf => frame_render f r1 r2 (h1 f hf) (fun e he => h2 f e hf he)
  cases pc with
  | none =>
    cases oc with
    | none =>
      cases frame with
      | none => by_cases hn : existingName = "" <;> simp [emitIf_eq, hn]
      | some f =>
        by_cases hn : existingName = "" <;>
          simp [emitIf_eq, hn, renderOpt_some, hF f rfl]
    | some ol =>
      cases frame with
      | none => by_cases hn : existingName = "" <;> simp [emitIf_eq, hn, hO ol rfl]
      | some f =>
        by_cases hn : existingName = "" <;>
          simp [emitIf_eq, hn, renderOpt_some, hF f rfl, hO ol rfl]
  | some pl =>
    cases oc with
    | none =>
      cases frame with
      | none => by_cases hn : existingName = "" <;> simp [emitIf_eq, hn, hP pl rfl]
      | some f =>
        by_cases hn : existingName = "" <;>
          simp [emitIf_eq, hn, renderOpt_some, hF f rfl, hP pl rfl]
    | some ol =>
      cases frame with
      | none =>
        by_cases hn : existingName = "" <;> simp [emitIf_eq, hn, hO ol rfl, hP pl rfl]
      | some f =>
        by_cases hn : existingName = "" <;>
          simp [emitIf_eq, hn, renderOpt_some, hF f rfl, hO ol rfl, hP pl rfl]

theorem inline_of_clausePart (o : Option Expr) (r : List Call)
    (h : Spec.clausePart o = some r) (hn : Call.NewLine ∉ r) : Spec.Inline r := by
  cases o with
  | none =>
    rw [clausePart_none_eq r h]
    exact inline_nil
  | some x => exact inline_of_no_newline x r h hn

/-- C9: a WindowSpecification with an ORDER BY clause is not inline.  The partition
expression `p` and the sort key `a` render without NewLine, and yet
`(partition by p order by a rows unbounded preceding)` renders with the NewLine, Indent
and Unindent of OrderClause.RenderTo between the parentheses, and the Space that
WindowSpecification.RenderTo emits between the ORDER BY part and the frame clause stands
right after NewLine, Unindent, at the start of a line; likewise `(order by a)`. -/
theorem window_spec_order_by_breaks_line :
    Expr.RenderTo (.ColumnRef "p" []) = some [.Text "p" "identifer"] ∧
    Expr.RenderTo (.OrderExpr (some (.ColumnRef "a" [])) "" [] "") =
      some [.Text "a" "identifer"] ∧
    Expr.RenderTo (.WindowSpecification ""
        (some (.PartitionClause [.ColumnRef "p" []]))
        (some (.OrderClause [.OrderExpr (some (.ColumnRef "a" [])) "" [] ""]))
        (some (.FrameClause "rows" (some (.FrameBound false none "preceding")) none))) =
      some [.Text "(" "lparen", .Text "partition by" "keyword", .Space,
            .Text "p" "identifer", .Space, .Text "order by" "keyword", .NewLine, .Indent,
            .Text "a" "identifer", .NewLine, .Unindent, .Space, .Text "rows" "keyword",
            .Space, .Text "unbounded" "keyword", .Space, .Text "preceding" "keyword",
            .Text ")" "rparen"] ∧
    Call.NewLine ∈ [Call.Text "(" "lparen", .Text "partition by" "keyword", .Space,
            .Text "p" "identifer", .Space, .Text "order by" "keyword", .NewLine, .Indent,
            .Text "a" "identifer", .NewLine, .Unindent, .Space, .Text "rows" "keyword",
            .Space, .Text "unbounded" "keyword", .Space, .Text "preceding" "keyword",
            .Text ")" "rparen"] ∧
    Call.Indent ∈ [Call.Text "(" "lparen", .Text "partition by" "keyword", .Space,
            .Text "p" "identifer", .Space, .Text "order by" "keyword", .NewLine, .Indent,
            .Text "a" "identifer", .NewLine, .Unindent, .Space, .Text "rows" "keyword",
            .Space, .Text "unbounded" "keyword", .Space, .Text "preceding" "keyword",
            .Text ")" "rparen"] ∧
    Call.Unindent ∈ [Call.Text "(" "lparen", .Text "partition by" "keyword", .Space,
            .Text "p" "identifer", .Space, .Text "order by" "keyword", .NewLine, .Indent,
            .Text "a" "identifer", .NewLine, .Unindent, .Space, .Text "rows" "keyword",
            .Space, .Text "unbounded" "keyword", .Space, .Text "preceding" "keyword",
            .Text ")" "rparen"] ∧
    Expr.RenderTo (.WindowSpecification "" none
        (some (.OrderClause [.OrderExpr (some (.ColumnRef "a" [])) "" [] ""])) none) =
      some [.Text "(" "lparen", .Text "order by" "keyword", .NewLine, .Indent,
            .Text "a" "identifer", .NewLine, .Unindent, .Text ")" "rparen"] := by
  refine ⟨rfl, rfl, rfl, ?_, ?_, ?_, rfl⟩ <;> decide

/-- The shape of a window specification: a WindowSpecification renders `(`, the base window name, the
PARTITION BY part, the ORDER BY part, the frame clause and `)`, the parts that are
present separated from each other by exactly one Space call.  When no ORDER BY clause is
present and the partition and frame-offset expressions render without NewLine, the
rendering contains no NewLine, Indent or Unindent call.  An ORDER BY clause is rendered
by `OrderClause.RenderTo`, so with one present the rendering contains NewLine, Indent and
Unindent. -/
theorem window_spec_shape
    (existingName : String) (pc oc : Option (List Expr)) (frame : Option Spec.Frame)
    (rps ros : List (List Call)) (r1 r2 : List Call)
    (hps : Spec.RendersTo (pc.getD []) rps)
    (hos : Spec.RendersTo (oc.getD []) ros)
    (h1 : ∀ f, frame = some f → Spec.clausePart f.Start.BoundExpr = some r1)
    (h2 : ∀ f e, frame = some f → f.End = some e → Spec.clausePart e.BoundExpr = some r2) :
    ∃ out : List Call,
      Expr.RenderTo (.WindowSpecification existingName (pc.map Expr.PartitionClause)
        (oc.map Expr.OrderClause) (frame.map Spec.Frame.node)) = some out ∧
      out =
        [.Text "(" "lparen"] ++
        (if existingName ≠ "" then [.Text existingName "identifier", .Space] else []) ++
        (if pc.isSome then
          [.Text "partition by" "keyword", .Space] ++ Spec.commaSpaced rps else []) ++
        (if pc.isSome && (oc.isSome || frame.isSome) then [.Space] else []) ++
        (if oc.isSome then
          [.Text "order by" "keyword", .NewLine, .Indent] ++ Spec.commaLines ros ++
          [.Unindent] else []) ++
        (if oc.isSome && frame.isSome then [.Space] else []) ++
        (match frame with
         | some f => Spec.frameCalls f r1 r2
         | none => []) ++
        [.Text ")" "rparen"] ∧
      (oc = none → (∀ r ∈ rps, Call.NewLine ∉ r) → Call.NewLine ∉ r1 → Call.NewLine ∉ r2 →
        Call.NewLine ∉ out ∧ Call.Indent ∉ out ∧ Call.Unindent ∉ out) ∧
      (oc.isSome → Call.NewLine ∈ out ∧ Call.Indent ∈ out ∧ Call.Unindent ∈ out) := by
  refine ⟨_, windowSpec_render existingName pc oc frame rps ros r1 r2 hps hos h1 h2, rfl,
    ?_, ?_⟩
  · intro hoc hrps hr1 hr2
    subst hoc
    rw [← inline_iff]
    have hPs : Spec.Inline (Spec.commaSpaced rps) := by
      apply inline_joined
      · exact inline_nil
      · simp [inline_cons, inline_nil, Call.onLine]
      · exact inline_nil
      · intro r hr
        obtain ⟨x, hx⟩ := rendersTo_mem _ _ hps r hr
        exact inline_of_no_newline x r hx (hrps r hr)
    have hFr : ∀ f, frame = some f → Spec.Inline (Spec.frameCalls f r1 r2) := by
      intro f hf
      apply inline_frameCalls
      · exact inline_of_clausePart _ r1 (h1 f hf) hr1
      · intro hE
        obtain ⟨e, he⟩ := Option.isSome_iff_exists.1 hE
        exact inline_of_clausePart _ r2 (h2 f e hf he) hr2
    cases frame with
    | none =>
      simp [inline_append, inline_cons, inline_nil, inline_ite, Call.onLine, hPs]
    | some f =>
      simp [inline_append, inline_cons, inline_nil, inline_ite, Call.onLine, hPs, hFr f rfl]
  · intro hoc
    simp [hoc]

/-- The window specification `(partition by a rows unbounded preceding)`: one line, the
two parts one Space apart. -/
theorem window_spec_shape_witness :
    ∃ out : List Call,
      Expr.RenderTo (.WindowSpecification "" (some (.PartitionClause [.ColumnRef "a" []]))
        none (some (.FrameClause "rows" (some (.FrameBound false none "preceding")) none))) =
        some out ∧
      out = [.Text "(" "lparen", .Text "partition by" "keyword", .Space,
             .Text "a" "identifer", .Space, .Text "rows" "keyword", .Space,
             .Text "unbounded" "keyword", .Space, .Text "preceding" "keyword",
             .Text ")" "rparen"] :=
  (window_spec_shape "" (some [.ColumnRef "a" []]) none
    (some ⟨"rows", ⟨false, none, "preceding"⟩, none⟩) [[.Text "a" "identifer"]] [] [] []
    (List.Forall₂.cons rfl List.Forall₂.nil) List.Forall₂.nil
    (fun f hf => by cases hf; rfl) (fun f e hf he => by cases hf; cases he)).imp
    fun _ h => ⟨h.1, h.2.1⟩

/-! ## Set operations and the statement wrapper -/

/-- Set operations: a set-operation SimpleSelect (no table shorthand, no VALUES) renders
its left statement, NewLine, the operator, Space and `all` exactly when SetAll holds,
NewLine, its right statement.  It emits no Indent and no Unindent itself: the right operand starts at
the indent depth at which the left one ended. -/
theorem set_operation_shape
    (distinctList : Option (List Expr)) (targetList : List Expr)
    (intoClause : Option IntoClause)
    (fromClause whereClause groupByClause havingClause windowClause : Option Expr)
    (left right : Expr) (setOp : String) (setAll : Bool) (rl rr : List Call)
    (hl : Expr.RenderTo left = some rl) (hr : Expr.RenderTo right = some rr) :
    Expr.RenderTo (.SimpleSelect distinctList targetList intoClause fromClause whereClause
        groupByClause havingClause windowClause none (some left) setOp setAll (some right)
        none) =
      some (rl ++ [.NewLine, .Text setOp "keyword"] ++
            (if setAll then [.Space, .Text "all" "keyword"] else []) ++ [.NewLine] ++ rr) ∧
    List.count Call.Indent (rl ++ [.NewLine, .Text setOp "keyword"] ++
        (if setAll then [.Space, .Text "all" "keyword"] else []) ++ [.NewLine] ++ rr) =
      List.count Call.Indent rl + List.count Call.Indent rr ∧
    List.count Call.Unindent (rl ++ [.NewLine, .Text setOp "keyword"] ++
        (if setAll then [.Space, .Text "all" "keyword"] else []) ++ [.NewLine] ++ rr) =
      List.count Call.Unindent rl + List.count Call.Unindent rr ∧
    Spec.indentDepth (rl ++ [.NewLine, .Text setOp "keyword"] ++
        (if setAll then [.Space, .Text "all" "keyword"] else []) ++ [.NewLine]) =
      Spec.indentDepth rl := by
  refine ⟨?_, ?_, ?_, ?_⟩
  · simp only [Expr.RenderTo]
    cases setAll <;> simp [hl, hr]
  · cases setAll <;> simp [List.count_append, List.count_cons]
  · cases setAll <;> simp [List.count_append, List.count_cons]
  · cases setAll <;> simp [Spec.indentDepth, List.count_append, List.count_cons]

/-- The set operation `select 1 union all select 2`, both operands bare statements. -/
theorem set_operation_shape_witness :
    Expr.RenderTo (.SimpleSelect none [] none none none none none none none
        (some (.SelectStmt
          (.SimpleSelect none [.IntegerConst "1"] none none none none none none none none ""
            false none none) none none none false false))
        "union" true
        (some (.SelectStmt
          (.SimpleSelect none [.IntegerConst "2"] none none none none none none none none ""
            false none none) none none none false false))
        none) =
      some [.Text "select" "keyword", .NewLine, .Indent, .Text "1" "IntegerConst", .NewLine,
            .Unindent,
            .NewLine, .Text "union" "keyword", .Space, .Text "all" "keyword", .NewLine,
            .Text "select" "keyword", .NewLine, .Indent, .Text "2" "IntegerConst", .NewLine,
            .Unindent] :=
  (set_operation_shape none [] none none none none none none
    (.SelectStmt
      (.SimpleSelect none [.IntegerConst "1"] none none none none none none none none ""
        false none none) none none none false false)
    (.SelectStmt
      (.SimpleSelect none [.IntegerConst "2"] none none none none none none none none ""
        false none none) none none none false false)
    "union" true
    [.Text "select" "keyword", .NewLine, .Indent, .Text "1" "IntegerConst", .NewLine,
     .Unindent]
    [.Text "select" "keyword", .NewLine, .Indent, .Text "2" "IntegerConst", .NewLine,
     .Unindent]
    rfl rfl).1

/-- C12: the two operands of a set operation are not always rendered at the same indent
depth.  In `select a having b union select c` the left statement starts at depth 0 and
ends at depth 1, because the HAVING block of SimpleSelect.RenderTo emits an Indent and no
Unindent, and the set operation emits neither: the right statement starts at depth 1. -/
theorem set_operation_depth_after_having :
    Expr.RenderTo (.SelectStmt
        (.SimpleSelect none [.ColumnRef "a" []] none none none none
          (some (.ColumnRef "b" [])) none none none "" false none none)
        none none none false false) =
      some [.Text "select" "keyword", .NewLine, .Indent, .Text "a" "identifer", .NewLine,
            .Unindent, .Text "having" "keyword", .NewLine, .Indent, .Text "b" "identifer",
            .NewLine] ∧
    Expr.RenderTo (.SimpleSelect none [] none none none none none none none
        (some (.SelectStmt
          (.SimpleSelect none [.ColumnRef "a" []] none none none none
            (some (.ColumnRef "b" [])) none none none "" false none none)
          none none none false false))
        "union" false
        (some (.SelectStmt
          (.SimpleSelect none [.ColumnRef "c" []] none none none none none none none none ""
            false none none) none none none false false))
        none) =
      some ([.Text "select" "keyword", .NewLine, .Indent, .Text "a" "identifer", .NewLine,
             .Unindent, .Text "having" "keyword", .NewLine, .Indent, .Text "b" "identifer",
             .NewLine] ++
            [.NewLine, .Text "union" "keyword", .NewLine] ++
            [.Text "select" "keyword", .NewLine, .Indent, .Text "c" "identifer", .NewLine,
             .Unindent]) ∧
    Spec.indentDepth ([] : List Call) = 0 ∧
    Spec.indentDepth ([.Text "select" "keyword", .NewLine, .Indent, .Text "a" "identifer",
        .NewLine, .Unindent, .Text "having" "keyword", .NewLine, .Indent,
        .Text "b" "identifer", .NewLine] ++
        [.NewLine, .Text "union" "keyword", .NewLine]) = 1 := by
  refine ⟨rfl, rfl, ?_, ?_⟩ <;> simp [Spec.indentDepth, List.count_cons]

/-- C13: a SelectStmt renders `(` exactly when ParenWrapped, then the wrapped simple
select, then the ORDER BY, LIMIT and locking clauses that are present, in that order, then
`)`, NewLine exactly when ParenWrapped, then `;`, NewLine exactly when Semicolon.  A
statement that is both parenthesized and terminated ends with `)`, NewLine, `;`,
NewLine. -/
theorem select_stmt_wrapping
    (simpleSelect : Expr) (orderClause limitClause : Option Expr)
    (lockingClause : Option LockingClause) (parenWrapped semicolon : Bool)
    (rs o l : List Call)
    (hs : Expr.RenderTo simpleSelect = some rs)
    (ho : Spec.clausePart orderClause = some o)
    (hl : Spec.clausePart limitClause = some l) :
    Expr.RenderTo (.SelectStmt simpleSelect orderClause limitClause lockingClause
        parenWrapped semicolon) =
      some ((if parenWrapped then [.Text "(" "lparen"] else []) ++
            rs ++ o ++ l ++
            (match lockingClause with
             | some lc => LockingClause.RenderTo lc
             | none => []) ++
            (if parenWrapped then [.Text ")" "rparen", .NewLine] else []) ++
            (if semicolon then [.Text ";" "semicolon", .NewLine] else [])) ∧
    (parenWrapped = true → semicolon = true →
      ∃ body : List Call,
        Expr.RenderTo (.SelectStmt simpleSelect orderClause limitClause lockingClause
          parenWrapped semicolon) =
          some (body ++ [.Text ")" "rparen", .NewLine, .Text ";" "semicolon", .NewLine])) := by
  have hmain : Expr.RenderTo (.SelectStmt simpleSelect orderClause limitClause lockingClause
        parenWrapped semicolon) =
      some ((if parenWrapped then [.Text "(" "lparen"] else []) ++
            rs ++ o ++ l ++
            (match lockingClause with
             | some lc => LockingClause.RenderTo lc
             | none => []) ++
            (if parenWrapped then [.Text ")" "rparen", .NewLine] else []) ++
            (if semicolon then [.Text ";" "semicolon", .NewLine] else [])) := by
    simp only [Expr.RenderTo]
    rw [hs, renderOpt_clause _ _ ho, renderOpt_clause _ _ hl]
    cases lockingClause <;> cases parenWrapped <;> cases semicolon <;> simp
  refine ⟨hmain, ?_⟩
  intro hp hsemi
  subst hp hsemi
  refine ⟨[.Text "(" "lparen"] ++ rs ++ o ++ l ++
    (match lockingClause with
     | some lc => LockingClause.RenderTo lc
     | none => []), ?_⟩
  rw [hmain]
  simp

/-- C13 at `(select 1);`. -/
theorem select_stmt_wrapping_witness :
    Expr.RenderTo (.SelectStmt
        (.SimpleSelect none [.IntegerConst "1"] none none none none none none none none ""
          false none none) none none none true true) =
      some [.Text "(" "lparen", .Text "select" "keyword", .NewLine, .Indent,
            .Text "1" "IntegerConst", .NewLine, .Unindent, .Text ")" "rparen", .NewLine,
            .Text ";" "semicolon", .NewLine] :=
  (select_stmt_wrapping
    (.SimpleSelect none [.IntegerConst "1"] none none none none none none none none ""
      false none none) none none none true true
    [.Text "select" "keyword", .NewLine, .Indent, .Text "1" "IntegerConst", .NewLine,
     .Unindent] [] [] rfl rfl rfl).1

/-! ## DISTINCT -/

/-- The head of a canonical SimpleSelect: `select`, the DISTINCT calls, NewLine, Indent,
the target lines, Unindent, and then the clauses. -/
theorem canonical_select_head
    (distinctList : Option (List Expr)) (targetList : List Expr)
    (intoClause : Option IntoClause)
    (fromClause whereClause groupByClause havingClause windowClause : Option Expr)
    (setOp : String) (setAll : Bool) (rightSelect : Option Expr)
    (rds rts : List (List Call)) (out : List Call)
    (hds : Spec.RendersTo (distinctList.getD []) rds)
    (hts : Spec.RendersTo targetList rts)
    (hout : Expr.RenderTo (.SimpleSelect distinctList targetList intoClause fromClause
      whereClause groupByClause havingClause windowClause none none setOp setAll rightSelect
      none) = some out) :
    ∃ rest : List Call,
      out = [.Text "select" "keyword"] ++ Spec.distinctCalls distinctList.isSome rds ++
            [.NewLine, .Indent] ++ Spec.commaLines rts ++ [.Unindent] ++ rest := by
  simp only [Expr.RenderTo] at hout
  rw [renderDistinct_eq distinctList rds hds, renderLoop_eq _ _ _ targetList rts hts] at hout
  simp only [Option.isSome_none, Bool.false_eq_true, if_false] at hout
  obtain ⟨r1, h1, e1⟩ := emit_cons_eq_some _ _ _ hout
  obtain ⟨r2, h2, e2⟩ := emit_cons_eq_some _ _ _ h1
  obtain ⟨r3, h3, e3⟩ := emit_cons_eq_some _ _ _ h2
  obtain ⟨r4, h4, e4⟩ := emit_cons_eq_some _ _ _ h3
  obtain ⟨r5, h5, e5⟩ := emit_cons_eq_some _ _ _ h4
  refine ⟨r5, ?_⟩
  subst e1 e2 e3 e4 e5
  simp [Spec.commaLines]

/-- C15: in a canonical SimpleSelect the calls between `select` and the NewLine, Indent
that open the target list are: none when DistinctList is absent; Space, `distinct` when
it is present and empty, with no `on` and no parenthesis; Space, `distinct`, Space, `on`,
`(`, the elements in order separated by comma and space, `)` when it is present and not
empty. -/
theorem distinct_forms
    (distinctList : Option (List Expr)) (targetList : List Expr)
    (intoClause : Option IntoClause)
    (fromClause whereClause groupByClause havingClause windowClause : Option Expr)
    (setOp : String) (setAll : Bool) (rightSelect : Option Expr)
    (rds rts : List (List Call)) (out : List Call)
    (hds : Spec.RendersTo (distinctList.getD []) rds)
    (hts : Spec.RendersTo targetList rts)
    (hout : Expr.RenderTo (.SimpleSelect distinctList targetList intoClause fromClause
      whereClause groupByClause havingClause windowClause none none setOp setAll rightSelect
      none) = some out) :
    ∃ d tail : List Call,
      out = [.Text "select" "keyword"] ++ d ++ [.NewLine, .Indent] ++ tail ∧
      (distinctList = none → d = []) ∧
      (distinctList = some [] → d = [.Space, .Text "distinct" "keyword"]) ∧
      (∀ x xs, distinctList = some (x :: xs) →
        d = [.Space, .Text "distinct" "keyword", .Space, .Text "on" "keyword",
             .Text "(" "lparen"] ++ Spec.commaSpaced rds ++ [.Text ")" "rparen"] ∧
        Spec.commaSpaced rds =
          (rds.enum.map fun ir =>
            ir.2 ++ (if ir.1 + 1 < (x :: xs).length then [.Text "," "comma", .Space]
                     else [])).flatten) := by
  obtain ⟨rest, hrest⟩ := canonical_select_head distinctList targetList intoClause fromClause
    whereClause groupByClause havingClause windowClause setOp setAll rightSelect rds rts out
    hds hts hout
  refine ⟨Spec.distinctCalls distinctList.isSome rds,
    Spec.commaLines rts ++ [.Unindent] ++ rest, ?_, ?_, ?_, ?_⟩
  · rw [hrest]
    simp
  · intro h
    subst h
    rfl
  · intro h
    subst h
    cases hds
    rfl
  · intro x xs h
    subst h
    have hlen := rendersTo_length _ _ hds
    simp only [Option.getD_some] at hlen
    constructor
    · have hpos : rds.length > 0 := by rw [← hlen]; simp
      simp [Spec.distinctCalls, hpos]
    · simp [Spec.commaSpaced, Spec.joined, hlen]

/-- C15 at `select distinct on (a, b) c`. -/
theorem distinct_forms_witness :
    ∃ d tail : List Call,
      [Call.Text "select" "keyword", .Space, .Text "distinct" "keyword", .Space,
        .Text "on" "keyword", .Text "(" "lparen", .Text "a" "identifer", .Text "," "comma",
        .Space, .Text "b" "identifer", .Text ")" "rparen", .NewLine, .Indent,
        .Text "c" "identifer", .NewLine, .Unindent] =
        [Call.Text "select" "keyword"] ++ d ++ [.NewLine, .Indent] ++ tail ∧
      d = [.Space, .Text "distinct" "keyword", .Space, .Text "on" "keyword",
           .Text "(" "lparen"] ++
          Spec.commaSpaced [[.Text "a" "identifer"], [.Text "b" "identifer"]] ++
          [.Text ")" "rparen"] :=
  (distinct_forms (some [.ColumnRef "a" [], .ColumnRef "b" []]) [.ColumnRef "c" []] none
    none none none none none "" false none
    [[.Text "a" "identifer"], [.Text "b" "identifer"]] [[.Text "c" "identifer"]]
    [.Text "select" "keyword", .Space, .Text "distinct" "keyword", .Space,
      .Text "on" "keyword", .Text "(" "lparen", .Text "a" "identifer", .Text "," "comma",
      .Space, .Text "b" "identifer", .Text ")" "rparen", .NewLine, .Indent,
      .Text "c" "identifer", .NewLine, .Unindent]
    (List.Forall₂.cons rfl (List.Forall₂.cons rfl List.Forall₂.nil))
    (List.Forall₂.cons rfl List.Forall₂.nil) rfl).imp
    fun _ h => h.imp fun _ h2 => ⟨h2.1, (h2.2.2.2 _ _ rfl).1⟩

/-! ## Intervals and optional trailing pieces -/

/-- C16: a ConstIntervalExpr with a non-empty precision `p`, a value and an optional
qualifier renders as `interval`, `(`, p, `)`, Space, the value, then Space and the
qualifier when there is one, so the parenthesised precision stands before the value; with
precision 2, value 'foo' and the qualifier year to month the calls are interval ( 2 )
Space 'foo' Space year Space to Space month, which reads `interval(2) 'foo' year to
month` with one blank per Space. -/
theorem const_interval_precision (p : IntegerConst) (v : Expr) (q : Option OptInterval)
    (rv : List Call) (hp : p ≠ "") (hv : Expr.RenderTo v = some rv) :
    Expr.RenderTo (.ConstIntervalExpr p (some v) q) =
      some ([.Text "interval" "keyword", .Text "(" "lparen", .Text p "IntegerConst",
             .Text ")" "lparen", .Space] ++ rv ++
            (match q with
             | some oi => [.Space] ++ OptInterval.RenderTo oi
             | none => [])) ∧
    Expr.RenderTo (.ConstIntervalExpr "2" (some (.StringConst "'foo'"))
        (some ⟨"year", "month", none⟩)) =
      some [.Text "interval" "keyword", .Text "(" "lparen", .Text "2" "IntegerConst",
            .Text ")" "lparen", .Space, .Text "'foo'" "StringConst", .Space,
            .Text "year" "keyword", .Space, .Text "to" "keyword", .Space,
            .Text "month" "keyword"] ∧
    Spec.plainText [.Text "interval" "keyword", .Text "(" "lparen", .Text "2" "IntegerConst",
            .Text ")" "lparen", .Space, .Text "'foo'" "StringConst", .Space,
            .Text "year" "keyword", .Space, .Text "to" "keyword", .Space,
            .Text "month" "keyword"] = "interval(2) 'foo' year to month" := by
  refine ⟨?_, ?_, ?_⟩
  · simp only [Expr.RenderTo, renderReq_some, hv]
    have hb : (p != "") = true := by simpa using hp
    cases q <;> simp [hb, IntegerConst.RenderTo]
  · rfl
  · decide

/-- C16 at `interval(3) '1 day'` with no qualifier. -/
theorem const_interval_precision_witness :
    Expr.RenderTo (.ConstIntervalExpr "3" (some (.StringConst "'1 day'")) none) =
      some ([Call.Text "interval" "keyword", .Text "(" "lparen", .Text "3" "IntegerConst",
             .Text ")" "lparen", .Space] ++ [.Text "'1 day'" "StringConst"] ++ []) :=
  (const_interval_precision "3" (.StringConst "'1 day'") none [.Text "'1 day'" "StringConst"]
    (by decide) rfl).1

/-- C17: unset optional trailing pieces leave nothing behind.  A SubstrExpr and an
OverlayExpr without a For expression end with the From expression directly followed by
`)`, with no `for` token of their own; an IntervalSecond with empty precision is the one
token `second`; an XmlRoot with empty Standalone has one comma, no `standalone` token,
and `)` directly after the version. -/
theorem unset_trailing_pieces_omitted (source from_ dest placing xml version : Expr)
    (rs rf rd rp rx rver : List Call)
    (hs : Expr.RenderTo source = some rs) (hf : Expr.RenderTo from_ = some rf)
    (hd : Expr.RenderTo dest = some rd) (hpl : Expr.RenderTo placing = some rp)
    (hx : Expr.RenderTo xml = some rx) (hver : Expr.RenderTo version = some rver) :
    Expr.RenderTo (.SubstrExpr (.SubstrList (some source) (some from_) none)) =
      some ([.Text "substring" "keyword", .Text "(" "lparen"] ++ rs ++
            [.Space, .Text "from" "keyword", .Space] ++ rf ++ [.Text ")" "rparen"]) ∧
    Expr.RenderTo (.OverlayExpr (.OverlayList (some dest) (some placing) (some from_) none)) =
      some ([.Text "overlay" "keyword", .Text "(" "lparen"] ++ rd ++
            [.Space, .Text "placing" "keyword", .Space] ++ rp ++
            [.Space, .Text "from" "keyword", .Space] ++ rf ++ [.Text ")" "rparen"]) ∧
    IntervalSecond.RenderTo ⟨""⟩ = [.Text "second" "keyword"] ∧
    Expr.RenderTo (.IntervalSecond ⟨""⟩) = some [.Text "second" "keyword"] ∧
    Expr.RenderTo (.XmlRoot (some xml) version "") =
      some ([.Text "xmlroot" "keyword", .Text "(" "lparen"] ++ rx ++
            [.Text "," "comma", .Space] ++ rver ++ [.Text ")" "rparen"]) := by
  refine ⟨?_, ?_, rfl, rfl, ?_⟩
  · simp [Expr.RenderTo, renderReq_some, hs, hf]
  · simp [Expr.RenderTo, renderReq_some, hd, hpl, hf]
  · simp [Expr.RenderTo, renderReq_some, hx, hver]

/-- C17 at `substring(a from 2)`. -/
theorem unset_trailing_pieces_omitted_witness :
    Expr.RenderTo (.SubstrExpr (.SubstrList (some (.ColumnRef "a" []))
        (some (.IntegerConst "2")) none)) =
      some ([Call.Text "substring" "keyword", .Text "(" "lparen"] ++
            [.Text "a" "identifer"] ++ [.Space, .Text "from" "keyword", .Space] ++
            [.Text "2" "IntegerConst"] ++ [.Text ")" "rparen"]) :=
  (unset_trailing_pieces_omitted (.ColumnRef "a" []) (.IntegerConst "2") (.ColumnRef "d" [])
    (.ColumnRef "p" []) (.ColumnRef "x" []) (.XmlRootVersion none)
    [.Text "a" "identifer"] [.Text "2" "IntegerConst"] [.Text "d" "identifer"]
    [.Text "p" "identifer"] [.Text "x" "identifer"]
    [.Text "version" "keyword", .Space, .Text "no value" "keyword"]
    rfl rfl rfl rfl rfl rfl).1

/-! ## Qualified names and column references -/

theorem intercalate_go_eq (sep : String) :
    ∀ (parts : List String) (acc : String),
      String.intercalate.go acc sep parts = acc ++ String.intercalate.go "" sep parts := by
  intro parts
  induction parts with
  | nil => intro acc; simp [String.intercalate.go]
  | cons a rest ih =>
    intro acc
    simp only [String.intercalate.go]
    rw [ih (acc ++ sep ++ a), ih ("" ++ sep ++ a)]
    simp [String.append_assoc]

theorem anyName_cons_cons (n m : String) (rest : List String) :
    AnyName.RenderTo (n :: m :: rest) =
      .Text n "identifer" :: .Text "." "period" :: AnyName.RenderTo (m :: rest) := rfl

theorem anyName_plainText :
    ∀ (rest : List String) (n : String),
      Spec.plainText (AnyName.RenderTo (n :: rest)) = n ++ String.intercalate.go "" "." rest := by
  intro rest
  induction rest with
  | nil => intro n; simp [AnyName.RenderTo, Spec.plainText, String.intercalate.go]
  | cons m rest ih =>
    intro n
    rw [anyName_cons_cons]
    simp only [Spec.plainText, String.intercalate.go]
    rw [ih m, intercalate_go_eq "." rest ("" ++ "." ++ m)]
    simp [String.append_assoc]

theorem anyName_intersperse :
    ∀ (rest : List String) (n : String),
      AnyName.RenderTo (n :: rest) =
        ((n :: rest).map fun p => Call.Text p "identifer").intersperse (.Text "." "period") := by
  intro rest
  induction rest with
  | nil => intro n; rfl
  | cons m rest ih =>
    intro n
    rw [anyName_cons_cons, ih m]
    simp

theorem anyName_count_period :
    ∀ (rest : List String) (n : String),
      List.count (Call.Text "." "period") (AnyName.RenderTo (n :: rest)) = rest.length := by
  intro rest
  induction rest with
  | nil => intro n; simp [AnyName.RenderTo, List.count_cons]
  | cons m rest ih =>
    intro n
    rw [anyName_cons_cons, List.count_cons, List.count_cons, ih m]
    simp

theorem anyName_length :
    ∀ (rest : List String) (n : String),
      (AnyName.RenderTo (n :: rest)).length = 2 * rest.length + 1 := by
  intro rest
  induction rest with
  | nil => intro n; rfl
  | cons m rest ih =>
    intro n
    rw [anyName_cons_cons, List.length_cons, List.length_cons, ih m, List.length_cons]
    omega

theorem anyName_getLast :
    ∀ (rest : List String) (n : String),
      (AnyName.RenderTo (n :: rest)).getLast? =
        (n :: rest).getLast?.map (fun p => Call.Text p "identifer") := by
  intro rest
  induction rest with
  | nil => intro n; rfl
  | cons m rest ih =>
    intro n
    have h := ih m
    cases rest with
    | nil => rfl
    | cons k r =>
      rw [anyName_cons_cons m k r] at h
      rw [anyName_cons_cons n m, anyName_cons_cons m k r]
      simpa [List.getLast?_cons_cons] using h

theorem anyName_all_text :
    ∀ (an : AnyName), ∀ c ∈ AnyName.RenderTo an, ∃ val typ, c = Call.Text val typ := by
  intro an
  induction an with
  | nil => intro c hc; simp [AnyName.RenderTo] at hc
  | cons n rest ih =>
    cases rest with
    | nil => intro c hc; simp [AnyName.RenderTo] at hc; exact ⟨_, _, hc⟩
    | cons m rest =>
      intro c hc
      rw [anyName_cons_cons] at hc
      simp only [List.mem_cons] at hc
      rcases hc with h | h | h
      · exact ⟨_, _, h⟩
      · exact ⟨_, _, h⟩
      · exact ih c (by simpa using h)

/-- C19: a non-empty AnyName of k parts renders as its parts in order with a period token
between neighbours: 2k - 1 calls, of which k - 1 are period tokens, the first call is the
first part and the last call is the last part, every call is a Text, and the texts read
together are the parts joined by `.`. -/
theorem any_name_tokens (an : AnyName) (h : an ≠ []) :
    AnyName.RenderTo an =
      (an.map fun p => Call.Text p "identifer").intersperse (.Text "." "period") ∧
    (AnyName.RenderTo an).length = 2 * an.length - 1 ∧
    List.count (Call.Text "." "period") (AnyName.RenderTo an) = an.length - 1 ∧
    (AnyName.RenderTo an).head? = an.head?.map (fun p => Call.Text p "identifer") ∧
    (AnyName.RenderTo an).getLast? = an.getLast?.map (fun p => Call.Text p "identifer") ∧
    (∀ c ∈ AnyName.RenderTo an, ∃ val typ, c = Call.Text val typ) ∧
    Expr.RenderTo (.AnyName an) = some (AnyName.RenderTo an) ∧
    Spec.plainText (AnyName.RenderTo an) = ".".intercalate an := by
  cases an with
  | nil => exact absurd rfl h
  | cons n rest =>
    refine ⟨anyName_intersperse rest n, ?_, ?_, ?_, ?_, anyName_all_text _, rfl, ?_⟩
    · rw [anyName_length, List.length_cons]
      omega
    · rw [anyName_count_period, List.length_cons]
      omega
    · cases rest <;> rfl
    · exact anyName_getLast rest n
    · rw [anyName_plainText]
      simp only [String.intercalate]
      rw [intercalate_go_eq "." rest n]

/-- C19 at the name `public.users.id`. -/
theorem any_name_tokens_witness :
    Spec.plainText (AnyName.RenderTo ["public", "users", "id"]) =
      ".".intercalate ["public", "users", "id"] :=
  (any_name_tokens ["public", "users", "id"] (by decide)).2.2.2.2.2.2.2

/-- C20: a ColumnRef renders as its base identifier directly followed by the renderings
of its indirection elements in list order, nothing between them; an element with a lower
subscript renders as `[`, the lower subscript, `:` and the upper subscript exactly when
there is one, `]`; an element without a lower subscript renders as `.` and its name. -/
theorem column_ref_indirection (name : String) (indirection : List Expr)
    (rs : List (List Call)) (hrs : Spec.RendersTo indirection rs) :
    Expr.RenderTo (.ColumnRef name indirection) =
      some ([.Text name "identifer"] ++ rs.flatten) ∧
    (∀ (elName : String) (lower : Expr) (upper : Option Expr) (rl ru : List Call),
      Expr.RenderTo lower = some rl → Spec.clausePart upper = some ru →
      Expr.RenderTo (.IndirectionEl elName (some lower) upper) =
        some ([.Text "[" "lbracket"] ++ rl ++
              (if upper.isSome then [.Text ":" "colon"] ++ ru else []) ++
              [.Text "]" "rbracket"])) ∧
    (∀ (elName : String) (upper : Option Expr),
      Expr.RenderTo (.IndirectionEl elName none upper) =
        some [.Text "." "period", .Text elName "identifier"]) := by
  refine ⟨?_, ?_, ?_⟩
  · simp only [Expr.RenderTo]
    rw [renderLoop_eq _ _ _ indirection rs hrs, joined_plain]
    simp
  · intro elName lower upper rl ru hl hu
    simp only [Expr.RenderTo, renderReq_some, hl, renderOpt_eq upper ru _ _ hu]
    cases upper <;> simp
  · intro elName upper
    simp [Expr.RenderTo]

/-- C20 at `t.c[1:2]`. -/
theorem column_ref_indirection_witness :
    Expr.RenderTo (.ColumnRef "t" [.IndirectionEl "c" none none,
        .IndirectionEl "" (some (.IntegerConst "1")) (some (.IntegerConst "2"))]) =
      some ([Call.Text "t" "identifer"] ++
        [[Call.Text "." "period", .Text "c" "identifier"],
         [.Text "[" "lbracket", .Text "1" "IntegerConst", .Text ":" "colon",
          .Text "2" "IntegerConst", .Text "]" "rbracket"]].flatten) :=
  (column_ref_indirection "t" [.IndirectionEl "c" none none,
      .IndirectionEl "" (some (.IntegerConst "1")) (some (.IntegerConst "2"))]
    [[.Text "." "period", .Text "c" "identifier"],
     [.Text "[" "lbracket", .Text "1" "IntegerConst", .Text ":" "colon",
      .Text "2" "IntegerConst", .Text "]" "rbracket"]]
    (List.Forall₂.cons rfl (List.Forall₂.cons rfl List.Forall₂.nil))).1

/-! ## Function applications -/

/-- C14: with Star set and no VariadicArg the rendering of a FuncApplication does not
depend on Args, but with a VariadicArg it does: the test `len(Args) > 0` that guards the
comma before `variadic` does not look at Star, so `f(*` followed by a variadic argument
renders with a comma and a Space after the star when Args is not empty and without them
when it is empty. -/
theorem star_args_reach_variadic_separator :
    (∀ (name : AnyName) (distinct : Bool) (args : List Expr) (orderClause : Option Expr),
      Expr.RenderTo (.FuncApplication name distinct true args none orderClause) =
        Expr.RenderTo (.FuncApplication name distinct true [] none orderClause)) ∧
    Expr.RenderTo (.FuncApplication ["f"] false true
        [.FuncArg "" "" (some (.ColumnRef "a" []))]
        (some (.FuncArg "" "" (some (.ColumnRef "v" [])))) none) =
      some [.Text "f" "identifer", .Text "(" "lparen", .Text "*" "star", .Text "," "comma",
            .Space, .Text "variadic" "keyword", .Space, .Text "v" "identifer",
            .Text ")" "lparen"] ∧
    Expr.RenderTo (.FuncApplication ["f"] false true []
        (some (.FuncArg "" "" (some (.ColumnRef "v" [])))) none) =
      some [.Text "f" "identifer", .Text "(" "lparen", .Text "*" "star",
            .Text "variadic" "keyword", .Space, .Text "v" "identifer",
            .Text ")" "lparen"] ∧
    Expr.RenderTo (.FuncApplication ["f"] false true
        [.FuncArg "" "" (some (.ColumnRef "a" []))]
        (some (.FuncArg "" "" (some (.ColumnRef "v" [])))) none) ≠
      Expr.RenderTo (.FuncApplication ["f"] false true []
        (some (.FuncArg "" "" (some (.ColumnRef "v" [])))) none) := by
  refine ⟨?_, rfl, rfl, ?_⟩
  · intro name distinct args orderClause
    simp [Expr.RenderTo]
  · have h1 : Expr.RenderTo (.FuncApplication ["f"] false true
        [.FuncArg "" "" (some (.ColumnRef "a" []))]
        (some (.FuncArg "" "" (some (.ColumnRef "v" [])))) none) =
      some [.Text "f" "identifer", .Text "(" "lparen", .Text "*" "star", .Text "," "comma",
            .Space, .Text "variadic" "keyword", .Space, .Text "v" "identifer",
            .Text ")" "lparen"] := rfl
    have h2 : Expr.RenderTo (.FuncApplication ["f"] false true []
        (some (.FuncArg "" "" (some (.ColumnRef "v" [])))) none) =
      some [.Text "f" "identifer", .Text "(" "lparen", .Text "*" "star",
            .Text "variadic" "keyword", .Space, .Text "v" "identifer",
            .Text ")" "lparen"] := rfl
    rw [h1, h2]
    decide

/-! ## Rendering of well-formed trees -/

theorem emit_isSome_cons (p : Option (List Call)) (ps : List (Option (List Call))) :
    (emit (p :: ps)).isSome = (p.isSome && (emit ps).isSome) := by
  cases p <;> simp

theorem emit_isSome_nil : (emit []).isSome = true := rfl

theorem emitIf_isSome (c : Bool) (a : List Call) : (emitIf c a).isSome = true := by
  cases c <;> rfl

theorem render_isSome_of_wellFormed :
    ∀ e : Expr, Spec.wellFormed e = true → (Expr.RenderTo e).isSome = true := by
  apply @Expr.rec
    (fun e => Spec.wellFormed e = true → (Expr.RenderTo e).isSome = true)
    (fun xs => Spec.wellFormedAll xs = true →
      ∀ pre sep post, (Expr.renderLoop xs pre sep post).isSome = true)
    (fun o => Spec.wellFormedOpt o = true →
      (∀ pre post, (Expr.renderOpt o pre post).isSome = true) ∧
      (o.isSome = true → (Expr.renderReq o).isSome = true))
    (fun ol => Spec.wellFormedOptAll ol = true → (Expr.renderDistinct ol).isSome = true)
  all_goals intros
  all_goals try cases ‹Option OptInterval›
  all_goals try cases ‹Option RelationExpr›
  all_goals try cases ‹Option IntoClause›
  all_goals try cases ‹Option LockingClause›
  all_goals
    simp only [Spec.wellFormed, Spec.wellFormedOpt, Spec.wellFormedAll, Spec.wellFormedOptAll,
      Bool.and_eq_true, Bool.or_eq_true] at *
  all_goals
    simp only [Expr.RenderTo, Expr.renderDistinct, renderLoop_cons, renderLoop_nil,
      renderOpt_some, renderOpt_none, renderReq_some, renderReq_none,
      emit_isSome_cons, emit_isSome_nil, emitIf_isSome, Option.isSome_some, Bool.and_eq_true,
      Bool.and_true, Bool.true_and]
  all_goals try (simp_all; done)
  all_goals split_ifs <;> simp_all [emit_isSome_cons, emit_isSome_nil, emitIf_isSome]

/-- C18: rendering is total on well-formed trees.  For every tree in which each required
child is present (both operands of every operator, the Start bound of every FrameClause,
the specification of every OverClause without a name, the right operand of every set
operation, ...) and each present child is well-formed, RenderTo returns a sink-call
sequence: no call through an absent child is reached. -/
theorem render_total_on_well_formed (e : Expr) (h : Spec.wellFormed e = true) :
    ∃ out : List Call, Expr.RenderTo e = some out :=
  Option.isSome_iff_exists.mp (render_isSome_of_wellFormed e h)

/-- C18 at `select count(*) over (order by a rows 1 preceding) from t join u on b;`. -/
theorem render_total_on_well_formed_witness :
    ∃ out : List Call,
      Expr.RenderTo (.SelectStmt
        (.SimpleSelect none
          [.FuncExpr (.FuncApplication ["count"] false true [] none none) none none
            (some (.OverClause ""
              (some (.WindowSpecification "" none
                (some (.OrderClause [.OrderExpr (some (.ColumnRef "a" [])) "" [] ""]))
                (some (.FrameClause "rows"
                  (some (.FrameBound false (some (.IntegerConst "1")) "preceding"))
                  none))))))]
          none
          (some (.FromClause (some (.JoinExpr (some (.RelationExpr ⟨["t"], false, false⟩))
            "join" (some (.RelationExpr ⟨["u"], false, false⟩)) []
            (some (.ColumnRef "b" []))))))
          none none none none none none "" false none none)
        none none none false true) = some out :=
  render_total_on_well_formed _ rfl

/-! ## Built-in functions with bespoke argument syntax -/

theorem inlinePart_some (a : List Call) : Spec.InlinePart (some a) ↔ Spec.Inline a := by
  constructor
  · intro h; exact h a rfl
  · intro h o ho; cases ho; exact h

theorem inlinePart_none : Spec.InlinePart none := by
  intro o ho; cases ho

theorem inlinePart_emit (parts : List (Option (List Call)))
    (h : ∀ p ∈ parts, Spec.InlinePart p) : Spec.InlinePart (emit parts) := by
  induction parts with
  | nil =>
    intro o ho
    cases ho
    exact inline_nil
  | cons p ps ih =>
    intro o ho
    cases p with
    | none => simp at ho
    | some a =>
      obtain ⟨rest, hrest, rfl⟩ := emit_cons_eq_some a ps o ho
      exact (inline_append a rest).2
        ⟨h (some a) (List.mem_cons_self _ _) a rfl,
         ih (fun q hq => h q (List.mem_cons_of_mem _ hq)) rest hrest⟩

theorem inlinePart_emitIf (c : Bool) (a : List Call) (h : Spec.Inline a) :
    Spec.InlinePart (emitIf c a) := by
  cases c
  · simpa [emitIf, inlinePart_some] using inline_nil
  · simpa [emitIf, inlinePart_some] using h

theorem inlinePart_renderReq (o : Option Expr)
    (h : ∀ a ∈ o.toList, Spec.InlinePart (Expr.RenderTo a)) :
    Spec.InlinePart (Expr.renderReq o) := by
  cases o with
  | none => exact inlinePart_none
  | some e => rw [renderReq_some]; exact h e (by simp)

theorem inlinePart_renderOpt (o : Option Expr) (pre post : List Call)
    (h : ∀ a ∈ o.toList, Spec.InlinePart (Expr.RenderTo a))
    (hpre : Spec.Inline pre) (hpost : Spec.Inline post) :
    Spec.InlinePart (Expr.renderOpt o pre post) := by
  cases o with
  | none => rw [renderOpt_none, inlinePart_some]; exact inline_nil
  | some e =>
    rw [renderOpt_some]
    apply inlinePart_emit
    intro p hp
    simp only [List.mem_cons, List.mem_singleton, List.not_mem_nil, or_false] at hp
    rcases hp with rfl | rfl | rfl
    · exact (inlinePart_some _).2 hpre
    · exact h e (by simp)
    · exact (inlinePart_some _).2 hpost

theorem inlinePart_renderLoop (pre sep post : List Call)
    (hpre : Spec.Inline pre) (hsep : Spec.Inline sep) (hpost : Spec.Inline post) :
    ∀ xs : List Expr, (∀ a ∈ xs, Spec.InlinePart (Expr.RenderTo a)) →
      Spec.InlinePart (Expr.renderLoop xs pre sep post) := by
  intro xs
  induction xs with
  | nil => intro _; rw [renderLoop_nil, inlinePart_some]; exact inline_nil
  | cons x rest ih =>
    intro h
    rw [renderLoop_cons]
    apply inlinePart_emit
    intro p hp
    simp only [List.mem_cons, List.mem_singleton, List.not_mem_nil, or_false] at hp
    rcases hp with rfl | rfl | rfl | rfl | rfl
    · exact (inlinePart_some _).2 hpre
    · exact h x (List.mem_cons_self _ _)
    · exact inlinePart_emitIf _ _ hsep
    · exact (inlinePart_some _).2 hpost
    · exact ih (fun a ha => h a (List.mem_cons_of_mem _ ha))

theorem inlinePart_emit_nil : Spec.InlinePart (emit []) :=
  inlinePart_emit [] (fun _ hp => absurd hp (List.not_mem_nil _))

theorem inlinePart_emit_cons (p : Option (List Call)) (ps : List (Option (List Call)))
    (hp : Spec.InlinePart p) (hps : Spec.InlinePart (emit ps)) :
    Spec.InlinePart (emit (p :: ps)) := by
  intro o ho
  cases p with
  | none => simp at ho
  | some a =>
    obtain ⟨rest, hrest, rfl⟩ := emit_cons_eq_some a ps o ho
    exact (inline_append a rest).2 ⟨hp a rfl, hps rest hrest⟩

theorem inlinePart_ite (c : Prop) [Decidable c] (a b : Option (List Call))
    (ha : c → Spec.InlinePart a) (hb : ¬ c → Spec.InlinePart b) :
    Spec.InlinePart (if c then a else b) := by
  by_cases hc : c
  · simpa [hc] using ha hc
  · simpa [hc] using hb hc

theorem inlinePart_attributeEls (attrs : List Spec.AttributeEl)
    (h : ∀ a ∈ Spec.attributeArgs attrs, Spec.InlinePart (Expr.RenderTo a)) :
    ∀ x ∈ attrs.map Spec.AttributeEl.node, Spec.InlinePart (Expr.RenderTo x) := by
  intro x hx
  obtain ⟨el, hel, rfl⟩ := List.mem_map.1 hx
  simp only [Spec.AttributeEl.node, Expr.RenderTo]
  apply inlinePart_emit_cons
  · apply inlinePart_renderReq
    intro a ha
    apply h
    simp only [Spec.attributeArgs, List.mem_flatten, List.mem_map]
    exact ⟨_, ⟨el, hel, rfl⟩, ha⟩
  apply inlinePart_emit_cons
  · apply inlinePart_emitIf
    simp [inline_cons, inline_nil, Call.onLine]
  exact inlinePart_emit_nil

theorem inlinePart_call (c : Spec.InlineCall)
    (h : ∀ a ∈ c.args, Spec.InlinePart (Expr.RenderTo a)) :
    Spec.InlinePart (Expr.RenderTo c.node) := by
  cases c
  all_goals try cases ‹Spec.TypeRef›
  all_goals try cases ‹Option OptInterval›
  all_goals try cases ‹Option (List Spec.AttributeEl)›
  all_goals
    simp only [Spec.InlineCall.node, Spec.InlineCall.args, Spec.TypeRef.node, Option.map_some',
      Option.map_none', Option.getD_some, Option.getD_none] at h ⊢
  all_goals simp only [Expr.RenderTo, renderOpt_some, renderOpt_none]
  all_goals
    repeat' first
      | with_reducible apply inlinePart_emit_cons
      | with_reducible exact inlinePart_emit_nil
      | (with_reducible apply inlinePart_ite) <;> intro _
  all_goals first
    | (with_reducible rw [inlinePart_some]
       simp [inline_cons, inline_append, inline_nil, inline_anyName, inline_optInterval,
         inline_renderArrayBounds, Call.onLine])
    | (with_reducible apply inlinePart_emitIf
       simp [inline_cons, inline_nil, Call.onLine])
    | (with_reducible apply inlinePart_renderReq
       intro a ha
       apply h
       simp_all)
    | (refine inlinePart_renderOpt _ _ _ (fun a ha => h a ?_) ?_ ?_
       all_goals simp_all [inline_cons, inline_nil, Call.onLine])
    | (refine inlinePart_renderLoop _ _ _ ?_ ?_ ?_ _ (inlinePart_attributeEls _ fun a ha => h a ?_)
       all_goals simp_all [inline_cons, inline_nil, Call.onLine])
    | (refine inlinePart_renderLoop _ _ _ ?_ ?_ ?_ _ (fun a ha => h a ?_)
       all_goals simp_all [inline_cons, inline_nil, Call.onLine])

theorem emit_bracket (k lp : Call) (extra z : List Call) (ps : List (Option (List Call))) :
    ∀ (out : List Call), emit (some (k :: lp :: extra) :: ps) = some out →
      ps.getLast? = some (some z) → ∃ mid, out = [k, lp] ++ mid ++ z := by
  intro out h hz
  obtain ⟨rest, hrest, rfl⟩ := emit_cons_eq_some _ ps out h
  have key : ∀ (qs : List (Option (List Call))) (r : List Call), emit qs = some r →
      qs.getLast? = some (some z) → ∃ m, r = m ++ z := by
    intro qs
    induction qs with
    | nil => intro r _ hl; simp at hl
    | cons q qs ih =>
      intro r hr hl
      cases q with
      | none => simp at hr
      | some a =>
        obtain ⟨r2, hr2, rfl⟩ := emit_cons_eq_some a qs r hr
        cases qs with
        | nil =>
          simp at hl hr2
          subst hl hr2
          exact ⟨[], by simp⟩
        | cons q2 qs2 =>
          rw [List.getLast?_cons_cons] at hl
          obtain ⟨m, rfl⟩ := ih r2 hr2 hl
          exact ⟨a ++ m, by simp⟩
  obtain ⟨m, rfl⟩ := key ps rest hrest hz
  exact ⟨extra ++ m, by simp⟩

/-- C11: each built-in function with bespoke argument syntax (ExtractExpr, OverlayExpr,
PositionExpr, SubstrExpr, TrimExpr, CastFunc and the XML family) renders as its keyword
token directly followed by `(`, then its arguments, then `)` as the last call; and it adds
no NewLine, Indent or Unindent of its own: when no rendering of an argument expression
contains a NewLine, the whole rendering contains no NewLine, no Indent and no Unindent. -/
theorem builtin_call_inline (c : Spec.InlineCall) (out : List Call)
    (h : Expr.RenderTo c.node = some out) :
    (∃ mid, out = [.Text c.keyword "keyword", .Text "(" "lparen"] ++ mid ++
        [.Text ")" "rparen"]) ∧
    ((∀ a ∈ c.args, ∀ r, Expr.RenderTo a = some r → Call.NewLine ∉ r) →
      Call.NewLine ∉ out ∧ Call.Indent ∉ out ∧ Call.Unindent ∉ out) := by
  constructor
  · cases c
    all_goals simp only [Spec.InlineCall.node, Expr.RenderTo] at h
    all_goals exact emit_bracket _ _ _ _ _ out h rfl
  · intro hargs
    exact (inline_iff out).1
      (inlinePart_call c (fun a ha r hr => inline_of_no_newline a r hr (hargs a ha r hr)) out h)

/-- C11 at `substring(a from 2)`. -/
theorem builtin_call_inline_witness :
    (∃ mid, [Call.Text "substring" "keyword", .Text "(" "lparen", .Text "a" "identifer",
        .Space, .Text "from" "keyword", .Space, .Text "2" "IntegerConst",
        .Text ")" "rparen"] =
      [Call.Text "substring" "keyword", .Text "(" "lparen"] ++ mid ++
        [.Text ")" "rparen"]) ∧
    ((∀ a ∈ [Expr.ColumnRef "a" [], Expr.IntegerConst "2"], ∀ r,
        Expr.RenderTo a = some r → Call.NewLine ∉ r) →
      Call.NewLine ∉ [Call.Text "substring" "keyword", .Text "(" "lparen",
        .Text "a" "identifer", .Space, .Text "from" "keyword", .Space,
        .Text "2" "IntegerConst", .Text ")" "rparen"] ∧
      Call.Indent ∉ [Call.Text "substring" "keyword", .Text "(" "lparen",
        .Text "a" "identifer", .Space, .Text "from" "keyword", .Space,
        .Text "2" "IntegerConst", .Text ")" "rparen"] ∧
      Call.Unindent ∉ [Call.Text "substring" "keyword", .Text "(" "lparen",
        .Text "a" "identifer", .Space, .Text "from" "keyword", .Space,
        .Text "2" "IntegerConst", .Text ")" "rparen"]) :=
  builtin_call_inline
    (.SubstrExpr (some (.ColumnRef "a" [])) (some (.IntegerConst "2")) none)
    [.Text "substring" "keyword", .Text "(" "lparen", .Text "a" "identifer", .Space,
      .Text "from" "keyword", .Space, .Text "2" "IntegerConst", .Text ")" "rparen"] rfl

/-! ## Literals -/

/-- C21: every literal node renders as exactly one Text call and nothing else, and the
text of the token is the wrapped lexeme as it stands, whatever it contains: StringConst,
IntegerConst, FloatConst and BitConst emit their text, BoolConst emits `true` or `false`,
NullConst emits `null`. -/
theorem literal_single_token (s : String) (b : Bool) :
    Expr.RenderTo (.StringConst s) = some [.Text s "StringConst"] ∧
    Expr.RenderTo (.IntegerConst s) = some [.Text s "IntegerConst"] ∧
    Expr.RenderTo (.FloatConst s) = some [.Text s "floatConstant"] ∧
    Expr.RenderTo (.BitConst s) = some [.Text s "bitConstant"] ∧
    Expr.RenderTo (.BoolConst b) = some [.Text (if b then "true" else "false") "BoolConst"] ∧
    Expr.RenderTo .NullConst = some [.Text "null" "NullConst"] ∧
    (∀ typ, Spec.plainText [.Text s typ] = s) ∧
    Expr.RenderTo (.StringConst "") = some [.Text "" "StringConst"] ∧
    Expr.RenderTo (.StringConst "'it''s  here'") =
      some [.Text "'it''s  here'" "StringConst"] := by
  refine ⟨rfl, rfl, rfl, rfl, ?_, rfl, ?_, rfl, rfl⟩
  · cases b <;> rfl
  · intro typ
    simp [Spec.plainText]

/-! ## The four forms of a simple select -/

/-- C22: SimpleSelect picks one of its four forms by a fixed precedence and reads no
field of the other forms.  With a Table the rendering is `table`, Space and the table,
whatever the other fields hold, also where they would not render; otherwise with a
ValuesClause it is the rendering of the VALUES clause alone; otherwise with a LeftSelect
it is the set operation, which reads only LeftSelect, SetOp, SetAll and RightSelect; only
with all three absent is the canonical form rendered, whose first call is `select` and
which does not read SetOp, SetAll or RightSelect. -/
theorem simple_select_precedence
    (distinctList : Option (List Expr)) (targetList : List Expr)
    (intoClause : Option IntoClause)
    (fromClause whereClause groupByClause havingClause windowClause : Option Expr)
    (valuesClause leftSelect : Option Expr) (setOp : String) (setAll : Bool)
    (rightSelect : Option Expr) :
    (∀ t : RelationExpr,
      Expr.RenderTo (.SimpleSelect distinctList targetList intoClause fromClause whereClause
        groupByClause havingClause windowClause valuesClause leftSelect setOp setAll
        rightSelect (some t)) =
      some ([.Text "table" "keyword", .Space] ++ RelationExpr.RenderTo t)) ∧
    (∀ v : Expr,
      Expr.RenderTo (.SimpleSelect distinctList targetList intoClause fromClause whereClause
        groupByClause havingClause windowClause (some v) leftSelect setOp setAll
        rightSelect none) = Expr.RenderTo v) ∧
    (∀ l : Expr,
      Expr.RenderTo (.SimpleSelect distinctList targetList intoClause fromClause whereClause
        groupByClause havingClause windowClause none (some l) setOp setAll
        rightSelect none) =
      emit [Expr.RenderTo l, some [.NewLine, .Text setOp "keyword"],
            emitIf setAll [.Space, .Text "all" "keyword"], some [.NewLine],
            Expr.renderReq rightSelect] ∧
      Expr.RenderTo (.SimpleSelect distinctList targetList intoClause fromClause whereClause
        groupByClause havingClause windowClause none (some l) setOp setAll
        rightSelect none) =
      Expr.RenderTo (.SimpleSelect none [] none none none none none none none (some l) setOp
        setAll rightSelect none)) ∧
    (Expr.RenderTo (.SimpleSelect distinctList targetList intoClause fromClause whereClause
        groupByClause havingClause windowClause none none setOp setAll rightSelect
        none)).map List.head? =
      (Expr.RenderTo (.SimpleSelect distinctList targetList intoClause fromClause whereClause
        groupByClause havingClause windowClause none none setOp setAll rightSelect
        none)).map (fun _ => some (Call.Text "select" "keyword")) ∧
    Expr.RenderTo (.SimpleSelect distinctList targetList intoClause fromClause whereClause
        groupByClause havingClause windowClause none none setOp setAll rightSelect none) =
      Expr.RenderTo (.SimpleSelect distinctList targetList intoClause fromClause whereClause
        groupByClause havingClause windowClause none none "" false none none) ∧
    Expr.RenderTo (.SimpleSelect none [.BooleanExpr none "and" none] none none none none none
        none none none "" false none (some ⟨["t"], false, false⟩)) =
      some [.Text "table" "keyword", .Space, .Text "t" "identifer", .NewLine] ∧
    Expr.RenderTo (.SimpleSelect none [.BooleanExpr none "and" none] none none none none none
        none none none "" false none none) = none := by
  refine ⟨?_, ?_, ?_, ?_, ?_, rfl, rfl⟩
  · intro t
    simp [Expr.RenderTo]
  · intro v
    simp [Expr.RenderTo, renderReq_some]
  · intro l
    simp [Expr.RenderTo, renderReq_some]
  · simp only [Expr.RenderTo, Option.isSome_none, Bool.false_eq_true, if_false,
      emit_cons_some, Option.map_map]
    congr 1
  · simp [Expr.RenderTo]

/-! ## Type references -/

/-- C25: a PgType renders its components in a fixed order, each only when set: `setof`
Space; the name; Space and the interval qualifier; Space `array`; one `[`, bound, `]`
group per array bound; `(`, the type modifiers separated by comma and Space, `)`; Space
`with time zone`; Space `character set` Space and the charset.  So the bracketed bounds
stand before the parenthesised modifiers: numeric with modifiers 10 and 2 and bound 3
renders as numeric [ 3 ] ( 10 , Space 2 ). -/
theorem pg_type_component_order (t : Spec.TypeRef) (rts : List (List Call))
    (hts : Spec.RendersTo t.TypeMods rts) :
    Expr.RenderTo t.node =
      some ((if t.Setof then [.Text "setof" "keyword", .Space] else []) ++
            AnyName.RenderTo t.Name ++
            (match t.OptInterval with
             | some oi => [.Space] ++ OptInterval.RenderTo oi
             | none => []) ++
            (if t.ArrayWord then [.Space, .Text "array" "keyword"] else []) ++
            (t.ArrayBounds.map fun ab =>
              [Call.Text "[" "lbracket", .Text ab "IntegerConst",
               .Text "]" "lbracket"]).flatten ++
            (if t.TypeMods.length > 0 then
              [.Text "(" "lparen"] ++ Spec.commaSpaced rts ++ [.Text ")" "rparen"]
             else []) ++
            (if t.WithTimeZone then [.Space, .Text "with time zone" "keyword"] else []) ++
            (if t.CharSet ≠ "" then
              [.Space, .Text "character set" "keyword", .Space, .Text t.CharSet "charset"]
             else [])) ∧
    Expr.RenderTo (.PgType ["numeric"] none false false ["3"]
        [.IntegerConst "10", .IntegerConst "2"] "" false) =
      some [.Text "numeric" "identifer", .Text "[" "lbracket", .Text "3" "IntegerConst",
            .Text "]" "lbracket", .Text "(" "lparen", .Text "10" "IntegerConst",
            .Text "," "comma", .Space, .Text "2" "IntegerConst", .Text ")" "rparen"] := by
  refine ⟨?_, rfl⟩
  have hb : ∀ bs : List IntegerConst, PgType.renderArrayBounds bs =
      (bs.map fun ab =>
        [Call.Text "[" "lbracket", .Text ab "IntegerConst", .Text "]" "lbracket"]).flatten := by
    intro bs
    induction bs with
    | nil => rfl
    | cons ab rest ih => simp [PgType.renderArrayBounds, ih]
  obtain ⟨name, optInterval, setof, arrayWord, arrayBounds, typeMods, charSet, withTimeZone⟩ := t
  simp only [Spec.TypeRef.node, Expr.RenderTo]
  simp only at hts
  rw [renderLoop_eq _ _ _ typeMods rts hts, hb]
  cases optInterval <;> cases setof <;> cases arrayWord <;> cases withTimeZone <;>
    by_cases hc : charSet = "" <;> by_cases hm : typeMods.length > 0 <;>
    simp [hc, hm, Spec.commaSpaced, emitIf_eq]

/-- C25 at `setof numeric(10, 2)`. -/
theorem pg_type_component_order_witness :
    Expr.RenderTo (.PgType ["numeric"] none true false []
        [.IntegerConst "10", .IntegerConst "2"] "" false) =
      some [.Text "setof" "keyword", .Space, .Text "numeric" "identifer", .Text "(" "lparen",
            .Text "10" "IntegerConst", .Text "," "comma", .Space, .Text "2" "IntegerConst",
            .Text ")" "rparen"] :=
  (pg_type_component_order ⟨["numeric"], none, true, false, [],
      [.IntegerConst "10", .IntegerConst "2"], "", false⟩
    [[.Text "10" "IntegerConst"], [.Text "2" "IntegerConst"]]
    (List.Forall₂.cons rfl (List.Forall₂.cons rfl List.Forall₂.nil))).1

/-! ## HAVING and the indent depth -/

theorem canonical_select_render
    (distinctList : Option (List Expr)) (targetList : List Expr)
    (intoClause : Option IntoClause)
    (fromClause whereClause groupByClause havingClause windowClause : Option Expr)
    (setOp : String) (setAll : Bool) (rightSelect : Option Expr)
    (rds rts : List (List Call)) (f w g h win : List Call)
    (hds : Spec.RendersTo (distinctList.getD []) rds)
    (hts : Spec.RendersTo targetList rts)
    (hf : Spec.clausePart fromClause = some f)
    (hw : Spec.clausePart whereClause = some w)
    (hg : Spec.clausePart groupByClause = some g)
    (hh : Spec.clausePart havingClause = some h)
    (hwin : Spec.clausePart windowClause = some win) :
    Expr.RenderTo (.SimpleSelect distinctList targetList intoClause fromClause whereClause
        groupByClause havingClause windowClause none none setOp setAll rightSelect none) =
      some ([.Text "select" "keyword"] ++ Spec.distinctCalls distinctList.isSome rds ++
            [.NewLine, .Indent] ++ Spec.commaLines rts ++ [.Unindent] ++
            (match intoClause with
             | some i => IntoClause.RenderTo i
             | none => []) ++
            f ++ w ++ g ++
            (if havingClause.isSome then
              [.Text "having" "keyword", .NewLine, .Indent] ++ h ++ [.NewLine] else []) ++
            win) := by
  simp only [Expr.RenderTo]
  rw [renderLoop_eq _ _ _ targetList rts hts, renderOpt_clause _ _ hf,
    renderOpt_clause _ _ hw, renderOpt_clause _ _ hg, renderOpt_eq _ _ _ _ hh,
    renderOpt_clause _ _ hwin, renderDistinct_eq distinctList rds hds]
  cases intoClause <;> simp [Spec.commaLines]

theorem selectStmt_render
    (simpleSelect : Expr) (orderClause limitClause : Option Expr)
    (lockingClause : Option LockingClause) (parenWrapped semicolon : Bool)
    (rs o l : List Call)
    (hs : Expr.RenderTo simpleSelect = some rs)
    (ho : Spec.clausePart orderClause = some o)
    (hl : Spec.clausePart limitClause = some l) :
    Expr.RenderTo (.SelectStmt simpleSelect orderClause limitClause lockingClause
        parenWrapped semicolon) =
      some ((if parenWrapped then [.Text "(" "lparen"] else []) ++
            rs ++ o ++ l ++
            (match lockingClause with
             | some lc => LockingClause.RenderTo lc
             | none => []) ++
            (if parenWrapped then [.Text ")" "rparen", .NewLine] else []) ++
            (if semicolon then [.Text ";" "semicolon", .NewLine] else [])) := by
  simp only [Expr.RenderTo]
  rw [hs, renderOpt_clause _ _ ho, renderOpt_clause _ _ hl]
  cases lockingClause <;> cases parenWrapped <;> cases semicolon <;> simp

theorem sum_count_congr (rs : List (List Call))
    (h : ∀ r ∈ rs, List.count Call.Indent r = List.count Call.Unindent r) :
    (rs.map (List.count Call.Indent)).sum = (rs.map (List.count Call.Unindent)).sum := by
  induction rs with
  | nil => rfl
  | cons r rest ih =>
    simp only [List.map_cons, List.sum_cons]
    rw [h r (List.mem_cons_self _ _), ih (fun q hq => h q (List.mem_cons_of_mem _ hq))]

theorem count_joined_balanced (pre sep post : List Call) (rs : List (List Call))
    (hpre : List.count Call.Indent pre = List.count Call.Unindent pre)
    (hsep : List.count Call.Indent sep = List.count Call.Unindent sep)
    (hpost : List.count Call.Indent post = List.count Call.Unindent post)
    (h : ∀ r ∈ rs, List.count Call.Indent r = List.count Call.Unindent r) :
    List.count Call.Indent (Spec.joined pre sep post rs) =
      List.count Call.Unindent (Spec.joined pre sep post rs) := by
  rw [count_joined, count_joined, hpre, hsep, hpost, sum_count_congr rs h]

theorem count_distinctCalls_balanced (present : Bool) (rds : List (List Call))
    (h : ∀ r ∈ rds, List.count Call.Indent r = List.count Call.Unindent r) :
    List.count Call.Indent (Spec.distinctCalls present rds) =
      List.count Call.Unindent (Spec.distinctCalls present rds) := by
  have hj := count_joined_balanced [] [.Text "," "comma", .Space] [] rds rfl rfl rfl h
  cases present
  · rfl
  · by_cases hpos : rds.length > 0
    · simp [Spec.distinctCalls, hpos, Spec.commaSpaced, List.count_append, List.count_cons, hj]
    · simp [Spec.distinctCalls, hpos, List.count_cons]

theorem count_intoClause (intoClause : Option IntoClause) :
    List.count Call.Indent (match intoClause with
      | some i => IntoClause.RenderTo i
      | none => []) = 0 ∧
    List.count Call.Unindent (match intoClause with
      | some i => IntoClause.RenderTo i
      | none => []) = 0 := by
  cases intoClause with
  | none => exact ⟨rfl, rfl⟩
  | some i =>
    exact ⟨List.count_eq_zero.2 (noIndent_intoClause i).1,
           List.count_eq_zero.2 (noIndent_intoClause i).2⟩

/-- C24: in a canonical SimpleSelect with a HAVING predicate the HAVING part is `having`,
NewLine, Indent, the predicate, NewLine, and the WINDOW rendering follows with no Unindent
in between.  When the child renderings hold as many Indent as Unindent calls, the calls
before `having` are balanced and the whole rendering holds exactly one Indent more than
Unindent, so the WINDOW clause and everything SelectStmt emits after the simple select,
the ORDER BY clause, the LIMIT clause, the locking clause, `)` and `;`, each start one
indent level deeper than `select`, and the statement ends at that depth. -/
theorem having_leaves_indent_open
    (distinctList : Option (List Expr)) (targetList : List Expr)
    (intoClause : Option IntoClause)
    (fromClause whereClause groupByClause : Option Expr) (hv : Expr)
    (windowClause : Option Expr)
    (setOp : String) (setAll : Bool) (rightSelect : Option Expr)
    (orderClause limitClause : Option Expr) (lockingClause : Option LockingClause)
    (parenWrapped semicolon : Bool)
    (rds rts : List (List Call)) (f w g h win o l : List Call)
    (hds : Spec.RendersTo (distinctList.getD []) rds)
    (hts : Spec.RendersTo targetList rts)
    (hf : Spec.clausePart fromClause = some f)
    (hw : Spec.clausePart whereClause = some w)
    (hg : Spec.clausePart groupByClause = some g)
    (hh : Expr.RenderTo hv = some h)
    (hwin : Spec.clausePart windowClause = some win)
    (ho : Spec.clausePart orderClause = some o)
    (hl : Spec.clausePart limitClause = some l)
    (bds : ∀ r ∈ rds, List.count Call.Indent r = List.count Call.Unindent r)
    (bts : ∀ r ∈ rts, List.count Call.Indent r = List.count Call.Unindent r)
    (bf : List.count Call.Indent f = List.count Call.Unindent f)
    (bw : List.count Call.Indent w = List.count Call.Unindent w)
    (bg : List.count Call.Indent g = List.count Call.Unindent g)
    (bh : List.count Call.Indent h = List.count Call.Unindent h)
    (bwin : List.count Call.Indent win = List.count Call.Unindent win)
    (bo : List.count Call.Indent o = List.count Call.Unindent o)
    (bl : List.count Call.Indent l = List.count Call.Unindent l) :
    ∃ before rs : List Call,
      Expr.RenderTo (.SimpleSelect distinctList targetList intoClause fromClause whereClause
        groupByClause (some hv) windowClause none none setOp setAll rightSelect none) =
        some rs ∧
      rs = before ++ [.Text "having" "keyword", .NewLine, .Indent] ++ h ++ [.NewLine] ++ win ∧
      before.head? = some (.Text "select" "keyword") ∧
      List.count Call.Indent before = List.count Call.Unindent before ∧
      Spec.indentDepth (before ++ [.Text "having" "keyword", .NewLine, .Indent] ++ h ++
        [.NewLine]) = 1 ∧
      List.count Call.Indent rs = List.count Call.Unindent rs + 1 ∧
      Expr.RenderTo (.SelectStmt
        (.SimpleSelect distinctList targetList intoClause fromClause whereClause
          groupByClause (some hv) windowClause none none setOp setAll rightSelect none)
        orderClause limitClause lockingClause parenWrapped semicolon) =
        some ((if parenWrapped then [.Text "(" "lparen"] else []) ++ rs ++ o ++ l ++
              (match lockingClause with
               | some lc => LockingClause.RenderTo lc
               | none => []) ++
              (if parenWrapped then [.Text ")" "rparen", .NewLine] else []) ++
              (if semicolon then [.Text ";" "semicolon", .NewLine] else [])) ∧
      Spec.indentDepth (if parenWrapped then [.Text "(" "lparen"] else []) = 0 ∧
      Spec.indentDepth ((if parenWrapped then [.Text "(" "lparen"] else []) ++ rs) = 1 ∧
      Spec.indentDepth ((if parenWrapped then [.Text "(" "lparen"] else []) ++ rs ++ o) = 1 ∧
      Spec.indentDepth ((if parenWrapped then [.Text "(" "lparen"] else []) ++ rs ++ o ++ l) =
        1 ∧
      Spec.indentDepth ((if parenWrapped then [.Text "(" "lparen"] else []) ++ rs ++ o ++ l ++
        (match lockingClause with
         | some lc => LockingClause.RenderTo lc
         | none => [])) = 1 ∧
      Spec.indentDepth ((if parenWrapped then [.Text "(" "lparen"] else []) ++ rs ++ o ++ l ++
        (match lockingClause with
         | some lc => LockingClause.RenderTo lc
         | none => []) ++
        (if parenWrapped then [.Text ")" "rparen", .NewLine] else [])) = 1 ∧
      Spec.indentDepth ((if parenWrapped then [.Text "(" "lparen"] else []) ++ rs ++ o ++ l ++
        (match lockingClause with
         | some lc => LockingClause.RenderTo lc
         | none => []) ++
        (if parenWrapped then [.Text ")" "rparen", .NewLine] else []) ++
        (if semicolon then [.Text ";" "semicolon", .NewLine] else [])) = 1 := by
  have hrender := canonical_select_render distinctList targetList intoClause fromClause
    whereClause groupByClause (some hv) windowClause setOp setAll rightSelect rds rts
    f w g h win hds hts hf hw hg hh hwin
  have hd := count_distinctCalls_balanced distinctList.isSome rds bds
  have ht : List.count Call.Indent (Spec.commaLines rts) =
      List.count Call.Unindent (Spec.commaLines rts) :=
    count_joined_balanced [] [.Text "," "comma"] [.NewLine] rts rfl rfl rfl bts
  obtain ⟨hi1, hi2⟩ := count_intoClause intoClause
  have hbefore : List.count Call.Indent
      ([.Text "select" "keyword"] ++ Spec.distinctCalls distinctList.isSome rds ++
        [.NewLine, .Indent] ++ Spec.commaLines rts ++ [.Unindent] ++
        (match intoClause with
         | some i => IntoClause.RenderTo i
         | none => []) ++ f ++ w ++ g) =
      List.count Call.Unindent
      ([.Text "select" "keyword"] ++ Spec.distinctCalls distinctList.isSome rds ++
        [.NewLine, .Indent] ++ Spec.commaLines rts ++ [.Unindent] ++
        (match intoClause with
         | some i => IntoClause.RenderTo i
         | none => []) ++ f ++ w ++ g) := by
    simp only [List.count_append, hd, ht, hi1, hi2, bf, bw, bg]
    simp [List.count_cons]
    omega
  have hlock : List.count Call.Indent (match lockingClause with
        | some lc => LockingClause.RenderTo lc
        | none => []) = 0 ∧
      List.count Call.Unindent (match lockingClause with
        | some lc => LockingClause.RenderTo lc
        | none => []) = 0 := by
    cases lockingClause with
    | none => exact ⟨rfl, rfl⟩
    | some lc =>
      exact ⟨List.count_eq_zero.2 (noIndent_lockingClause lc).1,
             List.count_eq_zero.2 (noIndent_lockingClause lc).2⟩
  obtain ⟨hk1, hk2⟩ := hlock
  refine ⟨[.Text "select" "keyword"] ++ Spec.distinctCalls distinctList.isSome rds ++
      [.NewLine, .Indent] ++ Spec.commaLines rts ++ [.Unindent] ++
      (match intoClause with
       | some i => IntoClause.RenderTo i
       | none => []) ++ f ++ w ++ g, _, hrender, ?_, ?_, hbefore, ?_, ?_,
    selectStmt_render _ orderClause limitClause lockingClause parenWrapped semicolon _ o l
      hrender ho hl, ?_, ?_, ?_, ?_, ?_, ?_, ?_⟩
  · simp
  · rfl
  · simp only [Spec.indentDepth, List.count_append, hbefore, bh]
    simp [List.count_cons]
  · simp only [Option.isSome_some, if_true, List.count_append, hbefore, bh, bwin]
    simp [List.count_cons]
    omega
  · cases parenWrapped <;> simp [Spec.indentDepth, List.count_cons]
  all_goals
    simp only [Option.isSome_some, if_true, Spec.indentDepth, List.count_append, hbefore, bh,
      bwin, bo, bl, hk1, hk2]
    cases parenWrapped <;> cases semicolon <;> simp [List.count_cons]

/-- C24 at `select a having b;`. -/
theorem having_leaves_indent_open_witness :
    ∃ before rs : List Call,
      Expr.RenderTo (.SimpleSelect none [.ColumnRef "a" []] none none none none
        (some (.ColumnRef "b" [])) none none none "" false none none) = some rs ∧
      rs = before ++ [.Text "having" "keyword", .NewLine, .Indent] ++
        [.Text "b" "identifer"] ++ [.NewLine] ++ [] ∧
      before.head? = some (.Text "select" "keyword") ∧
      List.count Call.Indent before = List.count Call.Unindent before ∧
      Spec.indentDepth (before ++ [.Text "having" "keyword", .NewLine, .Indent] ++
        [.Text "b" "identifer"] ++ [.NewLine]) = 1 ∧
      List.count Call.Indent rs = List.count Call.Unindent rs + 1 :=
  (having_leaves_indent_open none [.ColumnRef "a" []] none none none none (.ColumnRef "b" [])
    none "" false none none none none false true
    [] [[.Text "a" "identifer"]] [] [] [] [.Text "b" "identifer"] [] [] []
    List.Forall₂.nil (List.Forall₂.cons rfl List.Forall₂.nil) rfl rfl rfl rfl rfl rfl rfl
    (by decide) (by decide) rfl rfl rfl rfl rfl rfl rfl).imp
    fun _ hb => hb.imp fun _ hr => ⟨hr.1, hr.2.1, hr.2.2.1, hr.2.2.2.1, hr.2.2.2.2.1,
      hr.2.2.2.2.2.1⟩

/-! ## Indent balance -/

theorem depthAfter_append (a : List Call) :
    ∀ (d : Nat) (b : List Call),
      Spec.depthAfter d (a ++ b) = (Spec.depthAfter d a).bind fun d1 => Spec.depthAfter d1 b := by
  induction a with
  | nil => intro d b; rfl
  | cons c cs ih =>
    intro d b
    cases c
    case Unindent =>
      by_cases hd : d = 0
      · simp [Spec.depthAfter, hd]
      · simp [Spec.depthAfter, hd, ih]
    all_goals simp [Spec.depthAfter, ih]

theorem depthAfter_noIndent (cs : List Call) (h : Spec.NoIndent cs) :
    ∀ d, Spec.depthAfter d cs = some d := by
  induction cs with
  | nil => intro d; rfl
  | cons c cs ih =>
    intro d
    have hc := (noIndent_cons c cs).1 h
    cases c
    case Indent => simp at hc
    case Unindent => simp at hc
    all_goals simp [Spec.depthAfter, ih hc.2]

theorem depthAfter_emit (ps : List (Option (List Call))) :
    ∀ (d : Nat) (out : List Call), emit ps = some out →
      Spec.depthAfter d out = Spec.depthParts d ps := by
  induction ps with
  | nil =>
    intro d out h
    cases h
    rfl
  | cons p ps ih =>
    intro d out h
    cases p with
    | none => simp at h
    | some a =>
      obtain ⟨rest, hrest, rfl⟩ := emit_cons_eq_some a ps out h
      rw [depthAfter_append, Spec.depthParts]
      simp only [Option.getD_some]
      cases Spec.depthAfter d a with
      | none => rfl
      | some d1 => exact ih d1 rest hrest

theorem depthAfter_emit_getD (ps : List (Option (List Call))) (d : Nat)
    (h : Spec.depthParts d ps = some d) :
    Spec.depthAfter d ((emit ps).getD []) = some d := by
  cases he : emit ps with
  | none => rfl
  | some out => simpa [depthAfter_emit ps d out he] using h

theorem depthAfter_emitIf (c : Bool) (a : List Call) (d : Nat) (h : Spec.NoIndent a) :
    Spec.depthAfter d ((emitIf c a).getD []) = some d := by
  cases c
  · rfl
  · simpa [emitIf] using depthAfter_noIndent a h d

theorem depthAfter_renderOpt (o : Option Expr) (pre post : List Call) (d : Nat)
    (h : ((Spec.depthAfter d pre).bind fun d1 =>
      (Spec.depthAfter d1 ((Expr.renderReq o).getD [])).bind fun d2 =>
        Spec.depthAfter d2 post) = some d) :
    Spec.depthAfter d ((Expr.renderOpt o pre post).getD []) = some d := by
  cases o with
  | none => rfl
  | some e =>
    rw [renderOpt_some]
    apply depthAfter_emit_getD
    simpa [Spec.depthParts, renderReq_some] using h

theorem inline_integerConst (s : IntegerConst) : Spec.Inline (IntegerConst.RenderTo s) := by
  simp [IntegerConst.RenderTo, inline_cons, inline_nil, Call.onLine]

theorem render_keeps :
    ∀ e : Expr, Spec.havingFree e = true → Spec.Keeps (Expr.RenderTo e) := by
  apply @Expr.rec
    (fun e => Spec.havingFree e = true → Spec.Keeps (Expr.RenderTo e))
    (fun xs => Spec.havingFreeAll xs = true →
      ∀ pre sep post, Spec.NoIndent pre → Spec.NoIndent sep → Spec.NoIndent post →
        Spec.Keeps (Expr.renderLoop xs pre sep post))
    (fun o => Spec.havingFreeOpt o = true → Spec.Keeps (Expr.renderReq o))
    (fun ol => Spec.havingFreeOptAll ol = true → Spec.Keeps (Expr.renderDistinct ol))
  all_goals intros
  all_goals try cases ‹Option OptInterval›
  all_goals try cases ‹Option RelationExpr›
  all_goals try cases ‹Option IntoClause›
  all_goals try cases ‹Option LockingClause›
  all_goals
    simp only [Spec.havingFree, Spec.havingFreeOpt, Spec.havingFreeAll, Spec.havingFreeOptAll,
      Bool.and_eq_true, Option.isNone_iff_eq_none] at *
  all_goals
    simp only [Expr.RenderTo, Expr.renderDistinct, renderLoop_cons, renderLoop_nil,
      renderReq_some, renderReq_none, renderOpt_none, Spec.Keeps] at *
  all_goals try simp_all only [true_implies]
  all_goals intros
  all_goals try split_ifs
  all_goals try apply depthAfter_emit_getD
  all_goals try (
    simp [depthAfter_noIndent, noIndent_of_inline, inline_intervalSecond,
      noIndent_intoClause, noIndent_lockingItem]
    done)
  all_goals try (
    simp [-emit_cons_some, -emit_cons_none, -emit_nil,
      Spec.depthParts, Spec.depthAfter, depthAfter_append, depthAfter_noIndent,
      depthAfter_emitIf, depthAfter_renderOpt, depthAfter_emit_getD,
      noIndent_cons, noIndent_append, noIndent_nil,
      noIndent_of_inline, inline_anyName, inline_optInterval, inline_intervalSecond,
      inline_subqueryOp, inline_renderUsing, inline_renderArrayBounds,
      noIndent_intoClause, noIndent_lockingItem, noIndent_lockingClause,
      noIndent_relationExpr, inline_integerConst, *]
    done)
  all_goals
    simp [-emit_cons_some, -emit_cons_none, -emit_nil,
      Spec.depthParts, Spec.depthAfter, depthAfter_append, depthAfter_noIndent,
      depthAfter_emitIf, depthAfter_renderOpt, depthAfter_emit_getD,
      noIndent_cons, noIndent_append, noIndent_nil,
      noIndent_of_inline, inline_anyName, inline_optInterval, inline_intervalSecond,
      inline_subqueryOp, inline_renderUsing, inline_renderArrayBounds,
      noIndent_intoClause, noIndent_lockingItem, noIndent_lockingClause,
      noIndent_relationExpr, inline_integerConst, *]
  all_goals split_ifs <;> simp [Spec.depthAfter]

theorem balanced_of_depthAfter (cs : List Call) :
    ∀ (d d1 : Nat), Spec.depthAfter d cs = some d1 →
      (∀ p ∈ cs.inits, List.count Call.Unindent p ≤ d + List.count Call.Indent p) ∧
      d + List.count Call.Indent cs = d1 + List.count Call.Unindent cs := by
  induction cs with
  | nil =>
    intro d d1 h
    simp [Spec.depthAfter] at h
    simp [h]
  | cons c cs ih =>
    intro d d1 h
    cases c
    case Indent =>
      simp only [Spec.depthAfter] at h
      obtain ⟨h1, h2⟩ := ih (d + 1) d1 h
      refine ⟨?_, ?_⟩
      · intro p hp
        simp only [List.inits_cons, List.mem_cons, List.mem_map] at hp
        rcases hp with rfl | ⟨q, hq, rfl⟩
        · simp
        · have := h1 q hq
          simp [List.count_cons]
          omega
      · simp [List.count_cons]
        omega
    case Unindent =>
      by_cases hd : d = 0
      · simp [Spec.depthAfter, hd] at h
      · simp only [Spec.depthAfter, hd, if_false] at h
        obtain ⟨h1, h2⟩ := ih (d - 1) d1 h
        refine ⟨?_, ?_⟩
        · intro p hp
          simp only [List.inits_cons, List.mem_cons, List.mem_map] at hp
          rcases hp with rfl | ⟨q, hq, rfl⟩
          · simp
          · have := h1 q hq
            simp [List.count_cons]
            omega
        · simp [List.count_cons]
          omega
    all_goals
      simp only [Spec.depthAfter] at h
      obtain ⟨h1, h2⟩ := ih d d1 h
      refine ⟨?_, ?_⟩
      · intro p hp
        simp only [List.inits_cons, List.mem_cons, List.mem_map] at hp
        rcases hp with rfl | ⟨q, hq, rfl⟩
        · simp
        · have := h1 q hq
          simp [List.count_cons]
          omega
      · simp [List.count_cons]
        omega

/-- C23: a well-formed tree without a HAVING clause anywhere renders, and its rendering is
indent-balanced: every prefix of the call sequence holds at least as many Indent as
Unindent calls and the whole sequence holds equally many, so the indent depth of the sink
never drops below the depth before the rendering and is back at it afterwards. -/
theorem render_indent_balanced (e : Expr) (hw : Spec.wellFormed e = true)
    (hh : Spec.havingFree e = true) :
    ∃ out : List Call, Expr.RenderTo e = some out ∧ Spec.Balanced out ∧
      Spec.indentDepth out = 0 ∧ ∀ d, Spec.depthAfter d out = some d := by
  obtain ⟨out, hout⟩ := Option.isSome_iff_exists.mp (render_isSome_of_wellFormed e hw)
  have hk : ∀ d, Spec.depthAfter d out = some d := by
    intro d
    have := render_keeps e hh d
    rwa [hout] at this
  obtain ⟨h1, h2⟩ := balanced_of_depthAfter out 0 0 (hk 0)
  refine ⟨out, hout, ⟨?_, ?_⟩, ?_, hk⟩
  · intro p hp
    simpa using h1 p hp
  · omega
  · simp only [Spec.indentDepth]
    omega

/-- C23 at `select case when a then b end from t order by c;`. -/
theorem render_indent_balanced_witness :
    ∃ out : List Call,
      Expr.RenderTo (.SelectStmt
        (.SimpleSelect none
          [.CaseExpr none [.WhenClause (some (.ColumnRef "a" [])) (some (.ColumnRef "b" []))]
            none]
          none (some (.FromClause (some (.RelationExpr ⟨["t"], false, false⟩))))
          none none none none none none "" false none none)
        (some (.OrderClause [.OrderExpr (some (.ColumnRef "c" [])) "" [] ""]))
        none none false true) = some out ∧
      Spec.Balanced out ∧ Spec.indentDepth out = 0 ∧ ∀ d, Spec.depthAfter d out = some d :=
  render_indent_balanced _ rfl rfl

end Sqlfmt
